import Mathlib

/-!
# DeckLink capture core (`libavdevice/decklink_dec.cpp`)

A shallow embedding of the packet queue, the PTS resolver and the teletext
(OP-47 / VANC) decoders of `decklink_dec.cpp`, followed by theorems about them.

Conventions of the embedding.
* `int` / `int64_t` values are `Int`; arithmetic that the C code performs in a
  fixed width is reduced explicitly (`wrap32`, `wrap64`, `% 2^64`, `% 256`).
* `NULL` is `none`; a pointer to a queue node is `some a` for an address `a`.
* The mutex / condition variable of the queue are not represented: the model is
  the sequential behaviour of each operation executed under the lock.  A
  blocking `get` on an empty queue never returns in a sequential run and is
  modelled by `none`.
-/

namespace Decklink

/-! ## Machine integers -/

/-- Two's-complement reduction to the range of a 32-bit `int`. -/
def wrap32 (x : Int) : Int := (x + 2 ^ 31) % 2 ^ 32 - 2 ^ 31

/-- Two's-complement reduction to the range of `int64_t`. -/
def wrap64 (x : Int) : Int := (x + 2 ^ 63) % 2 ^ 64 - 2 ^ 63

/-! ## Packet queue -/

/-- The fields of `AVPacket` used by the capture code.  `data` is the payload
the packet refers to (its bytes), `size` is the `int` length field. -/
structure AVPacket where
  pts : Int
  dts : Int
  data : List Nat
  size : Int
  stream_index : Int
  flags : Int
  duration : Int
deriving DecidableEq, Repr

/-- Queue node `AVPacketList`: a packet and the `next` pointer. -/
structure AVPacketList where
  pkt : AVPacket
  next : Option Nat
deriving DecidableEq, Repr

/-- The struct `AVPacketQueue` together with the node storage it points into.
`mem a` is the node stored at address `a` (`none`: not allocated) and `brk` is
the next address `av_malloc` hands out; `first_pkt`, `last_pkt`, `nb_packets`
and `size` are the fields of the C struct (`size` is `unsigned long long`). -/
structure AVPacketQueue where
  mem : Nat → Option AVPacketList
  brk : Nat
  first_pkt : Option Nat
  last_pkt : Option Nat
  nb_packets : Int
  size : Nat

/-- Store a node at an address. -/
def storeNode (mem : Nat → Option AVPacketList) (a : Nat) (n : Option AVPacketList) :
    Nat → Option AVPacketList :=
  fun x => if x = a then n else mem x

/-- Function `avpacket_queue_init`: `memset(q, 0, sizeof(AVPacketQueue))`. -/
def avpacket_queue_init : AVPacketQueue :=
  { mem := fun _ => none, brk := 1, first_pkt := none, last_pkt := none,
    nb_packets := 0, size := 0 }

/-- The loop of `avpacket_queue_flush`: follow `next` from `pkt`, freeing each
node.  The fuel bounds the number of nodes visited. -/
def flushNodes (mem : Nat → Option AVPacketList) : Nat → Option Nat → Nat → Option AVPacketList
  | 0, _ => mem
  | _ + 1, none => mem
  | fuel + 1, some a =>
    match mem a with
    | none => mem
    | some n => flushNodes (storeNode mem a none) fuel n.next

/-- Function `avpacket_queue_flush`. -/
def avpacket_queue_flush (q : AVPacketQueue) : AVPacketQueue :=
  { q with
    mem := flushNodes q.mem q.brk q.first_pkt
    last_pkt := none
    first_pkt := none
    nb_packets := 0
    size := 0 }

/-- Function `avpacket_queue_size`. -/
def avpacket_queue_size (q : AVPacketQueue) : Nat := q.size

/-- Function `avpacket_queue_put`.  `nodeSize` is `sizeof(AVPacketList)`; `dup_ok` and
`malloc_ok` are the outcomes of `av_dup_packet` and `av_malloc`.  Returns the
C return value and the queue afterwards. -/
def avpacket_queue_put (nodeSize : Nat) (q : AVPacketQueue) (pkt : AVPacket)
    (dup_ok malloc_ok : Bool) : Int × AVPacketQueue :=
  if avpacket_queue_size q > 1024 * 1024 * 1024 then (-1, q)
  else if !dup_ok then (-1, q)
  else if !malloc_ok then (-1, q)
  else
    let pkt1 := q.brk
    let mem1 := storeNode q.mem pkt1 (some { pkt := pkt, next := none })
    let mem2 :=
      match q.last_pkt with
      | none => mem1
      | some l =>
        match mem1 l with
        | none => mem1
        | some n => storeNode mem1 l (some { n with next := some pkt1 })
    let first :=
      match q.last_pkt with
      | none => some pkt1
      | some _ => q.first_pkt
    (0, { mem := mem2
          brk := q.brk + 1
          first_pkt := first
          last_pkt := some pkt1
          nb_packets := wrap32 (q.nb_packets + 1)
          size := (((q.size : Int) + (pkt.size + (nodeSize : Int)) % 2 ^ 64) % 2 ^ 64).toNat })

/-- Function `avpacket_queue_get`.  `none`: the call waits on the condition
variable (blocking call on an empty queue; a `first_pkt` that points to no node,
which no well-formed queue has, is mapped to `none` as well).  Otherwise the C
return value, the packet written to `*pkt` (if any) and the queue afterwards. -/
def avpacket_queue_get (nodeSize : Nat) (q : AVPacketQueue) (block : Bool) :
    Option (Int × Option AVPacket × AVPacketQueue) :=
  match q.first_pkt with
  | some a =>
    match q.mem a with
    | some pkt1 =>
      let last := if pkt1.next = none then none else q.last_pkt
      some (1, some pkt1.pkt,
        { mem := storeNode q.mem a none
          brk := q.brk
          first_pkt := pkt1.next
          last_pkt := last
          nb_packets := wrap32 (q.nb_packets - 1)
          size := (((q.size : Int) - (pkt1.pkt.size + (nodeSize : Int)) % 2 ^ 64) % 2 ^ 64).toNat })
    | none => none
  | none => if block then none else some (0, none, q)

/-- Follow `next` pointers from `p`, collecting the packets; the fuel bounds the
number of nodes visited. -/
def walk (mem : Nat → Option AVPacketList) : Nat → Option Nat → List AVPacket
  | 0, _ => []
  | _ + 1, none => []
  | fuel + 1, some a =>
    match mem a with
    | none => []
    | some n => n.pkt :: walk mem fuel n.next

/-- The packets held by the queue, head first. -/
def queued (q : AVPacketQueue) : List AVPacket := walk q.mem q.brk q.first_pkt

/-- Put the packets in order, each with the outcomes of `av_dup_packet` and
`av_malloc` for its call; `some q` when every `avpacket_queue_put` returned 0. -/
def putAll (nodeSize : Nat) : AVPacketQueue → List (AVPacket × Bool × Bool) → Option AVPacketQueue
  | q, [] => some q
  | q, (pkt, dup_ok, malloc_ok) :: cs =>
    let r := avpacket_queue_put nodeSize q pkt dup_ok malloc_ok
    if r.1 = 0 then putAll nodeSize r.2 cs else none

/-- One `avpacket_queue_get` per element of `blocks` (the `block` argument of
the call); `some (pkts, q)` when every call returned 1, with the packets
delivered, in call order. -/
def getAll (nodeSize : Nat) : AVPacketQueue → List Bool → Option (List AVPacket × AVPacketQueue)
  | q, [] => some ([], q)
  | q, b :: bs =>
    match avpacket_queue_get nodeSize q b with
    | some (1, some pkt, q1) =>
      match getAll nodeSize q1 bs with
      | some (pkts, q2) => some (pkt :: pkts, q2)
      | none => none
    | _ => none

/-- The chain starting at pointer `p` visits exactly the nodes `l` (address and
packet of each, in order) and ends in `NULL`. -/
def Linked (mem : Nat → Option AVPacketList) : Option Nat → List (Nat × AVPacket) → Prop
  | p, [] => p = none
  | p, (a, k) :: l => p = some a ∧ ∃ nx, mem a = some ⟨k, nx⟩ ∧ Linked mem nx l

/-- Representation invariant of the queue: `first_pkt` heads a `NULL`-terminated
chain of distinct allocated nodes `l`, and `last_pkt` points to its last node. -/
structure Shape (q : AVPacketQueue) (l : List (Nat × AVPacket)) : Prop where
  linked : Linked q.mem q.first_pkt l
  nodup : (l.map Prod.fst).Nodup
  below : ∀ a ∈ l.map Prod.fst, a < q.brk
  last : q.last_pkt = (l.getLast?).map Prod.fst
  len : l.length ≤ q.brk

/-- Sum of `pkt.size + sizeof(AVPacketList)` over a list of packets. -/
def footprint (nodeSize : Nat) (ps : List AVPacket) : Int :=
  (ps.map (fun p => p.size + (nodeSize : Int))).sum

/-- The counters agree with the chain up to the width of their C types. -/
structure Counted (nodeSize : Nat) (q : AVPacketQueue) (l : List (Nat × AVPacket)) : Prop where
  nb : q.nb_packets = wrap32 l.length
  size : (q.size : Int) = footprint nodeSize (l.map Prod.snd) % 2 ^ 64

/-- States reachable from `avpacket_queue_init` by `put` (packets with a
non-negative `int` size), `get` (any call that returns) and `flush`. -/
inductive Reachable (nodeSize : Nat) : AVPacketQueue → Prop
  | init : Reachable nodeSize avpacket_queue_init
  | put (q : AVPacketQueue) (pkt : AVPacket) (dup_ok malloc_ok : Bool) :
      Reachable nodeSize q → 0 ≤ pkt.size → pkt.size < 2 ^ 31 →
      Reachable nodeSize (avpacket_queue_put nodeSize q pkt dup_ok malloc_ok).2
  | get (q : AVPacketQueue) (block : Bool) (r : Int × Option AVPacket × AVPacketQueue) :
      Reachable nodeSize q → avpacket_queue_get nodeSize q block = some r →
      Reachable nodeSize r.2.2
  | flush (q : AVPacketQueue) : Reachable nodeSize q → Reachable nodeSize (avpacket_queue_flush q)

/-- The chain nodes carry non-negative `int` sizes and the counters are within
the bounds that exclude wrap-around. -/
structure Exact (nodeSize : Nat) (l : List (Nat × AVPacket)) : Prop where
  range : ∀ x ∈ l, 0 ≤ x.2.size ∧ x.2.size < 2 ^ 31
  total : footprint nodeSize (l.map Prod.snd) ≤ 2 ^ 30 + 2 ^ 31 + (nodeSize : Int)
  count : l.length ≤ 2 ^ 30 + 1

/-- A queue state with a well-formed chain of nodes. -/
def WellFormed (q : AVPacketQueue) : Prop := ∃ l, Shape q l

/-- Two sample packets used to instantiate the queue theorems. -/
def samplePacketA : AVPacket :=
  { pts := 0, dts := 0, data := [1, 2, 3], size := 3, stream_index := 0, flags := 1, duration := 40 }

/-- Second sample packet. -/
def samplePacketB : AVPacket :=
  { pts := 40, dts := 40, data := [9, 8], size := 2, stream_index := 1, flags := 1, duration := 40 }

/-- A packet larger than the 1 GiB ceiling of the queue. -/
def samplePacketHuge : AVPacket :=
  { pts := 0, dts := 0, data := [], size := 1024 * 1024 * 1024 + 1, stream_index := 0,
    flags := 1, duration := 40 }

/-! ## PTS resolver -/

/-- Type `HRESULT`: status codes of the DeckLink API. -/
abbrev HRESULT := Int

/-- Status `S_OK`. -/
def S_OK : HRESULT := 0

/-- Status `E_INVALIDARG`. -/
def E_INVALIDARG : HRESULT := 0x80070057

/-- Status `E_FAIL`. -/
def E_FAIL : HRESULT := 0x80004005

/-- Constant `AV_NOPTS_VALUE`, `((int64_t)UINT64_C(0x8000000000000000))`. -/
def AV_NOPTS_VALUE : Int := -(2 ^ 63)

/-- Constant `AV_TIME_BASE`. -/
def AV_TIME_BASE : Int := 1000000

/-- Enumeration `DecklinkPtsSource`. -/
inductive DecklinkPtsSource where
  | PTS_SRC_AUDIO
  | PTS_SRC_VIDEO
  | PTS_SRC_REFERENCE
  | PTS_SRC_WALLCLOCK
deriving DecidableEq, Repr

open DecklinkPtsSource

/-- Struct `AVRational`. -/
structure AVRational where
  num : Int
  den : Int
deriving DecidableEq, Repr

/-- Frame flag `bmdFrameHasNoInputSource` of the DeckLink SDK (`1 << 31`). -/
def bmdFrameHasNoInputSource : Nat := 0x80000000

/-- Pixel format `bmdFormat8BitYUV` of the DeckLink SDK (`'2vuy'`). -/
def bmdFormat8BitYUV : Int := 0x32767579

/-- Pixel format `bmdFormat10BitYUV` of the DeckLink SDK (`'v210'`). -/
def bmdFormat10BitYUV : Int := 0x76323130

/-- Display mode `bmdModePAL` of the DeckLink SDK (`'pal '`). -/
def bmdModePAL : Int := 0x70616c20

/-- Field dominance `bmdProgressiveFrame` of the DeckLink SDK (`'prog'`). -/
def bmdProgressiveFrame : Int := 0x70726f67

/-- The accessors of `IDeckLinkVideoFrameAncillary` used by the callback: the
pixel format, and for a line number the byte memory of the blanking line
(`none` when `GetBufferForVerticalBlankingLine` does not return `S_OK`). -/
structure IDeckLinkVideoFrameAncillary where
  GetPixelFormat : Int
  GetBufferForVerticalBlankingLine : Int → Option (Nat → Nat)

/-- The accessors of `IDeckLinkVideoInputFrame`.  The timing accessors give, for
a time scale, the status and the values stored through the out-parameters
(time, duration); `GetBytes` is the frame buffer; `GetAncillaryData` is `none`
when the call does not return `S_OK`. -/
structure IDeckLinkVideoInputFrame where
  GetStreamTime : Int → HRESULT × Int × Int
  GetHardwareReferenceTimestamp : Int → HRESULT × Int × Int
  GetBytes : List Nat := []
  GetFlags : Nat := 0
  GetPixelFormat : Int := bmdFormat8BitYUV
  GetWidth : Int := 0
  GetHeight : Int := 0
  GetRowBytes : Int := 0
  GetAncillaryData : Option IDeckLinkVideoFrameAncillary := none

/-- The accessors of `IDeckLinkAudioInputPacket`: for a time scale, the status
and the packet time stored through the out-parameter; the sample frame count;
the audio buffer. -/
structure IDeckLinkAudioInputPacket where
  GetPacketTime : Int → HRESULT × Int
  GetSampleFrameCount : Int := 0
  GetBytes : List Nat := []

/-- The `int64_t` division `a / b` of C (truncating). -/
def div64 (a b : Int) : Int := wrap64 (Int.tdiv a b)

/-- The `switch (pts_src)` of `get_pkt_pts`: the values of `res`, `bmd_pts` and
`pts` after it.  `bmd_pts` is only meaningful when `res` is `S_OK`;
`av_rescale_q` is the libavutil function. -/
def pts_switch (av_rescale_q : Int → AVRational → AVRational → Int)
    (videoFrame : Option IDeckLinkVideoInputFrame) (audioFrame : Option IDeckLinkAudioInputPacket)
    (wallclock : Int) (pts_src : DecklinkPtsSource) (time_base : AVRational) :
    HRESULT × Int × Int :=
  match pts_src with
  | PTS_SRC_AUDIO =>
    match audioFrame with
    | some a => ((a.GetPacketTime time_base.den).1, (a.GetPacketTime time_base.den).2,
        AV_NOPTS_VALUE)
    | none => (E_INVALIDARG, 0, AV_NOPTS_VALUE)
  | PTS_SRC_VIDEO =>
    match videoFrame with
    | some v => ((v.GetStreamTime time_base.den).1, (v.GetStreamTime time_base.den).2.1,
        AV_NOPTS_VALUE)
    | none => (E_INVALIDARG, 0, AV_NOPTS_VALUE)
  | PTS_SRC_REFERENCE =>
    match videoFrame with
    | some v => ((v.GetHardwareReferenceTimestamp time_base.den).1,
        (v.GetHardwareReferenceTimestamp time_base.den).2.1, AV_NOPTS_VALUE)
    | none => (E_INVALIDARG, 0, AV_NOPTS_VALUE)
  | PTS_SRC_WALLCLOCK =>
    (E_INVALIDARG, 0, av_rescale_q wallclock ⟨1, AV_TIME_BASE⟩ time_base)

/-- Function `get_pkt_pts`: returns the timestamp and the value of `*initial_pts`
afterwards. -/
def get_pkt_pts (av_rescale_q : Int → AVRational → AVRational → Int)
    (videoFrame : Option IDeckLinkVideoInputFrame) (audioFrame : Option IDeckLinkAudioInputPacket)
    (wallclock : Int) (pts_src : DecklinkPtsSource) (time_base : AVRational)
    (initial_pts : Int) : Int × Int :=
  let sw := pts_switch av_rescale_q videoFrame audioFrame wallclock pts_src time_base
  let res := sw.1
  let bmd_pts := sw.2.1
  let pts := if res = S_OK then div64 bmd_pts time_base.num else sw.2.2
  let initial_pts1 :=
    if pts ≠ AV_NOPTS_VALUE ∧ initial_pts = AV_NOPTS_VALUE then pts else initial_pts
  let pts := if initial_pts1 ≠ AV_NOPTS_VALUE then wrap64 (pts - initial_pts1) else pts
  (pts, initial_pts1)

/-- One call of `get_pkt_pts`: the frames and the wall-clock sample passed. -/
abbrev PtsCall := Option IDeckLinkVideoInputFrame × Option IDeckLinkAudioInputPacket × Int

/-- Consecutive calls of `get_pkt_pts` on one clock state: the value returned
by each call and the clock state after it. -/
def pts_run (av_rescale_q : Int → AVRational → AVRational → Int) (pts_src : DecklinkPtsSource)
    (time_base : AVRational) : Int → List PtsCall → List (Int × Int)
  | _, [] => []
  | s, c :: cs =>
    let r := get_pkt_pts av_rescale_q c.1 c.2.1 c.2.2 pts_src time_base s
    r :: pts_run av_rescale_q pts_src time_base r.2 cs

/-- The device timestamp the policy's accessor delivers for a call. -/
def device_time (av_rescale_q : Int → AVRational → AVRational → Int)
    (pts_src : DecklinkPtsSource) (time_base : AVRational) (c : PtsCall) : Int :=
  (pts_switch av_rescale_q c.1 c.2.1 c.2.2 pts_src time_base).2.1

/-- The raw timestamp of a call: device timestamp divided by `time_base.num`. -/
def raw_pts (av_rescale_q : Int → AVRational → AVRational → Int)
    (pts_src : DecklinkPtsSource) (time_base : AVRational) (c : PtsCall) : Int :=
  div64 (device_time av_rescale_q pts_src time_base c) time_base.num

/-- A video frame whose timing accessors succeed with time `t`. -/
def sampleVideoFrame (t : Int) : IDeckLinkVideoInputFrame :=
  { GetStreamTime := fun _ => (S_OK, t, 40)
    GetHardwareReferenceTimestamp := fun _ => (S_OK, t, 40) }

/-- A video frame whose timing accessors fail. -/
def failingVideoFrame : IDeckLinkVideoInputFrame :=
  { GetStreamTime := fun _ => (E_FAIL, 0, 0)
    GetHardwareReferenceTimestamp := fun _ => (E_FAIL, 0, 0) }

/-- A stand-in for `av_rescale_q` (not used by the device-clock policies). -/
def sampleRescale (a : Int) (_ _ : AVRational) : Int := a

/-! ## Teletext data units -/

/-- Function `calc_parity_and_line_offset`; the result is the `uint8_t` value. -/
def calc_parity_and_line_offset (line : Int) : Nat :=
  let ret : Int := ((if line < 313 then 1 else 0) * 2 ^ 5) % 256
  let ret : Int := if line ≥ 7 ∧ line ≤ 22 then (ret + line) % 256 else ret
  let ret : Int := if line ≥ 320 ∧ line ≤ 335 then (ret + (line - 313)) % 256 else ret
  ret.toNat

/-- Byte-addressed memory holding the teletext output buffer. -/
abbrev Bytes := Nat → Nat

/-- Store one byte: `*a = v`. -/
def poke (m : Bytes) (a v : Nat) : Bytes := fun x => if x = a then v else m x

/-- Read `y[i]` of the 16-bit sample array `y`; `none` when the index is outside
the array. -/
def sample (y : List Nat) (i : Int) : Option Nat :=
  if 0 ≤ i then y[i.toNat]? else none

/-- Modelled from the spec: `ff_reverse`, the 256-entry table of libavutil
(`libavutil/reverse.h`), which is not among the sources; the spec calls its use
"reversing bit order": entry `b` is the byte `b` with its eight bits in reverse
order. -/
def ff_reverse (b : Nat) : Nat :=
  (b / 1 % 2) * 128 + (b / 2 % 2) * 64 + (b / 4 % 2) * 32 + (b / 8 % 2) * 16 +
    (b / 16 % 2) * 8 + (b / 32 % 2) * 4 + (b / 64 % 2) * 2 + (b / 128 % 2) * 1

/-- Function `fill_data_unit_head`. -/
def fill_data_unit_head (line : Int) (tgt : Nat) (mem : Bytes) : Bytes :=
  let mem := poke mem (tgt + 0) 0x02
  let mem := poke mem (tgt + 1) 0x2c
  let mem := poke mem (tgt + 2) (calc_parity_and_line_offset line)
  poke mem (tgt + 3) 0xe4

/-- The loop `for (i = 0; i < 42; i++) *tgt++ = ff_reverse[py[i] & 255];` with
`n` iterations left. -/
def op47_payload (y : List Nat) (py : Int) : Nat → Nat → Nat → Bytes → Option (Nat × Bytes)
  | 0, _, tgt, mem => some (tgt, mem)
  | n + 1, i, tgt, mem =>
    match sample y (py + i) with
    | none => none
    | some w => op47_payload y py n (i + 1) (tgt + 1) (poke mem tgt (ff_reverse (w &&& 255)))

/-- The test `py[0] != 0x255 || py[1] != 0x255 || py[2] != 0x227`, reading the
words in order and stopping at the first that differs. -/
def op47_header_mismatch (y : List Nat) (py : Int) : Option Bool :=
  match sample y py with
  | none => none
  | some a =>
    if a ≠ 0x255 then some true
    else match sample y (py + 1) with
      | none => none
      | some b =>
        if b ≠ 0x255 then some true
        else match sample y (py + 2) with
          | none => none
          | some c => some (decide (c ≠ 0x227))

/-- Function `teletext_data_unit_from_op47_vbi_packet`: `py` is the index of the packet
in the sample array `y`, `tgt` the output address.  Returns the new output
address and the memory; `none` if a read leaves the array. -/
def teletext_data_unit_from_op47_vbi_packet (line : Int) (y : List Nat) (py : Int) (tgt : Nat)
    (mem : Bytes) : Option (Nat × Bytes) :=
  match op47_header_mismatch y py with
  | none => none
  | some true => some (tgt, mem)
  | some false =>
    let mem := fill_data_unit_head line tgt mem
    let py := py + 3
    let tgt := tgt + 4
    op47_payload y py 42 0 tgt mem

/-- The variable `shift` of `linemask_matches` before the `return`. -/
def linemask_shift (line : Int) : Int :=
  let shift : Int := -1
  let shift : Int := if line ≥ 6 ∧ line ≤ 22 then line - 6 else shift
  if line ≥ 318 ∧ line ≤ 335 then line - 318 + 17 else shift

/-- Function `linemask_matches`; `mask` is the `int64_t` selector, converted to
`unsigned long long` by the `&` with `1ULL << shift`. -/
def linemask_matches (line : Int) (mask : Int) : Bool :=
  decide (linemask_shift line ≥ 0) &&
    decide ((2 ^ (linemask_shift line).toNat % 2 ^ 64) &&& (mask % 2 ^ 64).toNat ≠ 0)

/-- The test `py[0] == 0x151 && py[1] == 0x115 && py[3] == 0x102`, reading the
words in order and stopping at the first that differs. -/
def op47_prefix_ok (y : List Nat) (py : Int) : Option Bool :=
  match sample y py with
  | none => none
  | some a =>
    if a ≠ 0x151 then some false
    else match sample y (py + 1) with
      | none => none
      | some b =>
        if b ≠ 0x115 then some false
        else match sample y (py + 3) with
          | none => none
          | some c => some (decide (c = 0x102))

/-- The loop `for (i = 0; i < 5 && py < pend - 45; i++, py += 45)` of
`teletext_data_unit_from_op47_data`, with `n = 5 - i` iterations left. -/
def op47_units (y : List Nat) (descriptors pend : Int) (wanted_lines : Int) :
    Nat → Nat → Int → Nat → Bytes → Option (Nat × Bytes)
  | 0, _, _, tgt, mem => some (tgt, mem)
  | n + 1, i, py, tgt, mem =>
    if py < pend - 45 then
      match sample y (descriptors + i) with
      | none => none
      | some d =>
        let line : Int := ((d &&& 31 : Nat) : Int) + (if d &&& 128 = 0 then 1 else 0) * 313
        let r :=
          if line ≠ 0 ∧ linemask_matches line wanted_lines = true then
            teletext_data_unit_from_op47_vbi_packet line y py tgt mem
          else some (tgt, mem)
        match r with
        | none => none
        | some (tgt1, mem1) => op47_units y descriptors pend wanted_lines n (i + 1) (py + 45) tgt1 mem1
    else some (tgt, mem)

/-- Function `teletext_data_unit_from_op47_data`. -/
def teletext_data_unit_from_op47_data (y : List Nat) (py pend : Int) (tgt : Nat) (mem : Bytes)
    (wanted_lines : Int) : Option (Nat × Bytes) :=
  if py < pend - 9 then
    match op47_prefix_ok y py with
    | none => none
    | some false => some (tgt, mem)
    | some true =>
      let descriptors := py + 4
      let py := py + 9
      op47_units y descriptors pend wanted_lines 5 0 py tgt mem
  else some (tgt, mem)

/-- The loop `while (py < pend - 3)` over the sub-packets of a multi-packet
container; `sub` is the nested call of
`teletext_data_unit_from_ancillary_packet` with `allow_multipacket = 0`.  The
fuel bounds the number of iterations; `none` if it runs out or a read leaves
the array. -/
def multipacket_units (sub : Int → Int → Nat → Bytes → Option (Nat × Bytes)) (y : List Nat)
    (pend : Int) : Nat → Int → Nat → Bytes → Option (Nat × Bytes)
  | 0, py, tgt, mem => if py < pend - 3 then none else some (tgt, mem)
  | fuel + 1, py, tgt, mem =>
    if py < pend - 3 then
      match sub py pend tgt mem with
      | none => none
      | some (tgt1, mem1) =>
        match sample y (py + 2) with
        | none => none
        | some ndc => multipacket_units sub y pend fuel (py + (4 + ((ndc &&& 255 : Nat) : Int))) tgt1 mem1
    else some (tgt, mem)

/-- Function `teletext_data_unit_from_ancillary_packet` with an explicit bound `depth`
on the nesting of calls (`none` when it is exceeded). -/
def ancillary_packet_depth (y : List Nat) (wanted_lines : Int) :
    Nat → Int → Int → Nat → Bytes → Int → Option (Nat × Bytes)
  | 0, _, _, _, _, _ => none
  | depth + 1, py, pend, tgt, mem, allow_multipacket =>
    match sample y py, sample y (py + 1), sample y (py + 2) with
    | some did, some sdid, some w =>
      let dc : Nat := w &&& 255
      let py := py + 3
      let pend := min pend (py + (dc : Int))
      if did = 0x143 ∧ sdid = 0x102 then
        teletext_data_unit_from_op47_data y py pend tgt mem wanted_lines
      else if allow_multipacket ≠ 0 ∧ did = 0x143 ∧ sdid = 0x203 then
        let py := py + 2
        multipacket_units
          (fun p e t m => ancillary_packet_depth y wanted_lines depth p e t m 0)
          y pend (pend - py).toNat py tgt mem
      else some (tgt, mem)
    | _, _, _ => none

/-- Function `teletext_data_unit_from_ancillary_packet`.  The nested calls pass
`allow_multipacket = 0`, so two levels of calls are all that can occur. -/
def teletext_data_unit_from_ancillary_packet (y : List Nat) (py pend : Int) (tgt : Nat)
    (mem : Bytes) (wanted_lines : Int) (allow_multipacket : Int) : Option (Nat × Bytes) :=
  ancillary_packet_depth y wanted_lines 2 py pend tgt mem allow_multipacket

/-- The first loop of `teletext_data_unit_from_vanc_data`: the luma samples of
`n` groups of 8 bytes of V210 data starting at `src + off`. -/
def v210_luma (src : Bytes) : Nat → Nat → List Nat
  | 0, _ => []
  | n + 1, off =>
    ((src (off + 1) >>> 2) + ((src (off + 2) &&& 15) <<< 6)) ::
    (src (off + 4) + ((src (off + 5) &&& 3) <<< 8)) ::
    ((src (off + 6) >>> 4) + ((src (off + 7) &&& 63) <<< 4)) ::
    v210_luma src n (off + 8)

/-- The test `py[0] == 0 && py[1] == 0x3ff && py[2] == 0x3ff` (ancillary data
flag), reading the words in order and stopping at the first that differs. -/
def adf_at (y : List Nat) (py : Int) : Option Bool :=
  match sample y py with
  | none => none
  | some a =>
    if a ≠ 0 then some false
    else match sample y (py + 1) with
      | none => none
      | some b =>
        if b ≠ 0x3ff then some false
        else match sample y (py + 2) with
          | none => none
          | some c => some (decide (c = 0x3ff))

/-- The second loop of `teletext_data_unit_from_vanc_data`,
`while (py < pend - 6)`.  The fuel bounds the number of iterations; `none` if
it runs out or a read leaves the array. -/
def vanc_scan (y : List Nat) (pend : Int) (wanted_lines : Int) :
    Nat → Int → Nat → Bytes → Option (Nat × Bytes)
  | 0, py, tgt, mem => if py < pend - 6 then none else some (tgt, mem)
  | fuel + 1, py, tgt, mem =>
    if py < pend - 6 then
      match adf_at y py with
      | none => none
      | some true =>
        let py := py + 3
        match teletext_data_unit_from_ancillary_packet y py pend tgt mem wanted_lines 0 with
        | none => none
        | some (tgt1, mem1) =>
          match sample y (py + 2) with
          | none => none
          | some dc => vanc_scan y pend wanted_lines fuel (py + ((dc &&& 255 : Nat) : Int)) tgt1 mem1
      | some false => vanc_scan y pend wanted_lines fuel (py + 1) tgt mem
    else some (tgt, mem)

/-- Function `teletext_data_unit_from_vanc_data`: `src` is the memory holding the V210
line, read from address 0. -/
def teletext_data_unit_from_vanc_data (src : Bytes) (tgt : Nat) (mem : Bytes)
    (wanted_lines : Int) : Option (Nat × Bytes) :=
  let y := v210_luma src 640 0
  vanc_scan y 1920 wanted_lines 1920 0 tgt mem

/-- A 45-word OP-47 VBI packet: the header 0x255, 0x255, 0x227 and 42 payload
words. -/
def sampleVbiPacket : List Nat := [0x255, 0x255, 0x227] ++ List.replicate 42 0x115

/-- A 45-word packet whose third header word is wrong. -/
def sampleBadVbiPacket : List Nat := [0x255, 0x255, 0x228] ++ List.replicate 42 0x115

/-- Pack luma samples into V210 (chroma 0): byte `a` of the line whose luma
samples are `y` (samples past the end of `y` are 0). -/
def v210_pack (y : List Nat) : Bytes := fun a =>
  let g := a / 8
  let y0 := y.getD (3 * g) 0
  let y1 := y.getD (3 * g + 1) 0
  let y2 := y.getD (3 * g + 2) 0
  match a % 8 with
  | 1 => (y0 % 64) * 4
  | 2 => y0 / 64
  | 4 => y1 % 256
  | 5 => y1 / 256
  | 6 => (y2 % 16) * 16
  | 7 => y2 / 16
  | _ => 0

/-- The start of a VANC line: an ancillary data flag, a multi-packet container
(did 0x143, sdid 0x203, data count 66) and inside it one subtitle-distribution
sub-packet (did 0x143, sdid 0x102, data count 60) carrying one VBI packet for
line 7 of the first field.  The rest of the 1920-sample line is 0. -/
def sampleContainerLine : List Nat :=
  [0, 0x3ff, 0x3ff, 0x143, 0x203, 0x242, 0x200, 0x200,
   0x143, 0x102, 0x23c,
   0x151, 0x115, 0x200, 0x102, 0x287, 0x200, 0x200, 0x200, 0x200] ++ sampleVbiPacket

/-- Bit `k` of the 64-bit two's-complement representation of `mask`. -/
def mask_bit (mask : Int) (k : Nat) : Bool := (mask % 2 ^ 64).toNat.testBit k

/-- The line number of sub-packet descriptor `d` as the specification words it:
the 5-bit field, plus 313 when the field-selector bit (bit 7) is clear. -/
def op47_line_spec (d : Nat) : Int :=
  if d.testBit 7 = false then ((d % 32 : Nat) : Int) + 313 else ((d % 32 : Nat) : Int)

/-- Sub-packet `i` of an OP-47 payload at `py`, as the specification words it:
if its 45 words start before `pend - 45`, compute the line from descriptor `i`
and, when the line is non-zero and selected, append the unit decoded from the
sub-packet at `py + 9 + 45 * i`; otherwise leave the output as it is. -/
def op47_unit_spec (y : List Nat) (py pend : Int) (wanted_lines : Int) (st : Nat × Bytes)
    (i : Nat) : Option (Nat × Bytes) :=
  if py + 9 + 45 * (i : Int) < pend - 45 then
    match sample y (py + 4 + (i : Int)) with
    | none => none
    | some d =>
      if op47_line_spec d ≠ 0 ∧ linemask_matches (op47_line_spec d) wanted_lines = true then
        teletext_data_unit_from_op47_vbi_packet (op47_line_spec d) y (py + 9 + 45 * (i : Int))
          st.1 st.2
      else some st
  else some st

/-- The OP-47 payload decoder as the specification words it: nothing unless more
than 9 words are available and words 0, 1, 3 are 0x151, 0x115, 0x102; otherwise
sub-packets 0 to 4 in order, each by `op47_unit_spec`. -/
def op47_data_spec (y : List Nat) (py pend : Int) (tgt : Nat) (mem : Bytes)
    (wanted_lines : Int) : Option (Nat × Bytes) :=
  if py < pend - 9 then
    match sample y py, sample y (py + 1), sample y (py + 3) with
    | some a, some b, some c =>
      if a = 0x151 ∧ b = 0x115 ∧ c = 0x102 then
        [0, 1, 2, 3, 4].foldlM (op47_unit_spec y py pend wanted_lines) (tgt, mem)
      else some (tgt, mem)
    | _, _, _ => none
  else some (tgt, mem)

/-! ## Capture callback -/

/-- The fields of `AVStream` used by the callback (`channels` is
`codecpar->channels`). -/
structure AVStream where
  index : Int
  time_base : AVRational
  channels : Int := 0

/-- The fields of `struct decklink_ctx` used by the callback.  `frameCount` is
`unsigned long`, `dropped` is `unsigned int`. -/
structure decklink_ctx where
  queue : AVPacketQueue
  frameCount : Nat
  dropped : Nat
  audio_pts_source : DecklinkPtsSource
  video_pts_source : DecklinkPtsSource
  draw_bars : Int
  teletext_lines : Int
  bmd_mode : Int
  bmd_field_dominance : Int
  video_st : AVStream
  audio_st : AVStream
  teletext_st : AVStream

/-- The data members of `decklink_input_callback` used by
`VideoInputFrameArrived`. -/
structure decklink_input_callback where
  no_video : Int
  initial_video_pts : Int
  initial_audio_pts : Int

/-- Width in bits of `unsigned long` (32 on the Windows target of this
repository). -/
def ULONG_BITS : Nat := 32

/-- Packet flag `AV_PKT_FLAG_KEY` of libavcodec. -/
def AV_PKT_FLAG_KEY : Int := 1

/-- Pixel format `VBI_PIXFMT_YUV420` of libzvbi. -/
def VBI_PIXFMT_YUV420 : Int := 1

/-- Pixel format `VBI_PIXFMT_UYVY` of libzvbi. -/
def VBI_PIXFMT_UYVY : Int := 4

/-- What surrounds one invocation of the callback: the libavutil functions
`av_rescale_q` and `av_gettime_relative`, `sizeof(AVPacketList)`, the outcomes
of `av_dup_packet` and `av_malloc` for the teletext, video and audio
`avpacket_queue_put`, the contents of the stack array `txt_buf0` on entry, and
libzvbi: `none` when `CONFIG_LIBZVBI` is 0, otherwise the bit slicer, which for
a pixel format and a line gives its result and the bytes it stored. -/
structure CallbackEnv where
  av_rescale_q : Int → AVRational → AVRational → Int
  av_gettime_relative : Int
  nodeSize : Nat
  put_txt : Bool × Bool
  put_video : Bool × Bool
  put_audio : Bool × Bool
  txt_buf0 : Bytes
  zvbi : Option (Int → Bytes → Bool × List Nat)

/-- What one invocation of the callback leaves behind: the return value, the
session and callback state, and the calls of `avpacket_queue_put` it made, in
order, each with its packet and return value. -/
structure CallbackResult where
  ret : HRESULT
  ctx : decklink_ctx
  cb : decklink_input_callback
  puts : List (AVPacket × Int)

/-- The packet left by `av_init_packet` (`data` and `size` are assigned by the
callback before use). -/
def av_init_packet : AVPacket :=
  { pts := AV_NOPTS_VALUE, dts := AV_NOPTS_VALUE, data := [], size := 0, stream_index := 0,
    flags := 0, duration := 0 }

/-- The array `bars` of the callback. -/
def bars : List Nat :=
  [0xEA80EA80, 0xD292D210, 0xA910A9A5, 0x90229035, 0x6ADD6ACA, 0x51EF515A, 0x286D28EF, 0x10801080]

/-- The words stored through `p` by the two loops that draw the bars, in
order: for each of `height` rows, `bars[(x * 8) / width]` for `x = 0, 2, ...`
below `width`. -/
def bar_words (width height : Int) : List Nat :=
  (List.replicate height.toNat
    ((List.range ((width + 1) / 2).toNat).map
      (fun xi => bars.getD (Int.tdiv (2 * (xi : Int) * 8) width).toNat 0))).flatten

/-- The frame buffer after the bar words were stored from its start
(little-endian 32-bit stores; stores past the end are not represented). -/
def draw_bar_words (words : List Nat) (frame : List Nat) : List Nat :=
  frame.mapIdx (fun b old =>
    match words[b / 4]? with
    | some w => (w >>> (8 * (b % 4))) &&& 255
    | none => old)

/-- Store the bytes `bs` from address `a` on. -/
def pokes (m : Bytes) (a : Nat) (bs : List Nat) : Bytes :=
  fun x => if a ≤ x ∧ x < a + bs.length then bs.getD (x - a) 0 else m x

/-- Function `teletext_data_unit_from_vbi_data`; `slice` is `vbi_bit_slice` after
`vbi_bit_slicer_init` with the parameters of the source, giving `FALSE`/`TRUE`
and the bytes it stored at `tgt + 4`. -/
def teletext_data_unit_from_vbi_data (slice : Int → Bytes → Bool × List Nat) (line : Int)
    (src : Bytes) (tgt : Nat) (mem : Bytes) (fmt : Int) : Nat × Bytes :=
  let r := slice fmt src
  let mem := pokes mem (tgt + 4) r.2
  if r.1 = false then (tgt, mem)
  else (tgt + 46, fill_data_unit_head line tgt mem)

/-- The loop of `teletext_data_unit_from_vbi_data_10bit`: the 8 most significant
bits of the luma samples of `n` groups of 8 bytes of V210 data (`uint8_t`). -/
def v210_luma8 (src : Bytes) : Nat → Nat → List Nat
  | 0, _ => []
  | n + 1, off =>
    (((src (off + 1) >>> 4) + ((src (off + 2) &&& 15) <<< 4)) % 256) ::
    (((src (off + 4) >>> 2) + ((src (off + 5) &&& 3) <<< 6)) % 256) ::
    (((src (off + 6) >>> 6) + ((src (off + 7) &&& 63) <<< 2)) % 256) ::
    v210_luma8 src n (off + 8)

/-- Function `teletext_data_unit_from_vbi_data_10bit`. -/
def teletext_data_unit_from_vbi_data_10bit (slice : Int → Bytes → Bool × List Nat) (line : Int)
    (src : Bytes) (tgt : Nat) (mem : Bytes) : Nat × Bytes :=
  let y := v210_luma8 src 240 0
  teletext_data_unit_from_vbi_data slice line (fun i => y.getD i 0) tgt mem VBI_PIXFMT_YUV420

/-- The loop `for (i = 6; i < 336; i++, line_mask <<= 1)` of the PAL branch. -/
def pal_lines (slice : Int → Bytes → Bool × List Nat) (vanc : IDeckLinkVideoFrameAncillary)
    (teletext_lines : Int) (vanc_format : Int) : Nat → Int → Int → Nat → Bytes → Nat × Bytes
  | 0, _, _, tgt, mem => (tgt, mem)
  | fuel + 1, i, line_mask, tgt, mem =>
    if i < 336 then
      let r :=
        if (teletext_lines % 2 ^ 64).toNat &&& (line_mask % 2 ^ 64).toNat ≠ 0 then
          match vanc.GetBufferForVerticalBlankingLine i with
          | some buf =>
            if vanc_format = bmdFormat8BitYUV then
              teletext_data_unit_from_vbi_data slice i buf tgt mem VBI_PIXFMT_UYVY
            else
              teletext_data_unit_from_vbi_data_10bit slice i buf tgt mem
          | none => (tgt, mem)
        else (tgt, mem)
      let i1 := if i = 22 then 317 else i
      pal_lines slice vanc teletext_lines vanc_format fuel (i1 + 1) (wrap64 (line_mask * 2))
        r.1 r.2
    else (tgt, mem)

/-- The loop `for (i = 8; i < first_active_line; i++)` of the 1920-wide 10-bit
branch; `tgt` is the offset `txt_buf - txt_buf0`.  `none` if the fuel runs out
or a decoder call does not return. -/
def vanc_lines (vanc : IDeckLinkVideoFrameAncillary) (teletext_lines : Int)
    (bmd_field_dominance : Int) (first_active_line : Int) :
    Nat → Int → Nat → Bytes → Option (Nat × Bytes)
  | 0, i, tgt, mem => if i < first_active_line then none else some (tgt, mem)
  | fuel + 1, i, tgt, mem =>
    if i < first_active_line then
      let r :=
        match vanc.GetBufferForVerticalBlankingLine i with
        | some buf => teletext_data_unit_from_vanc_data buf tgt mem teletext_lines
        | none => some (tgt, mem)
      match r with
      | none => none
      | some (tgt1, mem1) =>
        let i1 := if bmd_field_dominance ≠ bmdProgressiveFrame ∧ i = 20 then 569 else i
        if tgt1 > 1611 then some (tgt1, mem1)
        else vanc_lines vanc teletext_lines bmd_field_dominance first_active_line fuel (i1 + 1)
          tgt1 mem1
    else some (tgt, mem)

/-- The value `(4 - ((45 + txt_buf - txt_buf0) / 46) % 4) % 4` of `stuffing_units`
for the offset `off = txt_buf - txt_buf0`. -/
def stuffing_units (off : Int) : Int :=
  Int.tmod (4 - Int.tmod (Int.tdiv (45 + off) 46) 4) 4

/-- Function `memset(tgt, c, n)`. -/
def memset (m : Bytes) (tgt c n : Nat) : Bytes :=
  fun x => if tgt ≤ x ∧ x < tgt + n then c else m x

/-- The loop `while (stuffing_units--)` with `n` iterations left. -/
def stuffing (n : Nat) (tgt : Nat) (mem : Bytes) : Nat × Bytes :=
  match n with
  | 0 => (tgt, mem)
  | n + 1 => stuffing n (tgt + 46) (poke (memset mem tgt 0xff 46) (tgt + 1) 0x2c)

/-- The teletext part of the video branch, from `GetAncillaryData` to the
construction of `txt_pkt`: `some none` when no teletext packet is emitted,
`some (some p)` when `p` is put into the queue, `none` when `av_assert0` fails
(or a decoder call does not return). -/
def teletext_packet (env : CallbackEnv) (ctx : decklink_ctx) (videoFrame : IDeckLinkVideoInputFrame)
    (pkt : AVPacket) : Option (Option AVPacket) :=
  match videoFrame.GetAncillaryData with
  | none => some none
  | some vanc =>
    let vanc_format := vanc.GetPixelFormat
    let mem := poke env.txt_buf0 0 0x10
    let txt_buf : Nat := 1
    let pal : Option (Nat × Bytes) :=
      match env.zvbi with
      | some slice =>
        if ctx.bmd_mode = bmdModePAL ∧
            (vanc_format = bmdFormat8BitYUV ∨ vanc_format = bmdFormat10BitYUV) then
          if videoFrame.GetWidth = 720 then
            some (pal_lines slice vanc ctx.teletext_lines vanc_format 336 6 1 txt_buf mem)
          else none
        else some (txt_buf, mem)
      | none => some (txt_buf, mem)
    match pal with
    | none => none
    | some (txt_buf, mem) =>
      let hd : Option (Nat × Bytes) :=
        if videoFrame.GetWidth = 1920 ∧ vanc_format = bmdFormat10BitYUV then
          let first_active_line : Int :=
            if ctx.bmd_field_dominance = bmdProgressiveFrame then 42 else 584
          vanc_lines vanc ctx.teletext_lines ctx.bmd_field_dominance first_active_line 584 8
            txt_buf mem
        else some (txt_buf, mem)
      match hd with
      | none => none
      | some (txt_buf, mem) =>
        if txt_buf > 1 then
          let st := stuffing (stuffing_units txt_buf).toNat txt_buf mem
          some (some { av_init_packet with
            pts := pkt.pts
            dts := pkt.dts
            stream_index := ctx.teletext_st.index
            data := (List.range st.1).map st.2
            size := st.1 })
        else some none

/-- One `avpacket_queue_put` of the callback followed by `++ctx->dropped` when it
fails; the call is added to the record of puts. -/
def put_or_drop (nodeSize : Nat) (outcome : Bool × Bool) (pkt : AVPacket)
    (st : decklink_ctx × List (AVPacket × Int)) : decklink_ctx × List (AVPacket × Int) :=
  let r := avpacket_queue_put nodeSize st.1.queue pkt outcome.1 outcome.2
  ({ st.1 with
      queue := r.2
      dropped := if r.1 < 0 then (st.1.dropped + 1) % 2 ^ 32 else st.1.dropped },
   st.2 ++ [(pkt, r.1)])

/-- The branch `if (videoFrame)` of `VideoInputFrameArrived`. -/
def video_branch (env : CallbackEnv) (ctx : decklink_ctx) (cb : decklink_input_callback)
    (wallclock : Int) (videoFrame : IDeckLinkVideoInputFrame)
    (audioFrame : Option IDeckLinkAudioInputPacket) :
    Option (decklink_ctx × decklink_input_callback × List (AVPacket × Int)) :=
  let pkt := av_init_packet
  let frameBytes := videoFrame.GetBytes
  let frameDuration := (videoFrame.GetStreamTime ctx.video_st.time_base.den).2.2
  let no_input := videoFrame.GetFlags &&& bmdFrameHasNoInputSource ≠ 0
  let frameBytes :=
    if no_input ∧ ctx.draw_bars ≠ 0 ∧ videoFrame.GetPixelFormat = bmdFormat8BitYUV then
      draw_bar_words (bar_words videoFrame.GetWidth videoFrame.GetHeight) frameBytes
    else frameBytes
  let dropped :=
    if no_input then
      (if cb.no_video = 0 then (ctx.dropped + 1) % 2 ^ 32 else ctx.dropped)
    else
      (if cb.no_video ≠ 0 then (ctx.dropped + 1) % 2 ^ 32 else ctx.dropped)
  let no_video : Int := if no_input then 1 else 0
  let ctx := { ctx with dropped := dropped }
  let r := get_pkt_pts env.av_rescale_q (some videoFrame) audioFrame wallclock
    ctx.video_pts_source ctx.video_st.time_base cb.initial_video_pts
  let cb := { cb with no_video := no_video, initial_video_pts := r.2 }
  let pkt := { pkt with
    pts := r.1
    dts := r.1
    duration := frameDuration
    flags := Int.lor pkt.flags AV_PKT_FLAG_KEY
    stream_index := ctx.video_st.index
    data := frameBytes
    size := wrap32 (videoFrame.GetRowBytes * videoFrame.GetHeight) }
  let txt : Option (Option AVPacket) :=
    if no_video = 0 ∧ ctx.teletext_lines ≠ 0 then teletext_packet env ctx videoFrame pkt
    else some none
  match txt with
  | none => none
  | some txt_pkt =>
    let st : decklink_ctx × List (AVPacket × Int) := (ctx, [])
    let st :=
      match txt_pkt with
      | some p => put_or_drop env.nodeSize env.put_txt p st
      | none => st
    let st := put_or_drop env.nodeSize env.put_video pkt st
    some (st.1, cb, st.2)

/-- The branch `if (audioFrame)` of `VideoInputFrameArrived`. -/
def audio_branch (env : CallbackEnv) (ctx : decklink_ctx) (cb : decklink_input_callback)
    (wallclock : Int) (videoFrame : Option IDeckLinkVideoInputFrame)
    (audioFrame : IDeckLinkAudioInputPacket) (puts : List (AVPacket × Int)) :
    decklink_ctx × decklink_input_callback × List (AVPacket × Int) :=
  let pkt := av_init_packet
  let size := wrap32 (audioFrame.GetSampleFrameCount * ctx.audio_st.channels * (16 / 8))
  let r := get_pkt_pts env.av_rescale_q videoFrame (some audioFrame) wallclock
    ctx.audio_pts_source ctx.audio_st.time_base cb.initial_audio_pts
  let cb := { cb with initial_audio_pts := r.2 }
  let pkt := { pkt with
    size := size
    pts := r.1
    dts := r.1
    flags := Int.lor pkt.flags AV_PKT_FLAG_KEY
    stream_index := ctx.audio_st.index
    data := audioFrame.GetBytes }
  let st := put_or_drop env.nodeSize env.put_audio pkt (ctx, puts)
  (st.1, cb, st.2)

/-- Method `decklink_input_callback::VideoInputFrameArrived`.  `none` when the
invocation does not return (`av_assert0` fails).  The `av_log` calls, which
change no state, are not represented. -/
def VideoInputFrameArrived (env : CallbackEnv) (ctx : decklink_ctx)
    (cb : decklink_input_callback) (videoFrame : Option IDeckLinkVideoInputFrame)
    (audioFrame : Option IDeckLinkAudioInputPacket) : Option CallbackResult :=
  let ctx := { ctx with frameCount := (ctx.frameCount + 1) % 2 ^ ULONG_BITS }
  let wallclock : Int :=
    if ctx.audio_pts_source = PTS_SRC_WALLCLOCK ∨ ctx.video_pts_source = PTS_SRC_WALLCLOCK then
      env.av_gettime_relative
    else 0
  let v : Option (decklink_ctx × decklink_input_callback × List (AVPacket × Int)) :=
    match videoFrame with
    | some vf => video_branch env ctx cb wallclock vf audioFrame
    | none => some (ctx, cb, [])
  match v with
  | none => none
  | some (ctx, cb, puts) =>
    let a :=
      match audioFrame with
      | some af => audio_branch env ctx cb wallclock videoFrame af puts
      | none => (ctx, cb, puts)
    some { ret := S_OK, ctx := a.1, cb := a.2.1, puts := a.2.2 }

/-- An `unsigned` counter of `w` bits holding `d` after `k` increments. -/
def bump (w d k : Nat) : Nat := if k = 0 then d else (d + k) % 2 ^ w

/-- The callback object left by the constructor of `decklink_input_callback`. -/
def decklink_input_callback_new : decklink_input_callback :=
  { no_video := 0, initial_video_pts := AV_NOPTS_VALUE, initial_audio_pts := AV_NOPTS_VALUE }

/-- Consecutive invocations of the callback on one session and one callback
object, each with its surroundings and frames: the final state and the calls of
`avpacket_queue_put` of all invocations, in order; `none` if an invocation does
not return. -/
def run_callbacks : decklink_ctx → decklink_input_callback →
    List (CallbackEnv × Option IDeckLinkVideoInputFrame × Option IDeckLinkAudioInputPacket) →
    Option (decklink_ctx × decklink_input_callback × List (AVPacket × Int))
  | ctx, cb, [] => some (ctx, cb, [])
  | ctx, cb, c :: cs =>
    match VideoInputFrameArrived c.1 ctx cb c.2.1 c.2.2 with
    | none => none
    | some r =>
      match run_callbacks r.ctx r.cb cs with
      | none => none
      | some (ctx1, cb1, puts) => some (ctx1, cb1, r.puts ++ puts)

/-- Whether a video frame carries the flag `bmdFrameHasNoInputSource`. -/
def no_input (v : IDeckLinkVideoInputFrame) : Bool :=
  decide (v.GetFlags &&& bmdFrameHasNoInputSource ≠ 0)

/-- The number of elements of a list of flags that differ from their
predecessor, `prev` being the predecessor of the first. -/
def transitions : Bool → List Bool → Nat
  | _, [] => 0
  | prev, b :: bs => (if b = prev then 0 else 1) + transitions b bs

/-- The number of recorded puts that were rejected (negative return value). -/
def rejected (puts : List (AVPacket × Int)) : Nat :=
  (puts.filter (fun p => decide (p.2 < 0))).length

/-- Ancillary data of a frame whose blanking line 9 holds the sample line and
whose other lines have no buffer. -/
def sampleAncillary : IDeckLinkVideoFrameAncillary :=
  { GetPixelFormat := bmdFormat10BitYUV
    GetBufferForVerticalBlankingLine := fun i =>
      if i = 9 then some (v210_pack sampleContainerLine) else none }

/-- The line numbers computed from the descriptors of the sub-packets that the
loop of `teletext_data_unit_from_op47_data` visits, in order. -/
def op47_unit_lines (y : List Nat) (descriptors pend : Int) : Nat → Nat → Int → List Int
  | 0, _, _ => []
  | n + 1, i, py =>
    if py < pend - 45 then
      match sample y (descriptors + i) with
      | none => []
      | some d =>
        (((d &&& 31 : Nat) : Int) + (if d &&& 128 = 0 then 1 else 0) * 313) ::
          op47_unit_lines y descriptors pend n (i + 1) (py + 45)
    else []

/-- The computed line numbers of the sub-packets of the OP-47 payload
`[py, pend)`, in order (none when the payload is too short or its prefix does
not match). -/
def op47_data_lines (y : List Nat) (py pend : Int) : List Int :=
  if py < pend - 9 then
    match op47_prefix_ok y py with
    | some true => op47_unit_lines y (py + 4) pend 5 0 (py + 9)
    | _ => []
  else []

/-- The computed line numbers of the OP-47 sub-packets of the ancillary packet
at `py`, as parsed without multi-packet expansion: those of its payload when it
is a subtitle-distribution packet (did 0x143, sdid 0x102), none otherwise. -/
def ancillary_lines (y : List Nat) (py pend : Int) : List Int :=
  match sample y py, sample y (py + 1), sample y (py + 2) with
  | some did, some sdid, some w =>
    if did = 0x143 ∧ sdid = 0x102 then
      op47_data_lines y (py + 3) (min pend (py + 3 + ((w &&& 255 : Nat) : Int)))
    else []
  | _, _, _ => []

/-- The computed line numbers of the OP-47 sub-packets behind the ancillary data
flags that the marker scan finds from `py` on, in order. -/
def vanc_scan_lines (y : List Nat) (pend : Int) : Nat → Int → List Int
  | 0, _ => []
  | fuel + 1, py =>
    if py < pend - 6 then
      match adf_at y py with
      | none => []
      | some true =>
        match sample y (py + 3 + 2) with
        | none => []
        | some dc =>
          ancillary_lines y (py + 3) pend ++
            vanc_scan_lines y pend fuel (py + 3 + ((dc &&& 255 : Nat) : Int))
      | some false => vanc_scan_lines y pend fuel (py + 1)
    else []

/-- The computed line numbers of all OP-47 sub-packets that
`teletext_data_unit_from_vanc_data` finds on the V210 line `src`. -/
def vanc_data_lines (src : Bytes) : List Int :=
  vanc_scan_lines (v210_luma src 640 0) 1920 1920 0

/-- A line number that is non-zero and selected by the mask. -/
def line_selected (wanted_lines : Int) (line : Int) : Prop :=
  line ≠ 0 ∧ linemask_matches line wanted_lines = true

/-- The configuration fields of the session, which the callback only reads,
agree in two states. -/
structure SameConfig (a b : decklink_ctx) : Prop where
  audio_pts_source : a.audio_pts_source = b.audio_pts_source
  video_pts_source : a.video_pts_source = b.video_pts_source
  draw_bars : a.draw_bars = b.draw_bars
  teletext_lines : a.teletext_lines = b.teletext_lines
  bmd_mode : a.bmd_mode = b.bmd_mode
  bmd_field_dominance : a.bmd_field_dominance = b.bmd_field_dominance
  video_st : a.video_st = b.video_st
  audio_st : a.audio_st = b.audio_st
  teletext_st : a.teletext_st = b.teletext_st

/-- The contribution of one invocation to the signal transitions: 1 when a
video frame is present and its no-input flag differs from `no_video`. -/
def signal_change (cb : decklink_input_callback) (videoFrame : Option IDeckLinkVideoInputFrame) :
    Nat :=
  match videoFrame with
  | some vf => if no_input vf = decide (cb.no_video ≠ 0) then 0 else 1
  | none => 0

/-- The condition checked by `av_assert0` in the PAL branch: with libzvbi
configured, PAL mode and 8-bit or 10-bit YUV ancillary data, the frame is 720
wide. -/
def assert_holds (env : CallbackEnv) (ctx : decklink_ctx) (v : IDeckLinkVideoInputFrame) : Prop :=
  ∀ slice vanc, env.zvbi = some slice → v.GetAncillaryData = some vanc →
    ctx.bmd_mode = bmdModePAL →
    (vanc.GetPixelFormat = bmdFormat8BitYUV ∨ vanc.GetPixelFormat = bmdFormat10BitYUV) →
    v.GetWidth = 720

/-- The member `no_video` after an invocation: set from the no-input flag of the
video frame when there is one, otherwise left as it was. -/
def no_video_after (cb : decklink_input_callback) (videoFrame : Option IDeckLinkVideoInputFrame) :
    Int :=
  match videoFrame with
  | some vf => if no_input vf = true then 1 else 0
  | none => cb.no_video

/-- The queue obtained from `q` by the accepted puts of a record of puts, in
order; a rejected put contributes nothing. -/
def accepted_queue (nodeSize : Nat) (q : AVPacketQueue) (puts : List (AVPacket × Int)) :
    AVPacketQueue :=
  puts.foldl (fun q p => if p.2 < 0 then q else (avpacket_queue_put nodeSize q p.1 true true).2) q

/-- Surroundings of an invocation in which libzvbi is not configured and every
put finds its packet duplicated and its node allocated. -/
def sampleEnv : CallbackEnv :=
  { av_rescale_q := sampleRescale, av_gettime_relative := 0, nodeSize := 96,
    put_txt := (true, true), put_video := (true, true), put_audio := (true, true),
    txt_buf0 := fun _ => 0, zvbi := none }

/-- A session with an empty queue, video stream 0 (time base 1/25), audio stream
1 and teletext stream 2, teletext disabled, both PTS policies on the device
clocks. -/
def sampleCtx : decklink_ctx :=
  { queue := avpacket_queue_init, frameCount := 0, dropped := 0,
    audio_pts_source := PTS_SRC_AUDIO, video_pts_source := PTS_SRC_VIDEO, draw_bars := 0,
    teletext_lines := 0, bmd_mode := 0, bmd_field_dominance := bmdProgressiveFrame,
    video_st := { index := 0, time_base := ⟨1, 25⟩ },
    audio_st := { index := 1, time_base := ⟨1, 48000⟩, channels := 2 },
    teletext_st := { index := 2, time_base := ⟨1, 25⟩ } }

/-- A record of puts is consistent with a queue: each recorded return value is
what `avpacket_queue_put` returns for that packet on the queue left by the puts
before it (for some outcome of duplication and allocation). -/
def puts_consistent (nodeSize : Nat) : AVPacketQueue → List (AVPacket × Int) → Prop
  | _, [] => True
  | q, p :: ps =>
    (∃ dup_ok malloc_ok, p.2 = (avpacket_queue_put nodeSize q p.1 dup_ok malloc_ok).1) ∧
      puts_consistent nodeSize (accepted_queue nodeSize q [p]) ps

/-- The packets of the accepted puts of a record, in order. -/
def accepted (puts : List (AVPacket × Int)) : List AVPacket :=
  (puts.filter (fun p => decide (¬ p.2 < 0))).map Prod.fst

/-- The no-input flags of the video frames of a sequence of invocations. -/
def signal_flags
    (calls : List (CallbackEnv × Option IDeckLinkVideoInputFrame × Option IDeckLinkAudioInputPacket)) :
    List Bool :=
  calls.filterMap (fun c => c.2.1.map no_input)

/-- The value of the local `wallclock` of the callback. -/
def callback_wallclock (env : CallbackEnv) (ctx : decklink_ctx) : Int :=
  if ctx.audio_pts_source = PTS_SRC_WALLCLOCK ∨ ctx.video_pts_source = PTS_SRC_WALLCLOCK then
    env.av_gettime_relative
  else 0

/-- The video packet the callback builds for a frame, given the time stamp that
`get_pkt_pts` returned for it. -/
def video_packet (ctx : decklink_ctx) (videoFrame : IDeckLinkVideoInputFrame) (pts : Int) :
    AVPacket :=
  { av_init_packet with
    pts := pts
    dts := pts
    duration := (videoFrame.GetStreamTime ctx.video_st.time_base.den).2.2
    flags := Int.lor av_init_packet.flags AV_PKT_FLAG_KEY
    stream_index := ctx.video_st.index
    data :=
      if videoFrame.GetFlags &&& bmdFrameHasNoInputSource ≠ 0 ∧ ctx.draw_bars ≠ 0 ∧
          videoFrame.GetPixelFormat = bmdFormat8BitYUV then
        draw_bar_words (bar_words videoFrame.GetWidth videoFrame.GetHeight) videoFrame.GetBytes
      else videoFrame.GetBytes
    size := wrap32 (videoFrame.GetRowBytes * videoFrame.GetHeight) }

/-- The video packets the callback builds for consecutive video frames, the
member `initial_video_pts` holding `s` before the first. -/
def video_packets (ctx : decklink_ctx) :
    Int → List (CallbackEnv × IDeckLinkVideoInputFrame) → List AVPacket
  | _, [] => []
  | s, c :: cs =>
    let g := get_pkt_pts c.1.av_rescale_q (some c.2) none (callback_wallclock c.1 ctx)
      ctx.video_pts_source ctx.video_st.time_base s
    video_packet ctx c.2 g.1 :: video_packets ctx g.2 cs

/-- Invocations with a video frame and no audio packet. -/
def video_calls (calls : List (CallbackEnv × IDeckLinkVideoInputFrame)) :
    List (CallbackEnv × Option IDeckLinkVideoInputFrame × Option IDeckLinkAudioInputPacket) :=
  calls.map (fun c => (c.1, some c.2, none))

/-- Sum of `GetRowBytes() * GetHeight() + sizeof(AVPacketList)` (the product as
stored in the `int` field `size`) over the frames. -/
def frames_footprint (nodeSize : Nat) (calls : List (CallbackEnv × IDeckLinkVideoInputFrame)) :
    Int :=
  (calls.map (fun c => wrap32 (c.2.GetRowBytes * c.2.GetHeight) + (nodeSize : Int))).sum

/-- A video frame delivered while the input has no signal (flag
`bmdFrameHasNoInputSource` set), its timing accessors succeeding with time `t`. -/
def noSignalFrame (t : Int) : IDeckLinkVideoInputFrame :=
  { sampleVideoFrame t with GetFlags := bmdFrameHasNoInputSource }

/-- The device time stamp `GetStreamTime` stores for a frame of a session. -/
def stream_time (ctx : decklink_ctx) (videoFrame : IDeckLinkVideoInputFrame) : Int :=
  (videoFrame.GetStreamTime ctx.video_st.time_base.den).2.1

/-- The start of a VANC line: an ancillary data flag and a subtitle-distribution
packet (did 0x143, sdid 0x102, data count 60) whose OP-47 payload carries one
VBI packet for line 7 of the first field (descriptor 0x287).  The rest of the
1920-sample line is 0. -/
def sampleSubtitleLine : List Nat :=
  [0, 0x3ff, 0x3ff, 0x143, 0x102, 0x23c,
   0x151, 0x115, 0x200, 0x102, 0x287, 0x200, 0x200, 0x200, 0x200] ++ sampleVbiPacket

/-- Ancillary data of a frame whose blanking line 9 holds the sample subtitle
line and whose other lines have no buffer. -/
def sampleSubtitleAncillary : IDeckLinkVideoFrameAncillary :=
  { GetPixelFormat := bmdFormat10BitYUV
    GetBufferForVerticalBlankingLine := fun i =>
      if i = 9 then some (v210_pack sampleSubtitleLine) else none }

/-- A 1920-wide video frame with signal that carries the sample subtitle
line. -/
def sampleSubtitleFrame : IDeckLinkVideoInputFrame :=
  { sampleVideoFrame 1000 with GetWidth := 1920, GetAncillaryData := some sampleSubtitleAncillary }

/-- The sample session with teletext enabled by mask 4, which selects line 8
only. -/
def sampleLine8Ctx : decklink_ctx :=
  { sampleCtx with teletext_lines := 4 }

/-! ## Session start -/

/-- The options of `struct decklink_cctx` read by `ff_decklink_read_header`
(`format_code` records whether the string is set). -/
structure decklink_cctx where
  list_devices : Int
  list_formats : Int
  teletext_lines : Int
  preroll : Int
  duplex_mode : Int
  video_input : Int
  audio_input : Int
  audio_pts_source : DecklinkPtsSource
  video_pts_source : DecklinkPtsSource
  draw_bars : Int
  audio_channels : Int
  format_code : Bool
  v210 : Int

/-- What surrounds one call of `ff_decklink_read_header`: the libavutil macro
`AVERROR`, the `errno` codes and `AVERROR_EXIT` (none of them defined in this
file of the repository), the build option `CONFIG_LIBZVBI`, whether `av_mallocz`
returned a block, the mode number parsed from the file name (0 without `@`), the
return values of `ff_decklink_init_device`, `QueryInterface` and
`ff_decklink_set_format`, the display mode `ctx->bmd_mode` the device reports,
whether the k-th `avformat_new_stream` returned a stream, and the results of
`EnableAudioInput`, `EnableVideoInput` and `StartStreams`. -/
structure HeaderEnv where
  AVERROR : Int → Int
  EINVAL : Int
  ENOMEM : Int
  ENOSYS : Int
  EIO : Int
  AVERROR_EXIT : Int
  CONFIG_LIBZVBI : Bool
  av_mallocz_ok : Bool
  mode_num : Int
  ff_decklink_init_device : Int
  QueryInterface : HRESULT
  ff_decklink_set_format : Int
  bmd_mode : Int
  avformat_new_stream : Nat → Bool
  EnableAudioInput : HRESULT
  EnableVideoInput : HRESULT
  StartStreams : HRESULT

/-- The calls `ff_decklink_read_header` makes on the device layer and on the
format context, as recorded by the model. -/
inductive DeviceOp where
  | list_devices
  | init_device
  | query_interface
  | list_formats
  | set_format
  | new_stream
  | enable_audio_input (channels : Int)
  | enable_video_input (mode : Int) (pixel_format : Int)
  | queue_init
  | set_callback
  | start_streams
  | cleanup
deriving DecidableEq, Repr

/-- The part of `ff_decklink_read_header` from `Setup streams` on; `ops` are the
calls made so far. -/
def read_header_streams (env : HeaderEnv) (cctx : decklink_cctx) (ops : List DeviceOp) :
    Int × List DeviceOp :=
  let ops := ops ++ [DeviceOp.new_stream]
  if env.avformat_new_stream 0 = false then
    (env.AVERROR env.ENOMEM, ops ++ [DeviceOp.cleanup])
  else
    let ops := ops ++ [DeviceOp.new_stream]
    if env.avformat_new_stream 1 = false then
      (env.AVERROR env.ENOMEM, ops ++ [DeviceOp.cleanup])
    else
      let ops := if cctx.teletext_lines ≠ 0 then ops ++ [DeviceOp.new_stream] else ops
      if cctx.teletext_lines ≠ 0 ∧ env.avformat_new_stream 2 = false then
        (env.AVERROR env.ENOMEM, ops ++ [DeviceOp.cleanup])
      else
        let ops := ops ++ [DeviceOp.enable_audio_input cctx.audio_channels]
        if env.EnableAudioInput ≠ S_OK then
          (env.AVERROR ( HeaderEnv.EIO env), ops ++ [DeviceOp.cleanup])
        else
          let ops := ops ++ [DeviceOp.enable_video_input env.bmd_mode
            (if cctx.v210 ≠ 0 then bmdFormat10BitYUV else bmdFormat8BitYUV)]
          if env.EnableVideoInput ≠ S_OK then
            (env.AVERROR ( HeaderEnv.EIO env), ops ++ [DeviceOp.cleanup])
          else
            let ops := ops ++ [DeviceOp.queue_init, DeviceOp.set_callback, DeviceOp.start_streams]
            if env.StartStreams ≠ S_OK then
              (env.AVERROR ( HeaderEnv.EIO env), ops ++ [DeviceOp.cleanup])
            else (0, ops)

/-- Function `ff_decklink_read_header`: the return value and the calls made, in
order.  The `av_log` calls and the stream parameters are not represented. -/
def ff_decklink_read_header (env : HeaderEnv) (cctx : decklink_cctx) : Int × List DeviceOp :=
  if env.av_mallocz_ok = false then (env.AVERROR env.ENOMEM, [])
  else if ¬ (cctx.audio_channels = 2 ∨ cctx.audio_channels = 8 ∨ cctx.audio_channels = 16) then
    (env.AVERROR env.EINVAL, [])
  else if cctx.list_devices ≠ 0 then (env.AVERROR_EXIT, [DeviceOp.list_devices])
  else
    let ops := [DeviceOp.init_device]
    if env.ff_decklink_init_device < 0 then (env.ff_decklink_init_device, ops)
    else
      let ops := ops ++ [DeviceOp.query_interface]
      if env.QueryInterface ≠ S_OK then
        (env.AVERROR ( HeaderEnv.EIO env), ops ++ [DeviceOp.cleanup])
      else if cctx.list_formats ≠ 0 then
        (env.AVERROR_EXIT, ops ++ [DeviceOp.list_formats, DeviceOp.cleanup])
      else
        let set := env.mode_num > 0 ∨ cctx.format_code = true
        let ops := if set then ops ++ [DeviceOp.set_format] else ops
        if set ∧ env.ff_decklink_set_format < 0 then
          (env.AVERROR ( HeaderEnv.EIO env), ops ++ [DeviceOp.cleanup])
        else if env.CONFIG_LIBZVBI = false ∧ cctx.teletext_lines ≠ 0 ∧
            env.bmd_mode = bmdModePAL then
          (env.AVERROR env.ENOSYS, ops ++ [DeviceOp.cleanup])
        else read_header_streams env cctx ops

/-- Surroundings of a session start in which every call succeeds, with the
error codes of Linux. -/
def sampleHeaderEnv : HeaderEnv :=
  { AVERROR := fun e => -e, EINVAL := 22, ENOMEM := 12, ENOSYS := 38, EIO := 5,
    AVERROR_EXIT := -1414092869, CONFIG_LIBZVBI := false, av_mallocz_ok := true, mode_num := 0,
    ff_decklink_init_device := 0, QueryInterface := S_OK, ff_decklink_set_format := 0,
    bmd_mode := 0, avformat_new_stream := fun _ => true, EnableAudioInput := S_OK,
    EnableVideoInput := S_OK, StartStreams := S_OK }

/-- Options of a session with the given number of audio channels. -/
def sampleOptions (channels : Int) : decklink_cctx :=
  { list_devices := 0, list_formats := 0, teletext_lines := 0, preroll := 3, duplex_mode := 0,
    video_input := 0, audio_input := 0, audio_pts_source := PTS_SRC_AUDIO,
    video_pts_source := PTS_SRC_VIDEO, draw_bars := 1, audio_channels := channels,
    format_code := false, v210 := 0 }

/-- Surroundings of an invocation in which `av_malloc` fails for the node of the
video packet. -/
def rejectingEnv : CallbackEnv :=
  { sampleEnv with put_video := (true, false) }

/-- The four bytes at `src + off` read as a little-endian 32-bit word, as the
description of the V210 format words it. -/
def le32 (src : Bytes) (off : Nat) : Nat :=
  src off + 2 ^ 8 * src (off + 1) + 2 ^ 16 * src (off + 2) + 2 ^ 24 * src (off + 3)

/-- States reachable from `avpacket_queue_init` by `put` of packets whose payload
size is between 0 and `S`, `get` (any call that returns) and `flush`. -/
inductive ReachableWithin (nodeSize : Nat) (S : Int) : AVPacketQueue → Prop
  | init : ReachableWithin nodeSize S avpacket_queue_init
  | put (q : AVPacketQueue) (pkt : AVPacket) (dup_ok malloc_ok : Bool) :
      ReachableWithin nodeSize S q → 0 ≤ pkt.size → pkt.size ≤ S →
      ReachableWithin nodeSize S (avpacket_queue_put nodeSize q pkt dup_ok malloc_ok).2
  | get (q : AVPacketQueue) (block : Bool) (r : Int × Option AVPacket × AVPacketQueue) :
      ReachableWithin nodeSize S q → avpacket_queue_get nodeSize q block = some r →
      ReachableWithin nodeSize S r.2.2
  | flush (q : AVPacketQueue) :
      ReachableWithin nodeSize S q → ReachableWithin nodeSize S (avpacket_queue_flush q)

/-- A packet that fills the fresh queue to exactly 1 GiB when
`sizeof(AVPacketList)` is 96. -/
def samplePacketFill : AVPacket :=
  { pts := 0, dts := 0, data := [], size := 1024 * 1024 * 1024 - 96, stream_index := 0,
    flags := 1, duration := 40 }

/-- A packet of 1 GiB. -/
def samplePacketGiB : AVPacket :=
  { pts := 40, dts := 40, data := [], size := 1024 * 1024 * 1024, stream_index := 0,
    flags := 1, duration := 40 }

end Decklink

namespace Decklink

open DecklinkPtsSource

/-! ## Queue: representation lemmas -/

theorem linked_frame {mem mem1 : Nat → Option AVPacketList} :
    ∀ (l : List (Nat × AVPacket)) (p : Option Nat),
      (∀ a ∈ l.map Prod.fst, mem1 a = mem a) → Linked mem p l → Linked mem1 p l
  | [], _, _, h => h
  | (a, k) :: l, p, hf, h => by
    obtain ⟨hp, nx, hm, hl⟩ := h
    refine ⟨hp, nx, ?_, linked_frame l nx (fun x hx => hf x (by simp [hx])) hl⟩
    rw [hf a (by simp)]; exact hm

theorem linked_walk {mem : Nat → Option AVPacketList} :
    ∀ (l : List (Nat × AVPacket)) (p : Option Nat) (fuel : Nat),
      Linked mem p l → l.length ≤ fuel → walk mem fuel p = l.map Prod.snd
  | [], p, fuel, h, _ => by
    cases fuel <;> simp [Linked] at h <;> simp [walk, h]
  | (a, k) :: l, p, fuel, h, hf => by
    obtain ⟨hp, nx, hm, hl⟩ := h
    cases fuel with
    | zero => simp at hf
    | succ fuel =>
      subst hp
      simp only [walk, hm, List.map_cons]
      rw [linked_walk l nx fuel hl (by simpa using hf)]

theorem linked_unique {mem : Nat → Option AVPacketList} :
    ∀ (l l1 : List (Nat × AVPacket)) (p : Option Nat),
      Linked mem p l → Linked mem p l1 → l = l1
  | [], [], _, _, _ => rfl
  | [], (a, k) :: l1, p, h, h1 => by
    simp only [Linked] at h h1; rw [h] at h1; simp at h1
  | (a, k) :: l, [], p, h, h1 => by
    simp only [Linked] at h h1; rw [h1] at h; simp at h
  | (a, k) :: l, (a1, k1) :: l1, p, h, h1 => by
    obtain ⟨hp, nx, hm, hl⟩ := h
    obtain ⟨hp1, nx1, hm1, hl1⟩ := h1
    rw [hp] at hp1
    cases hp1
    rw [hm] at hm1
    cases hm1
    rw [linked_unique l l1 nx hl hl1]

theorem linked_snoc_last {mem : Nat → Option AVPacketList} (la : Nat) (kl : AVPacket) :
    ∀ (l : List (Nat × AVPacket)) (p : Option Nat),
      Linked mem p (l ++ [(la, kl)]) → mem la = some ⟨kl, none⟩
  | [], p, h => by
    obtain ⟨_, nx, hm, hl⟩ := h
    simp only [Linked] at hl
    rw [hm, hl]
  | (a, k) :: l, p, h => by
    obtain ⟨_, nx, _, hl⟩ := h
    exact linked_snoc_last la kl l nx hl

theorem linked_snoc {mem : Nat → Option AVPacketList} (la b : Nat) (kl pkt : AVPacket)
    (hb : b ≠ la) :
    ∀ (l : List (Nat × AVPacket)) (p : Option Nat),
      Linked mem p (l ++ [(la, kl)]) → la ∉ l.map Prod.fst → b ∉ l.map Prod.fst →
      Linked (storeNode (storeNode mem b (some ⟨pkt, none⟩)) la (some ⟨kl, some b⟩)) p
        (l ++ [(la, kl)] ++ [(b, pkt)])
  | [], p, h, _, _ => by
    obtain ⟨hp, nx, hm, hl⟩ := h
    refine ⟨hp, some b, by simp [storeNode], rfl, none, ?_, rfl⟩
    simp [storeNode, hb]
  | (a, k) :: l, p, h, hla, hbl => by
    obtain ⟨hp, nx, hm, hl⟩ := h
    simp only [List.map_cons, List.mem_cons, not_or] at hla hbl
    refine ⟨hp, nx, ?_, linked_snoc la b kl pkt hb l nx hl hla.2 hbl.2⟩
    have h1 : a ≠ la := fun h => hla.1 h.symm
    have h2 : a ≠ b := fun h => hbl.1 h.symm
    simp [storeNode, h1, h2, hm]

theorem shape_init : Shape avpacket_queue_init [] :=
  ⟨rfl, by simp, by simp, rfl, by simp⟩

theorem shape_flush (q : AVPacketQueue) : Shape (avpacket_queue_flush q) [] :=
  ⟨rfl, by simp, by simp, rfl, by simp⟩

theorem shape_queued {q : AVPacketQueue} {l : List (Nat × AVPacket)} (h : Shape q l) :
    queued q = l.map Prod.snd :=
  linked_walk l q.first_pkt q.brk h.linked h.len

theorem shape_first_none {q : AVPacketQueue} {l : List (Nat × AVPacket)} (h : Shape q l) :
    q.first_pkt = none ↔ l = [] := by
  have hl := h.linked
  cases l with
  | nil => simpa [Linked] using hl
  | cons x l =>
    obtain ⟨a, k⟩ := x
    obtain ⟨hp, _⟩ := hl
    simp [hp]

theorem shape_last_none {q : AVPacketQueue} {l : List (Nat × AVPacket)} (h : Shape q l) :
    q.last_pkt = none ↔ l = [] := by
  rw [h.last]
  rcases List.eq_nil_or_concat l with hl | ⟨l0, x, hl⟩
  · simp [hl]
  · rw [List.concat_eq_append] at hl
    simp [hl]

/-- A `put` that passes the size check and whose duplication and allocation
succeed appends a node holding the packet. -/
theorem shape_put (nodeSize : Nat) {q : AVPacketQueue} {l : List (Nat × AVPacket)}
    (h : Shape q l) (pkt : AVPacket) (hs : q.size ≤ 1024 * 1024 * 1024) :
    (avpacket_queue_put nodeSize q pkt true true).1 = 0 ∧
      Shape (avpacket_queue_put nodeSize q pkt true true).2 (l ++ [(q.brk, pkt)]) := by
  have hs1 : ¬ avpacket_queue_size q > 1024 * 1024 * 1024 := by
    simp only [avpacket_queue_size]; omega
  have hbn : q.brk ∉ l.map Prod.fst := fun hm => Nat.lt_irrefl _ (h.below _ hm)
  rcases List.eq_nil_or_concat l with hl | ⟨l0, x, hl⟩
  · subst hl
    have hlast : q.last_pkt = none := by simpa using h.last
    simp only [avpacket_queue_put, hs1, if_false, hlast, Bool.not_true, Bool.false_eq_true]
    refine ⟨trivial, ⟨?_, by simp, by simp, by simp, by simp⟩⟩
    exact ⟨rfl, none, by simp [storeNode], rfl⟩
  · obtain ⟨la, kl⟩ := x
    rw [List.concat_eq_append] at hl
    subst hl
    have hlast : q.last_pkt = some la := by simpa using h.last
    have hmla : q.mem la = some ⟨kl, none⟩ := linked_snoc_last la kl l0 _ h.linked
    have hne : q.brk ≠ la := by
      intro he
      exact hbn (by simp [← he])
    have hne1 : la ≠ q.brk := fun he => hne he.symm
    have hnd := h.nodup
    simp only [List.map_append, List.map_cons, List.map_nil] at hnd
    have hla : la ∉ l0.map Prod.fst := by
      intro hm
      have := (List.nodup_append.mp hnd).2.2
      exact this hm (by simp) 
    have hb0 : q.brk ∉ l0.map Prod.fst := fun hm => hbn (by simp [hm])
    simp only [avpacket_queue_put, hs1, if_false, hlast, Bool.not_true, Bool.false_eq_true]
    have hm1 : storeNode q.mem q.brk (some ⟨pkt, none⟩) la = some ⟨kl, none⟩ := by
      simp [storeNode, hne1, hmla]
    simp only [hm1]
    refine ⟨trivial, ⟨?_, ?_, ?_, by simp, ?_⟩⟩
    · exact linked_snoc la q.brk kl pkt hne l0 _ h.linked hla hb0
    · simp only [List.map_append, List.map_cons, List.map_nil]
      rw [List.nodup_append]
      refine ⟨hnd, by simp, ?_⟩
      intro a ha hb
      simp only [List.mem_singleton] at hb
      subst hb
      exact hbn (by simpa using ha)
    · intro a ha
      simp only [List.map_append, List.map_cons, List.map_nil, List.mem_append,
        List.mem_singleton, List.mem_cons, List.not_mem_nil, or_false] at ha
      rcases ha with (ha | ha) | ha
      · exact Nat.lt_succ_of_lt (h.below a (by simp [ha]))
      · exact Nat.lt_succ_of_lt (h.below a (by simp [ha]))
      · simp [ha]
    · have := h.len
      simp only [List.length_append, List.length_cons, List.length_nil] at this ⊢
      omega

theorem linked_none {mem : Nat → Option AVPacketList} {l : List (Nat × AVPacket)}
    (h : Linked mem none l) : l = [] := by
  cases l with
  | nil => rfl
  | cons x l =>
    obtain ⟨a, k⟩ := x
    obtain ⟨hp, _⟩ := h
    simp at hp

theorem linked_some {mem : Nat → Option AVPacketList} {l : List (Nat × AVPacket)} {b : Nat}
    (h : Linked mem (some b) l) : l ≠ [] := by
  intro hl
  subst hl
  simp [Linked] at h

/-- A `get` on a queue whose chain is `(a, k) :: l` returns 1, delivers `k` and
leaves the chain `l`. -/
theorem shape_get (nodeSize : Nat) {q : AVPacketQueue} {a : Nat} {k : AVPacket}
    {l : List (Nat × AVPacket)} (h : Shape q ((a, k) :: l)) (block : Bool) :
    ∃ q1, avpacket_queue_get nodeSize q block = some (1, some k, q1) ∧ Shape q1 l ∧
      q1.nb_packets = wrap32 (q.nb_packets - 1) ∧
      q1.size = (((q.size : Int) - (k.size + (nodeSize : Int)) % 2 ^ 64) % 2 ^ 64).toNat := by
  obtain ⟨hp, nx, hm, hl⟩ := h.linked
  have hnd := h.nodup
  simp only [List.map_cons, List.nodup_cons] at hnd
  refine ⟨{ mem := storeNode q.mem a none, brk := q.brk, first_pkt := nx,
            last_pkt := (if nx = none then none else q.last_pkt),
            nb_packets := wrap32 (q.nb_packets - 1),
            size := (((q.size : Int) - (k.size + (nodeSize : Int)) % 2 ^ 64) % 2 ^ 64).toNat },
    by simp only [avpacket_queue_get, hp, hm], ⟨?_, hnd.2, ?_, ?_, ?_⟩, rfl, rfl⟩
  · refine linked_frame l nx ?_ hl
    intro x hx
    have : x ≠ a := fun he => hnd.1 (he ▸ hx)
    simp [storeNode, this]
  · intro x hx
    exact h.below x (by simp [hx])
  · cases nx with
    | none => simp [linked_none hl]
    | some b =>
      have hne := linked_some hl
      obtain ⟨y, l1, rfl⟩ := List.exists_cons_of_ne_nil hne
      simp [h.last, List.getLast?_cons_cons]
  · have := h.len
    simp only [List.length_cons] at this
    show l.length ≤ q.brk
    omega

theorem shape_get_empty (nodeSize : Nat) {q : AVPacketQueue} (h : Shape q []) (block : Bool) :
    avpacket_queue_get nodeSize q block = if block then none else some (0, none, q) := by
  have hp : q.first_pkt = none := h.linked
  simp only [avpacket_queue_get, hp]

/-! ## Queue: counters -/

theorem footprint_nil (nodeSize : Nat) : footprint nodeSize [] = 0 := rfl

theorem footprint_cons (nodeSize : Nat) (p : AVPacket) (ps : List AVPacket) :
    footprint nodeSize (p :: ps) = p.size + (nodeSize : Int) + footprint nodeSize ps := by
  simp [footprint]

theorem footprint_append (nodeSize : Nat) (ps rs : List AVPacket) :
    footprint nodeSize (ps ++ rs) = footprint nodeSize ps + footprint nodeSize rs := by
  simp [footprint]

theorem counted_init (nodeSize : Nat) : Counted nodeSize avpacket_queue_init [] :=
  ⟨by simp [avpacket_queue_init, wrap32], by simp [avpacket_queue_init, footprint]⟩

theorem counted_flush (nodeSize : Nat) (q : AVPacketQueue) :
    Counted nodeSize (avpacket_queue_flush q) [] :=
  ⟨by simp [avpacket_queue_flush, wrap32], by simp [avpacket_queue_flush, footprint]⟩

theorem put_zero (nodeSize : Nat) (q : AVPacketQueue) (pkt : AVPacket) (dup_ok malloc_ok : Bool)
    (h : (avpacket_queue_put nodeSize q pkt dup_ok malloc_ok).1 = 0) :
    q.size ≤ 1024 * 1024 * 1024 ∧ dup_ok = true ∧ malloc_ok = true := by
  unfold avpacket_queue_put at h
  by_cases h1 : avpacket_queue_size q > 1024 * 1024 * 1024
  · simp [h1] at h
  · cases dup_ok <;> cases malloc_ok <;> simp [h1] at h
    simp only [avpacket_queue_size] at h1
    exact ⟨by omega, rfl, rfl⟩

theorem put_fields (nodeSize : Nat) (q : AVPacketQueue) (pkt : AVPacket)
    (hs : q.size ≤ 1024 * 1024 * 1024) :
    (avpacket_queue_put nodeSize q pkt true true).2.nb_packets = wrap32 (q.nb_packets + 1) ∧
    (avpacket_queue_put nodeSize q pkt true true).2.size =
      (((q.size : Int) + (pkt.size + (nodeSize : Int)) % 2 ^ 64) % 2 ^ 64).toNat := by
  have hs1 : ¬ avpacket_queue_size q > 1024 * 1024 * 1024 := by
    simp only [avpacket_queue_size]; omega
  simp [avpacket_queue_put, hs1]

theorem counted_put (nodeSize : Nat) {q : AVPacketQueue} {l : List (Nat × AVPacket)}
    (h : Counted nodeSize q l) (pkt : AVPacket) (hs : q.size ≤ 1024 * 1024 * 1024) :
    Counted nodeSize (avpacket_queue_put nodeSize q pkt true true).2 (l ++ [(q.brk, pkt)]) := by
  obtain ⟨hn, hz⟩ := put_fields nodeSize q pkt hs
  constructor
  · rw [hn, h.nb]
    simp only [wrap32, List.length_append, List.length_cons, List.length_nil, Nat.cast_add,
      Nat.cast_one]
    omega
  · rw [hz]
    have hq := h.size
    simp only [List.map_append, List.map_cons, List.map_nil, footprint_append, footprint_cons,
      footprint_nil]
    generalize footprint nodeSize (l.map Prod.snd) = f at hq ⊢
    omega

theorem counted_get (nodeSize : Nat) {q q1 : AVPacketQueue} {a : Nat} {k : AVPacket}
    {l : List (Nat × AVPacket)} (h : Counted nodeSize q ((a, k) :: l))
    (hn : q1.nb_packets = wrap32 (q.nb_packets - 1))
    (hz : q1.size = (((q.size : Int) - (k.size + (nodeSize : Int)) % 2 ^ 64) % 2 ^ 64).toNat) :
    Counted nodeSize q1 l := by
  constructor
  · rw [hn, h.nb]
    simp only [wrap32, List.length_cons, Nat.cast_add, Nat.cast_one]
    omega
  · rw [hz]
    have hq := h.size
    simp only [List.map_cons, footprint_cons] at hq
    generalize footprint nodeSize (l.map Prod.snd) = f at hq ⊢
    omega

theorem putAll_shape (nodeSize : Nat) :
    ∀ (calls : List (AVPacket × Bool × Bool)) (q q1 : AVPacketQueue) (l : List (Nat × AVPacket)),
      Shape q l → Counted nodeSize q l → putAll nodeSize q calls = some q1 →
      ∃ l1, Shape q1 l1 ∧ Counted nodeSize q1 l1 ∧
        l1.map Prod.snd = l.map Prod.snd ++ calls.map Prod.fst
  | [], q, q1, l, hs, hc, h => by
    simp only [putAll, Option.some.injEq] at h
    subst h
    exact ⟨l, hs, hc, by simp⟩
  | (pkt, dup_ok, malloc_ok) :: cs, q, q1, l, hs, hc, h => by
    simp only [putAll] at h
    by_cases h0 : (avpacket_queue_put nodeSize q pkt dup_ok malloc_ok).1 = 0
    · rw [if_pos h0] at h
      obtain ⟨hz, hd, hm⟩ := put_zero nodeSize q pkt dup_ok malloc_ok h0
      subst hd hm
      obtain ⟨l1, hs1, hc1, hl1⟩ := putAll_shape nodeSize cs _ q1 _
        (shape_put nodeSize hs pkt hz).2 (counted_put nodeSize hc pkt hz) h
      exact ⟨l1, hs1, hc1, by simp [hl1]⟩
    · rw [if_neg h0] at h
      simp at h

theorem getAll_shape (nodeSize : Nat) :
    ∀ (l : List (Nat × AVPacket)) (q : AVPacketQueue) (blocks : List Bool),
      Shape q l → Counted nodeSize q l → blocks.length = l.length →
      ∃ q1, getAll nodeSize q blocks = some (l.map Prod.snd, q1) ∧ Shape q1 [] ∧
        Counted nodeSize q1 []
  | [], q, blocks, hs, hc, hlen => by
    have : blocks = [] := List.length_eq_zero.mp (by simpa using hlen)
    subst this
    exact ⟨q, rfl, hs, hc⟩
  | (a, k) :: l, q, blocks, hs, hc, hlen => by
    cases blocks with
    | nil => simp at hlen
    | cons b bs =>
      obtain ⟨q1, hg, hs1, hn, hz⟩ := shape_get nodeSize hs b
      obtain ⟨q2, hg2, hs2, hc2⟩ := getAll_shape nodeSize l q1 bs hs1
        (counted_get nodeSize hc hn hz) (by simpa using hlen)
      exact ⟨q2, by simp [getAll, hg, hg2], hs2, hc2⟩

/-! ## Queue: main results -/

/-- C1. Starting from a freshly initialised queue, if the `avpacket_queue_put`
calls for a list of packets all return 0, then as many `avpacket_queue_get`
calls (blocking or not) each return 1 and deliver the packets in insertion
order, every field equal to what was put; afterwards `size` and `nb_packets`
are 0 and `first_pkt` and `last_pkt` are both `NULL`. -/
theorem queue_fifo_roundtrip (nodeSize : Nat) (calls : List (AVPacket × Bool × Bool))
    (blocks : List Bool) (q : AVPacketQueue)
    (hput : putAll nodeSize avpacket_queue_init calls = some q)
    (hlen : blocks.length = calls.length) :
    ∃ q1, getAll nodeSize q blocks = some (calls.map Prod.fst, q1) ∧
      q1.size = 0 ∧ q1.nb_packets = 0 ∧ q1.first_pkt = none ∧ q1.last_pkt = none := by
  obtain ⟨l, hs, hc, hl⟩ :=
    putAll_shape nodeSize calls _ q [] shape_init (counted_init nodeSize) hput
  simp only [List.map_nil, List.nil_append] at hl
  have hlen1 : blocks.length = l.length := by
    rw [hlen, ← List.length_map l Prod.snd, hl, List.length_map]
  obtain ⟨q1, hg, hs1, hc1⟩ := getAll_shape nodeSize l q blocks hs hc hlen1
  refine ⟨q1, by rw [hg, hl], ?_, ?_, (shape_first_none hs1).mpr rfl,
    (shape_last_none hs1).mpr rfl⟩
  · have := hc1.size
    simp only [List.map_nil, footprint_nil] at this
    omega
  · have := hc1.nb
    simpa [wrap32] using this

/-- Instance of C1: two packets put into a fresh queue and taken out again, the
first by a blocking and the second by a non-blocking call. -/
theorem queue_fifo_roundtrip_witness :
    ∃ q1, getAll 96
        (avpacket_queue_put 96 (avpacket_queue_put 96 avpacket_queue_init samplePacketA
          true true).2 samplePacketB true true).2 [true, false]
        = some ([samplePacketA, samplePacketB], q1) ∧
      q1.size = 0 ∧ q1.nb_packets = 0 ∧ q1.first_pkt = none ∧ q1.last_pkt = none :=
  queue_fifo_roundtrip 96 [(samplePacketA, true, true), (samplePacketB, true, true)]
    [true, false] _ rfl rfl

/-- C2. When the stored size is above 1 GiB, `avpacket_queue_put` returns -1 and
the queue (packet sequence, `nb_packets`, `size`) is exactly as before; when
the size is at most 1 GiB on a well-formed queue and duplication and node
allocation succeed, it returns 0 and the packet is appended to the sequence. -/
theorem queue_put_ceiling (nodeSize : Nat) (q : AVPacketQueue) (pkt : AVPacket)
    (dup_ok malloc_ok : Bool) :
    (1024 * 1024 * 1024 < q.size →
      avpacket_queue_put nodeSize q pkt dup_ok malloc_ok = (-1, q)) ∧
    (q.size ≤ 1024 * 1024 * 1024 → WellFormed q →
      (avpacket_queue_put nodeSize q pkt true true).1 = 0 ∧
      queued (avpacket_queue_put nodeSize q pkt true true).2 = queued q ++ [pkt]) := by
  constructor
  · intro h
    have : avpacket_queue_size q > 1024 * 1024 * 1024 := h
    simp [avpacket_queue_put, this]
  · rintro h ⟨l, hs⟩
    obtain ⟨h0, hs1⟩ := shape_put nodeSize hs pkt h
    refine ⟨h0, ?_⟩
    rw [shape_queued hs1, shape_queued hs]
    simp

/-- Instance of C2: a queue holding one packet of more than 1 GiB rejects the
next packet unchanged, and the fresh queue accepts a packet. -/
theorem queue_put_ceiling_witness :
    avpacket_queue_put 96
        (avpacket_queue_put 96 avpacket_queue_init samplePacketHuge true true).2
        samplePacketA true true
      = (-1, (avpacket_queue_put 96 avpacket_queue_init samplePacketHuge true true).2) ∧
    ((avpacket_queue_put 96 avpacket_queue_init samplePacketA true true).1 = 0 ∧
      queued (avpacket_queue_put 96 avpacket_queue_init samplePacketA true true).2
        = queued avpacket_queue_init ++ [samplePacketA]) :=
  ⟨(queue_put_ceiling 96 _ samplePacketA true true).1 (by decide),
   (queue_put_ceiling 96 avpacket_queue_init samplePacketA true true).2 (by decide)
     ⟨[], shape_init⟩⟩

theorem footprint_ge_length (nodeSize : Nat) (h1 : 0 < nodeSize) :
    ∀ l : List (Nat × AVPacket), (∀ x ∈ l, 0 ≤ x.2.size ∧ x.2.size < 2 ^ 31) →
      (l.length : Int) ≤ footprint nodeSize (l.map Prod.snd)
  | [], _ => by simp [footprint]
  | x :: l, h => by
    have ih := footprint_ge_length nodeSize h1 l (fun y hy => h y (by simp [hy]))
    have hx := (h x (by simp)).1
    simp only [List.length_cons, List.map_cons, footprint_cons, Nat.cast_add, Nat.cast_one]
    omega

theorem put_rejected (nodeSize : Nat) (q : AVPacketQueue) (pkt : AVPacket)
    (dup_ok malloc_ok : Bool)
    (h : ¬ (q.size ≤ 1024 * 1024 * 1024 ∧ dup_ok = true ∧ malloc_ok = true)) :
    avpacket_queue_put nodeSize q pkt dup_ok malloc_ok = (-1, q) := by
  by_cases h1 : avpacket_queue_size q > 1024 * 1024 * 1024
  · simp [avpacket_queue_put, h1]
  · have h2 : q.size ≤ 1024 * 1024 * 1024 := by
      simp only [avpacket_queue_size] at h1; omega
    cases dup_ok <;> cases malloc_ok <;> simp [avpacket_queue_put, h1]
    simp [h2] at h

/-- Every reachable state has a well-formed chain whose counters are exact. -/
theorem reachable_inv (nodeSize : Nat) (h1 : 0 < nodeSize) (h2 : nodeSize < 2 ^ 63)
    (q : AVPacketQueue) (hr : Reachable nodeSize q) :
    ∃ l, Shape q l ∧ Counted nodeSize q l ∧ Exact nodeSize l := by
  induction hr with
  | init => exact ⟨[], shape_init, counted_init nodeSize, ⟨by simp, by simp [footprint]; omega, by simp⟩⟩
  | put q pkt dup_ok malloc_ok _ hp0 hp1 ih =>
    obtain ⟨l, hs, hc, he⟩ := ih
    by_cases hok : q.size ≤ 1024 * 1024 * 1024 ∧ dup_ok = true ∧ malloc_ok = true
    · obtain ⟨hz, hd, hm⟩ := hok
      subst hd hm
      refine ⟨l ++ [(q.brk, pkt)], (shape_put nodeSize hs pkt hz).2,
        counted_put nodeSize hc pkt hz, ?_⟩
      have hlen := footprint_ge_length nodeSize h1 l he.range
      have hq := hc.size
      have ht := he.total
      constructor
      · intro x hx
        simp only [List.mem_append, List.mem_singleton] at hx
        rcases hx with hx | hx
        · exact he.range x hx
        · subst hx; exact ⟨hp0, hp1⟩
      · simp only [List.map_append, List.map_cons, List.map_nil, footprint_append,
          footprint_cons, footprint_nil]
        generalize footprint nodeSize (l.map Prod.snd) = f at hq ht hlen ⊢
        omega
      · simp only [List.length_append, List.length_cons, List.length_nil]
        generalize footprint nodeSize (l.map Prod.snd) = f at hq ht hlen
        omega
    · rw [put_rejected nodeSize q pkt dup_ok malloc_ok hok]
      exact ⟨l, hs, hc, he⟩
  | get q block r _ hg ih =>
    obtain ⟨l, hs, hc, he⟩ := ih
    cases l with
    | nil =>
      rw [shape_get_empty nodeSize hs block] at hg
      cases block with
      | true => simp at hg
      | false =>
        simp only [Bool.false_eq_true, if_false, Option.some.injEq] at hg
        subst hg
        exact ⟨[], hs, hc, he⟩
    | cons x l =>
      obtain ⟨a, k⟩ := x
      obtain ⟨q1, hg1, hs1, hn, hz⟩ := shape_get nodeSize hs block
      rw [hg1, Option.some.injEq] at hg
      subst hg
      refine ⟨l, hs1, counted_get nodeSize hc hn hz, ?_⟩
      have hk := (he.range (a, k) (by simp)).1
      have ht := he.total
      simp only [List.map_cons, footprint_cons] at ht
      have hcnt := he.count
      simp only [List.length_cons] at hcnt
      exact ⟨fun y hy => he.range y (by simp [hy]), by simp only at hk; omega, by omega⟩
  | flush q _ _ =>
    exact ⟨[], shape_flush q, counted_flush nodeSize q, ⟨by simp, by simp [footprint]; omega, by simp⟩⟩

/-- C3. In every state reachable from `avpacket_queue_init` by `put`, `get`
(blocking on a non-empty queue, or non-blocking) and `flush` with non-negative
packet sizes, `size` is the sum over the queued packets of payload size plus
`sizeof(AVPacketList)`, `nb_packets` is the number of queued packets, and
`last_pkt` is `NULL` exactly when `first_pkt` is. -/
theorem queue_counters_invariant (nodeSize : Nat) (h1 : 0 < nodeSize) (h2 : nodeSize < 2 ^ 63)
    (q : AVPacketQueue) (hr : Reachable nodeSize q) :
    (q.size : Int) = footprint nodeSize (queued q) ∧
      q.nb_packets = ((queued q).length : Int) ∧
      (q.last_pkt = none ↔ q.first_pkt = none) := by
  obtain ⟨l, hs, hc, he⟩ := reachable_inv nodeSize h1 h2 q hr
  have hlen := footprint_ge_length nodeSize h1 l he.range
  have hq := hc.size
  have hn := hc.nb
  have ht := he.total
  have hcnt := he.count
  rw [shape_queued hs, List.length_map]
  refine ⟨?_, ?_, ?_⟩
  · generalize footprint nodeSize (l.map Prod.snd) = f at hq ht hlen ⊢
    omega
  · rw [hn]
    simp only [wrap32]
    omega
  · rw [shape_last_none hs, shape_first_none hs]

/-- Instance of C3: the state after one `put` into the fresh queue. -/
theorem queue_counters_invariant_witness :
    (((avpacket_queue_put 96 avpacket_queue_init samplePacketA true true).2.size : Nat) : Int)
        = footprint 96 (queued (avpacket_queue_put 96 avpacket_queue_init samplePacketA
            true true).2) ∧
      (avpacket_queue_put 96 avpacket_queue_init samplePacketA true true).2.nb_packets
        = ((queued (avpacket_queue_put 96 avpacket_queue_init samplePacketA
            true true).2).length : Int) ∧
      ((avpacket_queue_put 96 avpacket_queue_init samplePacketA true true).2.last_pkt = none ↔
        (avpacket_queue_put 96 avpacket_queue_init samplePacketA true true).2.first_pkt = none) :=
  queue_counters_invariant 96 (by decide) (by decide) _
    (Reachable.put avpacket_queue_init samplePacketA true true Reachable.init
      (by decide) (by decide))

/-! ## PTS resolver: main results -/

theorem wrap64_of_range (x : Int) (h1 : -2 ^ 63 ≤ x) (h2 : x < 2 ^ 63) : wrap64 x = x := by
  simp only [wrap64]; omega

theorem wrap64_zero : wrap64 0 = 0 := by decide

/-- A successful call on a clock state that is already set returns the raw
timestamp minus the zero point and keeps the state. -/
theorem get_pkt_pts_set (f : Int → AVRational → AVRational → Int) (pts_src : DecklinkPtsSource)
    (tb : AVRational) (c : PtsCall) (s : Int) (hs : s ≠ AV_NOPTS_VALUE)
    (hok : (pts_switch f c.1 c.2.1 c.2.2 pts_src tb).1 = S_OK) :
    get_pkt_pts f c.1 c.2.1 c.2.2 pts_src tb s = (wrap64 (raw_pts f pts_src tb c - s), s) := by
  simp [get_pkt_pts, hok, hs, raw_pts, device_time]

/-- A successful call on an unset clock state captures the raw timestamp and
returns 0. -/
theorem get_pkt_pts_unset (f : Int → AVRational → AVRational → Int)
    (pts_src : DecklinkPtsSource) (tb : AVRational) (c : PtsCall)
    (hok : (pts_switch f c.1 c.2.1 c.2.2 pts_src tb).1 = S_OK)
    (hraw : raw_pts f pts_src tb c ≠ AV_NOPTS_VALUE) :
    get_pkt_pts f c.1 c.2.1 c.2.2 pts_src tb AV_NOPTS_VALUE = (0, raw_pts f pts_src tb c) := by
  simp only [raw_pts, device_time] at hraw
  simp [get_pkt_pts, hok, hraw, raw_pts, device_time, wrap64_zero]

theorem pts_run_set (f : Int → AVRational → AVRational → Int) (pts_src : DecklinkPtsSource)
    (tb : AVRational) (s : Int) (hs : s ≠ AV_NOPTS_VALUE) :
    ∀ cs : List PtsCall, (∀ c ∈ cs, (pts_switch f c.1 c.2.1 c.2.2 pts_src tb).1 = S_OK) →
      pts_run f pts_src tb s cs = cs.map (fun c => (wrap64 (raw_pts f pts_src tb c - s), s))
  | [], _ => rfl
  | c :: cs, h => by
    simp only [pts_run, List.map_cons]
    rw [get_pkt_pts_set f pts_src tb c s hs (h c (by simp))]
    simp only
    rw [pts_run_set f pts_src tb s hs cs (fun x hx => h x (by simp [hx]))]

/-- C4. For a device-clock policy and successful calls on a clock state that
starts unset, with raw timestamps `r_0, r_1, ...` (device timestamp divided by
`time_base.num`, none equal to `AV_NOPTS_VALUE`): the k-th call returns the
`int64_t` difference `r_k - r_0` and the clock state is `r_0` after every
call; the first call returns 0; the difference is the exact integer
`r_k - r_0` whenever that fits `int64_t`; and with `time_base.num = 1` a call
whose device timestamp is `d` ticks after the first returns exactly `d`. -/
theorem pts_rebased_to_zero_point (f : Int → AVRational → AVRational → Int)
    (pts_src : DecklinkPtsSource) (tb : AVRational) (c0 : PtsCall) (cs : List PtsCall)
    (_hnum : tb.num ≠ 0)
    (hok : ∀ c ∈ c0 :: cs, (pts_switch f c.1 c.2.1 c.2.2 pts_src tb).1 = S_OK)
    (hraw : ∀ c ∈ c0 :: cs, raw_pts f pts_src tb c ≠ AV_NOPTS_VALUE) :
    pts_run f pts_src tb AV_NOPTS_VALUE (c0 :: cs)
        = (c0 :: cs).map (fun c =>
            (wrap64 (raw_pts f pts_src tb c - raw_pts f pts_src tb c0), raw_pts f pts_src tb c0)) ∧
      (pts_run f pts_src tb AV_NOPTS_VALUE (c0 :: cs)).head? = some (0, raw_pts f pts_src tb c0) ∧
      (∀ c ∈ c0 :: cs,
        -2 ^ 63 ≤ raw_pts f pts_src tb c - raw_pts f pts_src tb c0 →
        raw_pts f pts_src tb c - raw_pts f pts_src tb c0 < 2 ^ 63 →
        wrap64 (raw_pts f pts_src tb c - raw_pts f pts_src tb c0)
          = raw_pts f pts_src tb c - raw_pts f pts_src tb c0) ∧
      (tb.num = 1 → ∀ c ∈ c0 :: cs, ∀ d : Int,
        -2 ^ 63 ≤ device_time f pts_src tb c0 → device_time f pts_src tb c0 < 2 ^ 63 →
        -2 ^ 63 ≤ d → d < 2 ^ 63 →
        device_time f pts_src tb c = device_time f pts_src tb c0 + d →
        device_time f pts_src tb c < 2 ^ 63 →
        wrap64 (raw_pts f pts_src tb c - raw_pts f pts_src tb c0) = d) := by
  have h0 := get_pkt_pts_unset f pts_src tb c0 (hok c0 (by simp)) (hraw c0 (by simp))
  have hrun : pts_run f pts_src tb AV_NOPTS_VALUE (c0 :: cs)
      = (c0 :: cs).map (fun c =>
          (wrap64 (raw_pts f pts_src tb c - raw_pts f pts_src tb c0),
            raw_pts f pts_src tb c0)) := by
    simp only [pts_run, List.map_cons, h0, sub_self, wrap64_zero]
    rw [pts_run_set f pts_src tb _ (hraw c0 (by simp)) cs (fun x hx => hok x (by simp [hx]))]
  refine ⟨hrun, ?_, ?_, ?_⟩
  · rw [hrun]; simp [wrap64_zero]
  · intro c _ h1 h2
    exact wrap64_of_range _ h1 h2
  · intro hn c _ d h1 h2 h3 h4 h5 h6
    simp only [raw_pts, div64, hn, Int.tdiv_one]
    rw [h5] at h6 ⊢
    generalize device_time f pts_src tb c0 = t at h1 h2 h6 ⊢
    simp only [wrap64]
    omega

/-- Instance of C4: two video frames with stream times 1000 and 1040 under the
video stream clock with time base 1/25. -/
theorem pts_rebased_to_zero_point_witness :
    pts_run sampleRescale PTS_SRC_VIDEO ⟨1, 25⟩ AV_NOPTS_VALUE
        [(some (sampleVideoFrame 1000), none, 0), (some (sampleVideoFrame 1040), none, 0)]
      = [(0, 1000), (40, 1000)] :=
  (pts_rebased_to_zero_point sampleRescale PTS_SRC_VIDEO ⟨1, 25⟩
    (some (sampleVideoFrame 1000), none, 0) [(some (sampleVideoFrame 1040), none, 0)]
    (by decide) (by decide) (by decide)).1.trans (by decide)

/-- When the accessor of the policy does not return `S_OK` (or the frame is
absent), a device-clock call leaves the clock state unchanged; it returns
`AV_NOPTS_VALUE` if the zero point is unset, and otherwise `AV_NOPTS_VALUE`
minus the zero point, reduced to `int64_t`. -/
theorem get_pkt_pts_failure (f : Int → AVRational → AVRational → Int)
    (pts_src : DecklinkPtsSource) (tb : AVRational) (c : PtsCall) (s : Int)
    (hsrc : pts_src ≠ PTS_SRC_WALLCLOCK)
    (hfail : (pts_switch f c.1 c.2.1 c.2.2 pts_src tb).1 ≠ S_OK) :
    get_pkt_pts f c.1 c.2.1 c.2.2 pts_src tb s
      = (if s = AV_NOPTS_VALUE then AV_NOPTS_VALUE else wrap64 (AV_NOPTS_VALUE - s), s) := by
  have hpts : (pts_switch f c.1 c.2.1 c.2.2 pts_src tb).2.2 = AV_NOPTS_VALUE := by
    cases pts_src with
    | PTS_SRC_AUDIO => simp only [pts_switch]; split <;> rfl
    | PTS_SRC_VIDEO => simp only [pts_switch]; split <;> rfl
    | PTS_SRC_REFERENCE => simp only [pts_switch]; split <;> rfl
    | PTS_SRC_WALLCLOCK => exact absurd rfl hsrc
  by_cases hs : s = AV_NOPTS_VALUE
  · simp [get_pkt_pts, hfail, hpts, hs]
  · simp [get_pkt_pts, hfail, hpts, hs]

/-- C5 (failing input). With the zero point already set to 1000 and the device
accessor failing (or the frame absent), `get_pkt_pts` leaves the clock state
unchanged but returns `AV_NOPTS_VALUE - 1000` reduced to `int64_t`, not
`AV_NOPTS_VALUE`; with the zero point at -5 it returns `AV_NOPTS_VALUE + 5`. -/
theorem get_pkt_pts_failure_after_zero_point :
    get_pkt_pts sampleRescale (some failingVideoFrame) none 0 PTS_SRC_REFERENCE ⟨1, 25⟩ 1000
        = (2 ^ 63 - 1000, 1000) ∧
      get_pkt_pts sampleRescale none none 0 PTS_SRC_VIDEO ⟨1, 25⟩ 1000 = (2 ^ 63 - 1000, 1000) ∧
      get_pkt_pts sampleRescale none none 0 PTS_SRC_AUDIO ⟨1, 25⟩ (-5)
        = (AV_NOPTS_VALUE + 5, -5) ∧
      (2 ^ 63 - 1000 : Int) ≠ AV_NOPTS_VALUE ∧ AV_NOPTS_VALUE + 5 ≠ AV_NOPTS_VALUE := by
  decide

/-! ## Parity / line-offset byte -/

theorem calc_parity_first_field (line : Int) (h1 : 7 ≤ line) (h2 : line ≤ 22) :
    (calc_parity_and_line_offset line : Int) = 32 + line := by
  have a : line < 313 := by omega
  have b : line ≥ 7 ∧ line ≤ 22 := ⟨h1, h2⟩
  have c : ¬ (line ≥ 320 ∧ line ≤ 335) := by omega
  simp only [calc_parity_and_line_offset, if_pos a, if_pos b, if_neg c]
  omega

theorem calc_parity_second_field (line : Int) (h1 : 320 ≤ line) (h2 : line ≤ 335) :
    (calc_parity_and_line_offset line : Int) = line - 313 := by
  have a : ¬ line < 313 := by omega
  have b : ¬ (line ≥ 7 ∧ line ≤ 22) := by omega
  have c : line ≥ 320 ∧ line ≤ 335 := ⟨h1, h2⟩
  simp only [calc_parity_and_line_offset, if_neg a, if_neg b, if_pos c]
  omega

/-- C6 (as stated, refuted). At line 7 bit 5 of the parity/offset byte is set,
and at line 320 it is clear. -/
theorem calc_parity_bit5_polarity :
    ¬ (calc_parity_and_line_offset 7 &&& 0x20 = 0) ∧
      ¬ (calc_parity_and_line_offset 320 &&& 0x20 = 0x20) := by
  decide

/-- C6 (amended). For every line in [7,22] the byte returned by
`calc_parity_and_line_offset` has bit 5 (value 0x20) set; for every line in
[320,335] it has bit 5 clear. -/
theorem calc_parity_bit5 (line : Int) :
    (7 ≤ line ∧ line ≤ 22 → calc_parity_and_line_offset line &&& 0x20 = 0x20) ∧
      (320 ≤ line ∧ line ≤ 335 → calc_parity_and_line_offset line &&& 0x20 = 0) := by
  constructor
  · rintro ⟨h1, h2⟩
    interval_cases line <;> decide
  · rintro ⟨h1, h2⟩
    interval_cases line <;> decide

/-- Instance of the amended C6 at lines 12 and 330. -/
theorem calc_parity_bit5_witness :
    calc_parity_and_line_offset 12 &&& 0x20 = 0x20 ∧
      calc_parity_and_line_offset 330 &&& 0x20 = 0 :=
  ⟨(calc_parity_bit5 12).1 (by decide), (calc_parity_bit5 330).2 (by decide)⟩

/-- C7. For every line in [7,22] the low five bits of the byte equal the line
number, and the byte is the exact sum `32 + line` (bit 5 stays as set by the
parity term, no wrap of the `uint8_t`); for every line in [320,335] the low
five bits equal `line - 313` and the byte is exactly `line - 313`. -/
theorem calc_parity_low_bits (line : Int) :
    (7 ≤ line ∧ line ≤ 22 →
      (calc_parity_and_line_offset line : Int) % 32 = line ∧
      (calc_parity_and_line_offset line : Int) = 32 + line ∧
      32 + line < 64 ∧
      calc_parity_and_line_offset line &&& 0x1f = line.toNat) ∧
    (320 ≤ line ∧ line ≤ 335 →
      (calc_parity_and_line_offset line : Int) % 32 = line - 313 ∧
      (calc_parity_and_line_offset line : Int) = line - 313 ∧
      line - 313 < 32 ∧
      calc_parity_and_line_offset line &&& 0x1f = (line - 313).toNat) := by
  constructor
  · rintro ⟨h1, h2⟩
    have h := calc_parity_first_field line h1 h2
    refine ⟨by omega, h, by omega, ?_⟩
    interval_cases line <;> decide
  · rintro ⟨h1, h2⟩
    have h := calc_parity_second_field line h1 h2
    refine ⟨by omega, h, by omega, ?_⟩
    interval_cases line <;> decide

/-- Instance of C7 at lines 22 and 335. -/
theorem calc_parity_low_bits_witness :
    ((calc_parity_and_line_offset 22 : Int) % 32 = 22 ∧
      (calc_parity_and_line_offset 22 : Int) = 32 + 22 ∧ (32 + 22 : Int) < 64 ∧
      calc_parity_and_line_offset 22 &&& 0x1f = (22 : Int).toNat) ∧
    ((calc_parity_and_line_offset 335 : Int) % 32 = 335 - 313 ∧
      (calc_parity_and_line_offset 335 : Int) = 335 - 313 ∧ (335 - 313 : Int) < 32 ∧
      calc_parity_and_line_offset 335 &&& 0x1f = (335 - 313 : Int).toNat) :=
  ⟨(calc_parity_low_bits 22).1 (by decide), (calc_parity_low_bits 335).2 (by decide)⟩

/-! ## OP-47 VBI packet -/

theorem poke_same (m : Bytes) (a v : Nat) : poke m a v a = v := by simp [poke]

theorem poke_other (m : Bytes) (a v x : Nat) (h : x ≠ a) : poke m a v x = m x := by
  simp [poke, h]

set_option maxRecDepth 1000000 in
theorem ff_reverse_testBit :
    ∀ b < 256, ∀ j < 8, (ff_reverse b).testBit j = b.testBit (7 - j) := by
  decide

theorem and_255_lt (w : Nat) : w &&& 255 < 256 := by
  have := @Nat.and_le_right w 255
  omega

theorem and_255_testBit (w k : Nat) (hk : k < 8) : (w &&& 255).testBit k = w.testBit k := by
  rw [Nat.testBit_and]
  have : (255 : Nat).testBit k = true := by interval_cases k <;> decide
  simp [this]

/-- The payload loop writes `n` reversed bytes at `tgt ..` and nothing else. -/
theorem op47_payload_spec (y : List Nat) (py : Int) (w : Nat → Nat) :
    ∀ (n i tgt : Nat) (mem : Bytes),
      (∀ j < n, sample y (py + ((i + j : Nat) : Int)) = some (w (i + j))) →
      ∃ mem1, op47_payload y py n i tgt mem = some (tgt + n, mem1) ∧
        (∀ j < n, mem1 (tgt + j) = ff_reverse (w (i + j) &&& 255)) ∧
        (∀ a, a < tgt ∨ tgt + n ≤ a → mem1 a = mem a)
  | 0, i, tgt, mem, _ => ⟨mem, rfl, by simp, by simp⟩
  | n + 1, i, tgt, mem, h => by
    have h0 : sample y (py + (i : Int)) = some (w i) := by simpa using h 0 (by omega)
    obtain ⟨mem1, hr, hw, hf⟩ := op47_payload_spec y py w n (i + 1) (tgt + 1)
      (poke mem tgt (ff_reverse (w i &&& 255)))
      (fun j hj => by
        have := h (j + 1) (by omega)
        rw [show i + 1 + j = i + (j + 1) by omega]
        exact this)
    refine ⟨mem1, ?_, ?_, ?_⟩
    · simp only [op47_payload, h0, hr]
      rw [show tgt + 1 + n = tgt + (n + 1) by omega]
    · intro j hj
      cases j with
      | zero =>
        rw [Nat.add_zero, hf tgt (Or.inl (by omega)), poke_same]
        simp
      | succ j =>
        have := hw j (by omega)
        rw [show tgt + (j + 1) = tgt + 1 + j by omega, this,
          show i + 1 + j = i + (j + 1) by omega]
    · intro a ha
      rw [hf a (by omega), poke_other]
      omega

/-- A packet with a matching header is decoded into one 46-byte data unit. -/
theorem op47_vbi_packet_ok (line : Int) (y : List Nat) (py : Int) (tgt : Nat) (mem : Bytes)
    (w : Nat → Nat) (hpk : ∀ i : Nat, i < 45 → sample y (py + (i : Int)) = some (w i))
    (h0 : w 0 = 0x255) (h1 : w 1 = 0x255) (h2 : w 2 = 0x227) :
    ∃ mem1, teletext_data_unit_from_op47_vbi_packet line y py tgt mem = some (tgt + 46, mem1) ∧
      mem1 tgt = 0x02 ∧ mem1 (tgt + 1) = 0x2c ∧
      mem1 (tgt + 2) = calc_parity_and_line_offset line ∧ mem1 (tgt + 3) = 0xe4 ∧
      (∀ i < 42, mem1 (tgt + 4 + i) = ff_reverse (w (3 + i) &&& 255) ∧
        mem1 (tgt + 4 + i) < 256 ∧
        ∀ j < 8, (mem1 (tgt + 4 + i)).testBit j = (w (3 + i)).testBit (7 - j)) ∧
      (∀ a, a < tgt ∨ tgt + 46 ≤ a → mem1 a = mem a) := by
  have e0 : sample y py = some 0x255 := by simpa [h0] using hpk 0 (by omega)
  have e1 : sample y (py + 1) = some 0x255 := by simpa [h1] using hpk 1 (by omega)
  have e2 : sample y (py + 2) = some 0x227 := by simpa [h2] using hpk 2 (by omega)
  have hh : op47_header_mismatch y py = some false := by
    simp [op47_header_mismatch, e0, e1, e2]
  obtain ⟨mem1, hr, hw, hf⟩ := op47_payload_spec y (py + 3) (fun j => w (3 + j)) 42 0 (tgt + 4)
    (fill_data_unit_head line tgt mem)
    (fun j hj => by
      have := hpk (3 + j) (by omega)
      simp only [Nat.zero_add]
      rw [show py + 3 + (j : Int) = py + ((3 + j : Nat) : Int) by push_cast; ring]
      exact this)
  have hhead : ∀ a, a < tgt + 4 → mem1 a = fill_data_unit_head line tgt mem a :=
    fun a ha => hf a (Or.inl ha)
  refine ⟨mem1, ?_, ?_, ?_, ?_, ?_, ?_, ?_⟩
  · simp only [teletext_data_unit_from_op47_vbi_packet, hh, hr]
  · rw [hhead tgt (by omega)]; simp [fill_data_unit_head, poke]
  · rw [hhead (tgt + 1) (by omega)]; simp [fill_data_unit_head, poke]
  · rw [hhead (tgt + 2) (by omega)]; simp [fill_data_unit_head, poke]
  · rw [hhead (tgt + 3) (by omega)]; simp [fill_data_unit_head, poke]
  · intro i hi
    have hb := hw i hi
    simp only [Nat.zero_add] at hb
    refine ⟨hb, ?_, ?_⟩
    · rw [hb]
      simp only [ff_reverse]
      omega
    · intro j hj
      rw [hb, ff_reverse_testBit _ (and_255_lt _) j hj, and_255_testBit _ _ (by omega)]
  · intro a ha
    rw [hf a (by omega)]
    have : a ≠ tgt ∧ a ≠ tgt + 1 ∧ a ≠ tgt + 2 ∧ a ≠ tgt + 3 := by omega
    simp [fill_data_unit_head, poke, this]

/-- C8. For every line number and every 45-word packet at `py` whose first three
words are 0x255, 0x255, 0x227, `teletext_data_unit_from_op47_vbi_packet`
returns `tgt + 46`; the bytes written are 0x02, 0x2C,
`calc_parity_and_line_offset line`, 0xE4 and then 42 bytes, byte `i` being the
bit reversal of the low 8 bits of word `3 + i`; no other byte changes. -/
theorem op47_vbi_packet_unit (line : Int) (y : List Nat) (py : Int) (tgt : Nat) (mem : Bytes)
    (w : Nat → Nat) (hpk : ∀ i : Nat, i < 45 → sample y (py + (i : Int)) = some (w i))
    (h0 : w 0 = 0x255) (h1 : w 1 = 0x255) (h2 : w 2 = 0x227) :
    ∃ mem1, teletext_data_unit_from_op47_vbi_packet line y py tgt mem = some (tgt + 46, mem1) ∧
      mem1 tgt = 0x02 ∧ mem1 (tgt + 1) = 0x2c ∧
      mem1 (tgt + 2) = calc_parity_and_line_offset line ∧ mem1 (tgt + 3) = 0xe4 ∧
      (∀ i < 42, mem1 (tgt + 4 + i) = ff_reverse (w (3 + i) &&& 255) ∧
        mem1 (tgt + 4 + i) < 256 ∧
        ∀ j < 8, (mem1 (tgt + 4 + i)).testBit j = (w (3 + i)).testBit (7 - j)) ∧
      (∀ a, a < tgt ∨ tgt + 46 ≤ a → mem1 a = mem a) :=
  op47_vbi_packet_ok line y py tgt mem w hpk h0 h1 h2

/-- Instance of C8: the sample packet decoded for line 7 at output address 0. -/
theorem op47_vbi_packet_unit_witness :
    ∃ mem1, teletext_data_unit_from_op47_vbi_packet 7 sampleVbiPacket 0 0 (fun _ => 0)
        = some (46, mem1) ∧
      mem1 0 = 0x02 ∧ mem1 1 = 0x2c ∧ mem1 2 = 0x27 ∧ mem1 3 = 0xe4 ∧ mem1 4 = 0xa8 := by
  obtain ⟨mem1, hr, a0, a1, a2, a3, hp, _⟩ :=
    op47_vbi_packet_unit 7 sampleVbiPacket 0 0 (fun _ => 0) (fun i => sampleVbiPacket.getD i 0)
      (by decide) (by decide) (by decide) (by decide)
  refine ⟨mem1, hr, a0, a1, ?_, a3, ?_⟩
  · rw [a2]; decide
  · have := (hp 0 (by decide)).1
    rw [this]; decide

/-- C9. For every line number and every packet whose first three words are not
(0x255, 0x255, 0x227), `teletext_data_unit_from_op47_vbi_packet` returns the
target pointer unchanged and the target memory is unchanged. -/
theorem op47_vbi_packet_header_mismatch (line : Int) (y : List Nat) (py : Int) (tgt : Nat)
    (mem : Bytes) (w0 w1 w2 : Nat)
    (e0 : sample y py = some w0) (e1 : sample y (py + 1) = some w1)
    (e2 : sample y (py + 2) = some w2)
    (hne : ¬ (w0 = 0x255 ∧ w1 = 0x255 ∧ w2 = 0x227)) :
    teletext_data_unit_from_op47_vbi_packet line y py tgt mem = some (tgt, mem) := by
  have hh : op47_header_mismatch y py = some true := by
    simp only [op47_header_mismatch, e0, e1, e2]
    by_cases a : w0 = 0x255
    · by_cases b : w1 = 0x255
      · have c : w2 ≠ 0x227 := fun c => hne ⟨a, b, c⟩
        simp [a, b, c]
      · simp [a, b]
    · simp [a]
  simp only [teletext_data_unit_from_op47_vbi_packet, hh]

/-- Instance of C9: a packet whose third header word is 0x228. -/
theorem op47_vbi_packet_header_mismatch_witness :
    teletext_data_unit_from_op47_vbi_packet 7 sampleBadVbiPacket 0 5 (fun _ => 0)
      = some (5, fun _ => 0) :=
  op47_vbi_packet_header_mismatch 7 sampleBadVbiPacket 0 5 (fun _ => 0) 0x255 0x255 0x228
    (by decide) (by decide) (by decide) (by decide)

/-! ## VANC line walker -/

/-- With `allow_multipacket = 0`, a packet that is not a subtitle-distribution
packet (did 0x143, sdid 0x102) produces nothing; this includes the multi-packet
container (did 0x143, sdid 0x203). -/
theorem ancillary_packet_no_expansion (y : List Nat) (py pend : Int) (tgt : Nat) (mem : Bytes)
    (wanted_lines : Int) (did sdid w : Nat)
    (e0 : sample y py = some did) (e1 : sample y (py + 1) = some sdid)
    (e2 : sample y (py + 2) = some w) (hne : ¬ (did = 0x143 ∧ sdid = 0x102)) :
    teletext_data_unit_from_ancillary_packet y py pend tgt mem wanted_lines 0 = some (tgt, mem) := by
  simp [teletext_data_unit_from_ancillary_packet, ancillary_packet_depth, e0, e1, e2, hne]

/-- The marker scan passes over a run of zero samples without output. -/
theorem vanc_scan_zeros (y : List Nat) (pend : Int) (wanted_lines : Int) (lo : Int)
    (hz : ∀ i : Int, lo ≤ i → i < pend → sample y i = some 0) :
    ∀ (fuel : Nat) (py : Int) (tgt : Nat) (mem : Bytes),
      lo ≤ py → pend - 6 ≤ py + fuel →
      vanc_scan y pend wanted_lines fuel py tgt mem = some (tgt, mem)
  | 0, py, tgt, mem, _, hf => by
    have : ¬ py < pend - 6 := by push_cast at hf; omega
    simp [vanc_scan, this]
  | fuel + 1, py, tgt, mem, hlo, hf => by
    by_cases hc : py < pend - 6
    · have a0 : sample y py = some 0 := hz py hlo (by omega)
      have a1 : sample y (py + 1) = some 0 := hz (py + 1) (by omega) (by omega)
      have hadf : adf_at y py = some false := by simp [adf_at, a0, a1]
      simp only [vanc_scan, if_pos hc, hadf]
      exact vanc_scan_zeros y pend wanted_lines lo hz fuel (py + 1) tgt mem (by omega)
        (by push_cast at hf; omega)
    · simp [vanc_scan, hc]

theorem v210_pack_luma0 (l : List Nat) (g : Nat) :
    (v210_pack l (8 * g + 1) >>> 2) + ((v210_pack l (8 * g + 2) &&& 15) <<< 6)
      = l.getD (3 * g) 0 % 1024 := by
  have h1 : (8 * g + 1) / 8 = g := by omega
  have h2 : (8 * g + 1) % 8 = 1 := by omega
  have h3 : (8 * g + 2) / 8 = g := by omega
  have h4 : (8 * g + 2) % 8 = 2 := by omega
  simp only [v210_pack, h1, h2, h3, h4, Nat.shiftRight_eq_div_pow, Nat.shiftLeft_eq]
  rw [show (15 : Nat) = 2 ^ 4 - 1 by norm_num, Nat.and_pow_two_sub_one_eq_mod]
  generalize l.getD (3 * g) 0 = v
  omega

theorem v210_pack_luma1 (l : List Nat) (g : Nat) :
    v210_pack l (8 * g + 4) + ((v210_pack l (8 * g + 5) &&& 3) <<< 8)
      = l.getD (3 * g + 1) 0 % 1024 := by
  have h1 : (8 * g + 4) / 8 = g := by omega
  have h2 : (8 * g + 4) % 8 = 4 := by omega
  have h3 : (8 * g + 5) / 8 = g := by omega
  have h4 : (8 * g + 5) % 8 = 5 := by omega
  simp only [v210_pack, h1, h2, h3, h4, Nat.shiftLeft_eq]
  rw [show (3 : Nat) = 2 ^ 2 - 1 by norm_num, Nat.and_pow_two_sub_one_eq_mod]
  generalize l.getD (3 * g + 1) 0 = v
  omega

theorem v210_pack_luma2 (l : List Nat) (g : Nat) :
    (v210_pack l (8 * g + 6) >>> 4) + ((v210_pack l (8 * g + 7) &&& 63) <<< 4)
      = l.getD (3 * g + 2) 0 % 1024 := by
  have h1 : (8 * g + 6) / 8 = g := by omega
  have h2 : (8 * g + 6) % 8 = 6 := by omega
  have h3 : (8 * g + 7) / 8 = g := by omega
  have h4 : (8 * g + 7) % 8 = 7 := by omega
  simp only [v210_pack, h1, h2, h3, h4, Nat.shiftRight_eq_div_pow, Nat.shiftLeft_eq]
  rw [show (63 : Nat) = 2 ^ 6 - 1 by norm_num, Nat.and_pow_two_sub_one_eq_mod]
  generalize l.getD (3 * g + 2) 0 = v
  omega

/-- Extracting the luma samples of a packed line gives back the samples
(reduced to 10 bits). -/
theorem v210_luma_pack (l : List Nat) :
    ∀ (n g i : Nat), i < 3 * n →
      (v210_luma (v210_pack l) n (8 * g))[i]? = some (l.getD (3 * g + i) 0 % 1024)
  | 0, _, i, h => by omega
  | n + 1, g, i, h => by
    simp only [v210_luma]
    rw [v210_pack_luma0, v210_pack_luma1, v210_pack_luma2]
    match i, h with
    | 0, _ => simp
    | 1, _ => simp
    | 2, _ => simp
    | i + 3, h =>
      simp only [List.getElem?_cons_succ]
      rw [show 8 * g + 8 = 8 * (g + 1) by ring, v210_luma_pack l n (g + 1) i (by omega),
        show 3 * (g + 1) + i = 3 * g + (i + 3) by ring]

theorem sample_luma_pack (l : List Nat) (hl : ∀ x ∈ l, x < 1024) (k : Nat) (hk : k < 1920) :
    sample (v210_luma (v210_pack l) 640 0) (k : Int) = some (l.getD k 0) := by
  have h := v210_luma_pack l 640 0 k (by omega)
  simp only [Nat.mul_zero, Nat.zero_add] at h
  have hlt : l.getD k 0 < 1024 := by
    rw [List.getD_eq_getElem?_getD]
    cases hg : l[k]? with
    | none => simp
    | some v => simpa using hl v (List.getElem?_mem hg)
  simp only [sample, Int.toNat_ofNat, Int.natCast_nonneg, if_true, h, Nat.mod_eq_of_lt hlt]

theorem sampleContainerLine_range : ∀ x ∈ sampleContainerLine, x < 1024 := by
  decide

theorem sampleContainerLine_sample (k : Nat) (hk : k < 1920) :
    sample (v210_luma (v210_pack sampleContainerLine) 640 0) (k : Int)
      = some (sampleContainerLine.getD k 0) :=
  sample_luma_pack sampleContainerLine sampleContainerLine_range k hk

theorem sampleContainerLine_tail (i : Int) (h1 : 65 ≤ i) (h2 : i < 1920) :
    sample (v210_luma (v210_pack sampleContainerLine) 640 0) i = some 0 := by
  obtain ⟨k, rfl⟩ := Int.eq_ofNat_of_zero_le (by omega : 0 ≤ i)
  rw [sampleContainerLine_sample k (by omega)]
  have : sampleContainerLine.length ≤ k := by
    have : sampleContainerLine.length = 65 := by decide
    omega
  rw [List.getD_eq_default _ _ this]

/-- One iteration of the marker scan at an ancillary data flag. -/
theorem vanc_scan_adf (y : List Nat) (pend : Int) (wanted_lines : Int) (fuel : Nat) (py : Int)
    (tgt tgt1 : Nat) (mem mem1 : Bytes) (dc : Nat) (hc : py < pend - 6)
    (hadf : adf_at y py = some true)
    (hanc : teletext_data_unit_from_ancillary_packet y (py + 3) pend tgt mem wanted_lines 0
      = some (tgt1, mem1))
    (hdc : sample y (py + 3 + 2) = some dc) :
    vanc_scan y pend wanted_lines (fuel + 1) py tgt mem
      = vanc_scan y pend wanted_lines fuel (py + 3 + ((dc &&& 255 : Nat) : Int)) tgt1 mem1 := by
  simp only [vanc_scan, if_pos hc, hadf, hanc, hdc]

/-- With `allow_multipacket = 0` the nesting bound plays no role. -/
theorem ancillary_packet_depth_zero (y : List Nat) (wanted_lines : Int) (d : Nat) (py pend : Int)
    (tgt : Nat) (mem : Bytes) :
    ancillary_packet_depth y wanted_lines (d + 1) py pend tgt mem 0
      = teletext_data_unit_from_ancillary_packet y py pend tgt mem wanted_lines 0 := by
  simp [teletext_data_unit_from_ancillary_packet, ancillary_packet_depth]

/-- A subtitle-distribution packet (did 0x143, sdid 0x102) is handed to
`teletext_data_unit_from_op47_data`. -/
theorem ancillary_packet_subtitle (y : List Nat) (py pend : Int) (tgt : Nat) (mem : Bytes)
    (wanted_lines allow_multipacket : Int) (w : Nat)
    (e0 : sample y py = some 0x143) (e1 : sample y (py + 1) = some 0x102)
    (e2 : sample y (py + 2) = some w) :
    teletext_data_unit_from_ancillary_packet y py pend tgt mem wanted_lines allow_multipacket
      = teletext_data_unit_from_op47_data y (py + 3)
          (min pend (py + 3 + ((w &&& 255 : Nat) : Int))) tgt mem wanted_lines := by
  simp [teletext_data_unit_from_ancillary_packet, ancillary_packet_depth, e0, e1, e2]

/-- With `allow_multipacket` non-zero, a multi-packet container (did 0x143,
sdid 0x203) is walked sub-packet by sub-packet, each handed to
`teletext_data_unit_from_ancillary_packet` with `allow_multipacket = 0`. -/
theorem ancillary_packet_container (y : List Nat) (py pend : Int) (tgt : Nat) (mem : Bytes)
    (wanted_lines allow_multipacket : Int) (w : Nat) (ha : allow_multipacket ≠ 0)
    (e0 : sample y py = some 0x143) (e1 : sample y (py + 1) = some 0x203)
    (e2 : sample y (py + 2) = some w) :
    teletext_data_unit_from_ancillary_packet y py pend tgt mem wanted_lines allow_multipacket
      = multipacket_units
          (fun p e t m => teletext_data_unit_from_ancillary_packet y p e t m wanted_lines 0)
          y (min pend (py + 3 + ((w &&& 255 : Nat) : Int)))
          (min pend (py + 3 + ((w &&& 255 : Nat) : Int)) - (py + 3 + 2)).toNat
          (py + 3 + 2) tgt mem := by
  have hsub : (fun p e t m => ancillary_packet_depth y wanted_lines 1 p e t m 0)
      = (fun p e t m => teletext_data_unit_from_ancillary_packet y p e t m wanted_lines 0) := by
    funext p e t m
    exact ancillary_packet_depth_zero y wanted_lines 0 p e t m
  rw [← hsub]
  simp [teletext_data_unit_from_ancillary_packet, ancillary_packet_depth, e0, e1, e2, ha]

theorem multipacket_units_step (sub : Int → Int → Nat → Bytes → Option (Nat × Bytes))
    (y : List Nat) (pend : Int) (fuel : Nat) (py : Int) (tgt tgt1 : Nat) (mem mem1 : Bytes)
    (ndc : Nat) (hc : py < pend - 3) (hsub : sub py pend tgt mem = some (tgt1, mem1))
    (hn : sample y (py + 2) = some ndc) :
    multipacket_units sub y pend (fuel + 1) py tgt mem
      = multipacket_units sub y pend fuel (py + (4 + ((ndc &&& 255 : Nat) : Int))) tgt1 mem1 := by
  simp only [multipacket_units, if_pos hc, hsub, hn]

theorem multipacket_units_done (sub : Int → Int → Nat → Bytes → Option (Nat × Bytes))
    (y : List Nat) (pend : Int) (fuel : Nat) (py : Int) (tgt : Nat) (mem : Bytes)
    (hc : ¬ py < pend - 3) :
    multipacket_units sub y pend fuel py tgt mem = some (tgt, mem) := by
  cases fuel <;> simp [multipacket_units, hc]

theorem op47_data_prefix (y : List Nat) (py pend : Int) (tgt : Nat) (mem : Bytes)
    (wanted_lines : Int) (hc : py < pend - 9) (hp : op47_prefix_ok y py = some true) :
    teletext_data_unit_from_op47_data y py pend tgt mem wanted_lines
      = op47_units y (py + 4) pend wanted_lines 5 0 (py + 9) tgt mem := by
  simp only [teletext_data_unit_from_op47_data, if_pos hc, hp]

theorem op47_units_done (y : List Nat) (descriptors pend : Int) (wanted_lines : Int)
    (n i : Nat) (py : Int) (tgt : Nat) (mem : Bytes) (hc : ¬ py < pend - 45) :
    op47_units y descriptors pend wanted_lines n i py tgt mem = some (tgt, mem) := by
  cases n <;> simp [op47_units, hc]

theorem op47_units_selected (y : List Nat) (descriptors pend : Int) (wanted_lines : Int)
    (n i : Nat) (py : Int) (tgt tgt1 : Nat) (mem mem1 : Bytes) (d : Nat) (line : Int)
    (hc : py < pend - 45) (hd : sample y (descriptors + (i : Int)) = some d)
    (hline : line = ((d &&& 31 : Nat) : Int) + (if d &&& 128 = 0 then 1 else 0) * 313)
    (hsel : line ≠ 0 ∧ linemask_matches line wanted_lines = true)
    (hu : teletext_data_unit_from_op47_vbi_packet line y py tgt mem = some (tgt1, mem1)) :
    op47_units y descriptors pend wanted_lines (n + 1) i py tgt mem
      = op47_units y descriptors pend wanted_lines n (i + 1) (py + 45) tgt1 mem1 := by
  subst hline
  simp only [op47_units, if_pos hc, hd, if_pos hsel, hu]

/-- C10 (failing input). On a V210 line whose luma samples start with an
ancillary data flag followed by a multi-packet container (did 0x143,
sdid 0x203) that embeds a subtitle-distribution sub-packet for the selected
line 7, `teletext_data_unit_from_vanc_data` produces nothing (target pointer and
memory unchanged): it calls `teletext_data_unit_from_ancillary_packet` with
`allow_multipacket = 0`.  The same packet parsed with `allow_multipacket = 1`
yields one 46-byte data unit. -/
theorem vanc_multipacket_container_not_expanded :
    teletext_data_unit_from_vanc_data (v210_pack sampleContainerLine) 0 (fun _ => 0) 2
        = some (0, fun _ => 0) ∧
      ∃ mem1, teletext_data_unit_from_ancillary_packet
          (v210_luma (v210_pack sampleContainerLine) 640 0) 3 1920 0 (fun _ => 0) 2 1
        = some (46, mem1) := by
  have g : ∀ (k v : Nat), k < 1920 → sampleContainerLine.getD k 0 = v →
      sample (v210_luma (v210_pack sampleContainerLine) 640 0) (k : Int) = some v := by
    intro k v hk hv
    rw [sampleContainerLine_sample k hk, hv]
  have ht := sampleContainerLine_tail
  simp only [teletext_data_unit_from_vanc_data]
  generalize v210_luma (v210_pack sampleContainerLine) 640 0 = y at g ht ⊢
  have s0 : sample y 0 = some 0 := by simpa using g 0 0 (by norm_num) (by decide)
  have s1 : sample y 1 = some 0x3ff := by simpa using g 1 0x3ff (by norm_num) (by decide)
  have s2 : sample y 2 = some 0x3ff := by simpa using g 2 0x3ff (by norm_num) (by decide)
  have s3 : sample y 3 = some 0x143 := by simpa using g 3 0x143 (by norm_num) (by decide)
  have s4 : sample y 4 = some 0x203 := by simpa using g 4 0x203 (by norm_num) (by decide)
  have s5 : sample y 5 = some 0x242 := by simpa using g 5 0x242 (by norm_num) (by decide)
  have s8 : sample y 8 = some 0x143 := by simpa using g 8 0x143 (by norm_num) (by decide)
  have s9 : sample y 9 = some 0x102 := by simpa using g 9 0x102 (by norm_num) (by decide)
  have s10 : sample y 10 = some 0x23c := by simpa using g 10 0x23c (by norm_num) (by decide)
  have s11 : sample y 11 = some 0x151 := by simpa using g 11 0x151 (by norm_num) (by decide)
  have s12 : sample y 12 = some 0x115 := by simpa using g 12 0x115 (by norm_num) (by decide)
  have s14 : sample y 14 = some 0x102 := by simpa using g 14 0x102 (by norm_num) (by decide)
  have s15 : sample y 15 = some 0x287 := by simpa using g 15 0x287 (by norm_num) (by decide)
  constructor
  · have hadf : adf_at y 0 = some true := by simp [adf_at, s0, s1, s2]
    have hanc := ancillary_packet_no_expansion y (0 + 3) 1920 0 (fun _ => 0) 2 0x143 0x203 0x242
      (by simpa using s3) (by simpa using s4) (by simpa using s5) (by decide)
    have hstep := vanc_scan_adf y 1920 2 1919 0 0 0 (fun _ => 0) (fun _ => 0) 0x242
      (by decide) hadf hanc (by simpa using s5)
    rw [show (1920 : Nat) = 1919 + 1 from rfl, hstep]
    exact vanc_scan_zeros y 1920 2 65 ht 1919 _ 0 _ (by decide) (by decide)
  · obtain ⟨m1, hu, -⟩ := op47_vbi_packet_ok 7 y 20 0 (fun _ => 0)
      (fun i => sampleContainerLine.getD (20 + i) 0)
      (fun i hi => by
        have := g (20 + i) _ (by omega) rfl
        rw [← this]; push_cast; rfl)
      (by decide) (by decide) (by decide)
    have hprefix : op47_prefix_ok y 11 = some true := by
      simp [op47_prefix_ok, s11, s12, s14]
    have hdone : op47_units y 15 71 2 4 1 65 46 m1 = some (46, m1) :=
      op47_units_done y 15 71 2 4 1 65 46 m1 (by decide)
    have hsel := op47_units_selected y 15 71 2 4 0 20 0 46 (fun _ => 0) m1 0x287 7
      (by decide) (by simpa using s15) (by decide) (by decide) (by simpa using hu)
    have hop : teletext_data_unit_from_op47_data y 11 71 0 (fun _ => 0) 2 = some (46, m1) := by
      have h := op47_data_prefix y 11 71 0 (fun _ => 0) 2 (by decide) hprefix
      norm_num at h
      rw [h, ← hdone]
      exact hsel
    have hsub : teletext_data_unit_from_ancillary_packet y 8 72 0 (fun _ => 0) 2 0
        = some (46, m1) := by
      have h := ancillary_packet_subtitle y 8 72 0 (fun _ => 0) 2 0 0x23c s8
        (by simpa using s9) (by simpa using s10)
      rw [h, ← hop]
      congr 1
    have hc := ancillary_packet_container y 3 1920 0 (fun _ => 0) 2 1 0x242 (by decide) s3
      (by simpa using s4) (by simpa using s5)
    have e1 : min (1920 : Int) (3 + 3 + ((0x242 &&& 255 : Nat) : Int)) = 72 := by decide
    have e2 : ((72 : Int) - (3 + 3 + 2)).toNat = 63 + 1 := by decide
    have e3 : (3 + 3 + 2 : Int) = 8 := by decide
    rw [e1, e2, e3] at hc
    have hstep := multipacket_units_step
      (fun p e t m => teletext_data_unit_from_ancillary_packet y p e t m 2 0) y 72 63 8 0 46
      (fun _ => 0) m1 0x23c (by decide) hsub (by simpa using s10)
    refine ⟨m1, ?_⟩
    rw [hc, hstep]
    exact multipacket_units_done _ y 72 63 _ 46 m1 (by decide)

/-! ## VANC line walker: totality and output bound -/

theorem sample_in_range (y : List Nat) (i : Int) (h0 : 0 ≤ i) (h1 : i < y.length) :
    sample y i = some (y.getD i.toNat 0) := by
  have hlt : i.toNat < y.length := by omega
  simp [sample, h0, List.getD_eq_getElem?_getD, List.getElem?_eq_getElem hlt]

/-- A packet whose header does not match leaves pointer and memory unchanged. -/
theorem op47_vbi_packet_skip (line : Int) (y : List Nat) (py : Int) (tgt : Nat)
    (mem : Bytes) (w0 w1 w2 : Nat)
    (e0 : sample y py = some w0) (e1 : sample y (py + 1) = some w1)
    (e2 : sample y (py + 2) = some w2)
    (hne : ¬ (w0 = 0x255 ∧ w1 = 0x255 ∧ w2 = 0x227)) :
    teletext_data_unit_from_op47_vbi_packet line y py tgt mem = some (tgt, mem) := by
  have hh : op47_header_mismatch y py = some true := by
    simp only [op47_header_mismatch, e0, e1, e2]
    by_cases a : w0 = 0x255
    · by_cases b : w1 = 0x255
      · have c : w2 ≠ 0x227 := fun c => hne ⟨a, b, c⟩
        simp [a, b, c]
      · simp [a, b]
    · simp [a]
  simp only [teletext_data_unit_from_op47_vbi_packet, hh]

/-- On 45 words inside the array the packet decoder returns, having written
zero or one data unit at `tgt` and nothing else. -/
theorem op47_vbi_packet_total (line : Int) (y : List Nat) (py : Int) (tgt : Nat) (mem : Bytes)
    (h0 : 0 ≤ py) (h1 : py + 45 ≤ y.length) :
    ∃ k mem1, k ≤ 1 ∧
      teletext_data_unit_from_op47_vbi_packet line y py tgt mem = some (tgt + 46 * k, mem1) ∧
      ∀ a, a < tgt ∨ tgt + 46 * k ≤ a → mem1 a = mem a := by
  have hpk : ∀ i : Nat, i < 45 →
      sample y (py + (i : Int)) = some (y.getD (py + (i : Int)).toNat 0) :=
    fun i hi => sample_in_range y _ (by omega) (by omega)
  by_cases hh : y.getD (py + ((0 : Nat) : Int)).toNat 0 = 0x255 ∧
      y.getD (py + ((1 : Nat) : Int)).toNat 0 = 0x255 ∧
      y.getD (py + ((2 : Nat) : Int)).toNat 0 = 0x227
  · obtain ⟨mem1, hr, _, _, _, _, _, hf⟩ := op47_vbi_packet_ok line y py tgt mem
      (fun i => y.getD (py + (i : Int)).toNat 0) hpk hh.1 hh.2.1 hh.2.2
    exact ⟨1, mem1, le_refl _, by simpa using hr, by simpa using hf⟩
  · refine ⟨0, mem, by omega, ?_, fun _ _ => rfl⟩
    have e0 := hpk 0 (by omega)
    have e1 := hpk 1 (by omega)
    have e2 := hpk 2 (by omega)
    simp only [Nat.cast_zero, add_zero, Nat.cast_one, Nat.cast_ofNat] at e0 e1 e2 hh
    simpa using op47_vbi_packet_skip line y py tgt mem _ _ _ e0 e1 e2 hh

/-- The sub-packet loop returns; it writes `k` data units, at most one per
iteration, and when `k ≥ 1` that many 45-word sub-packets lie before `pend`. -/
theorem op47_units_total (y : List Nat) (descriptors pend : Int) (wanted_lines : Int)
    (hd0 : 0 ≤ descriptors) (hd1 : descriptors + 5 ≤ y.length) (hpend : pend ≤ y.length) :
    ∀ (n i : Nat) (py : Int) (tgt : Nat) (mem : Bytes), i + n ≤ 5 → 0 ≤ py →
      ∃ k mem1, k ≤ n ∧
        op47_units y descriptors pend wanted_lines n i py tgt mem = some (tgt + 46 * k, mem1) ∧
        (1 ≤ k → py + 45 * (k : Int) < pend) ∧
        ∀ a, a < tgt ∨ tgt + 46 * k ≤ a → mem1 a = mem a
  | 0, i, py, tgt, mem, _, _ => ⟨0, mem, le_refl _, rfl, by omega, fun _ _ => rfl⟩
  | n + 1, i, py, tgt, mem, hin, hpy => by
    by_cases hc : py < pend - 45
    · have hd := sample_in_range y (descriptors + (i : Int)) (by omega) (by omega)
      generalize y.getD (descriptors + (i : Int)).toNat 0 = d at hd
      have hu : ∀ line : Int, ∃ j m1, j ≤ 1 ∧
          (if line ≠ 0 ∧ linemask_matches line wanted_lines = true then
            teletext_data_unit_from_op47_vbi_packet line y py tgt mem
          else some (tgt, mem)) = some (tgt + 46 * j, m1) ∧
          ∀ a, a < tgt ∨ tgt + 46 * j ≤ a → m1 a = mem a := by
        intro line
        by_cases hs : line ≠ 0 ∧ linemask_matches line wanted_lines = true
        · rw [if_pos hs]
          exact op47_vbi_packet_total line y py tgt mem hpy (by omega)
        · rw [if_neg hs]
          exact ⟨0, mem, by omega, rfl, fun _ _ => rfl⟩
      obtain ⟨j, m1, hj, hr, hf1⟩ :=
        hu (((d &&& 31 : Nat) : Int) + (if d &&& 128 = 0 then 1 else 0) * 313)
      obtain ⟨k, m2, hk, hr2, hb, hf2⟩ :=
        op47_units_total y descriptors pend wanted_lines hd0 hd1 hpend n (i + 1) (py + 45)
          (tgt + 46 * j) m1 (by omega) (by omega)
      refine ⟨j + k, m2, by omega, ?_, by intro _; omega, ?_⟩
      · simp only [op47_units, if_pos hc, hd, hr]
        rw [show tgt + 46 * (j + k) = tgt + 46 * j + 46 * k by ring]
        exact hr2
      · intro a ha
        rw [hf2 a (by omega), hf1 a (by omega)]
    · exact ⟨0, mem, by omega, by simp [op47_units, hc], by omega, fun _ _ => rfl⟩

/-- On a payload inside the array `teletext_data_unit_from_op47_data` returns;
it writes `k ≤ 5` data units, and when `k ≥ 1` the nine leading words and `k`
sub-packets lie before `pend`. -/
theorem op47_data_total (y : List Nat) (py pend : Int) (tgt : Nat) (mem : Bytes)
    (wanted_lines : Int) (hpy : 0 ≤ py) (hpend : pend ≤ y.length) :
    ∃ k mem1, k ≤ 5 ∧
      teletext_data_unit_from_op47_data y py pend tgt mem wanted_lines
        = some (tgt + 46 * k, mem1) ∧
      (1 ≤ k → py + 9 + 45 * (k : Int) < pend) ∧
      ∀ a, a < tgt ∨ tgt + 46 * k ≤ a → mem1 a = mem a := by
  by_cases hc : py < pend - 9
  · have e0 := sample_in_range y py hpy (by omega)
    have e1 := sample_in_range y (py + 1) (by omega) (by omega)
    have e3 := sample_in_range y (py + 3) (by omega) (by omega)
    have hp : ∃ b, op47_prefix_ok y py = some b := by
      simp only [op47_prefix_ok, e0, e1, e3]
      split
      · exact ⟨_, rfl⟩
      · split
        · exact ⟨_, rfl⟩
        · exact ⟨_, rfl⟩
    obtain ⟨b, hb⟩ := hp
    cases b with
    | false =>
      exact ⟨0, mem, by omega, by simp [teletext_data_unit_from_op47_data, hc, hb], by omega,
        fun _ _ => rfl⟩
    | true =>
      obtain ⟨k, m1, hk, hr, hbound, hf⟩ :=
        op47_units_total y (py + 4) pend wanted_lines (by omega) (by omega) hpend 5 0 (py + 9)
          tgt mem (by omega) (by omega)
      exact ⟨k, m1, hk, by rw [ op47_data_prefix y py pend tgt mem wanted_lines hc hb, hr],
        hbound, hf⟩
  · exact ⟨0, mem, by omega, by simp [teletext_data_unit_from_op47_data, hc], by omega,
      fun _ _ => rfl⟩

/-- With `allow_multipacket = 0` and the three header words inside the array,
`teletext_data_unit_from_ancillary_packet` returns; it writes `k ≤ 5` data
units, and when `k ≥ 1` they lie before the end given by the data count. -/
theorem ancillary_packet_total (y : List Nat) (py pend : Int) (tgt : Nat) (mem : Bytes)
    (wanted_lines : Int) (hpy : 0 ≤ py) (hhdr : py + 3 ≤ y.length) (hpend : pend ≤ y.length) :
    ∃ k w mem1, k ≤ 5 ∧ sample y (py + 2) = some w ∧
      teletext_data_unit_from_ancillary_packet y py pend tgt mem wanted_lines 0
        = some (tgt + 46 * k, mem1) ∧
      (1 ≤ k → py + 12 + 45 * (k : Int) < min pend (py + 3 + ((w &&& 255 : Nat) : Int))) ∧
      ∀ a, a < tgt ∨ tgt + 46 * k ≤ a → mem1 a = mem a := by
  have e0 := sample_in_range y py hpy (by omega)
  have e1 := sample_in_range y (py + 1) (by omega) (by omega)
  have e2 := sample_in_range y (py + 2) (by omega) (by omega)
  generalize y.getD py.toNat 0 = did at e0
  generalize y.getD (py + 1).toNat 0 = sdid at e1
  generalize y.getD (py + 2).toNat 0 = w at e2
  by_cases hs : did = 0x143 ∧ sdid = 0x102
  · obtain ⟨rfl, rfl⟩ := hs
    obtain ⟨k, m1, hk, hr, hb, hf⟩ := op47_data_total y (py + 3)
      (min pend (py + 3 + ((w &&& 255 : Nat) : Int))) tgt mem wanted_lines (by omega)
      (le_trans (min_le_left _ _) hpend)
    refine ⟨k, w, m1, hk, e2, ?_, ?_, hf⟩
    · rw [ancillary_packet_subtitle y py pend tgt mem wanted_lines 0 w e0 e1 e2, hr]
    · intro h1
      have := hb h1
      omega
  · have hr := ancillary_packet_no_expansion y py pend tgt mem wanted_lines did sdid w e0 e1 e2 hs
    exact ⟨0, w, mem, by omega, e2, by simpa using hr, by omega, fun _ _ => rfl⟩

theorem v210_luma_length (src : Bytes) : ∀ (n off : Nat), (v210_luma src n off).length = 3 * n
  | 0, _ => rfl
  | n + 1, off => by
    simp only [v210_luma, List.length_cons, v210_luma_length src n (off + 8)]
    omega

/-- The marker scan of a 1920-sample line returns from every position with
enough fuel; it writes `k` data units with `238 * k + 5 * py ≤ 9585` unless
`k = 0`, and nothing outside them. -/
theorem vanc_scan_total (y : List Nat) (wanted_lines : Int) (hy : y.length = 1920) :
    ∀ (fuel : Nat) (py : Int) (tgt : Nat) (mem : Bytes), 0 ≤ py → 1914 ≤ py + (fuel : Int) →
      ∃ k mem1, vanc_scan y 1920 wanted_lines fuel py tgt mem = some (tgt + 46 * k, mem1) ∧
        (k = 0 ∨ 238 * (k : Int) + 5 * py ≤ 9585) ∧
        ∀ a, a < tgt ∨ tgt + 46 * k ≤ a → mem1 a = mem a
  | 0, py, tgt, mem, _, hf => by
    have : ¬ py < 1920 - 6 := by push_cast at hf; omega
    exact ⟨0, mem, by simp only [vanc_scan, if_neg this, Nat.mul_zero, Nat.add_zero],
      Or.inl rfl, fun _ _ => rfl⟩
  | fuel + 1, py, tgt, mem, hpy, hf => by
    by_cases hc : py < 1920 - 6
    · have e0 := sample_in_range y py hpy (by omega)
      have e1 := sample_in_range y (py + 1) (by omega) (by omega)
      have e2 := sample_in_range y (py + 2) (by omega) (by omega)
      have hadf : ∃ b, adf_at y py = some b := by
        simp only [adf_at, e0, e1, e2]
        split
        · exact ⟨_, rfl⟩
        · split
          · exact ⟨_, rfl⟩
          · exact ⟨_, rfl⟩
      obtain ⟨b, hb⟩ := hadf
      cases b with
      | false =>
        obtain ⟨k, m1, hr, hbound, hfr⟩ := vanc_scan_total y wanted_lines hy fuel (py + 1) tgt mem
          (by omega) (by push_cast at hf; omega)
        refine ⟨k, m1, by simp only [vanc_scan, if_pos hc, hb, hr], ?_, hfr⟩
        rcases hbound with h | h
        · exact Or.inl h
        · exact Or.inr (by omega)
      | true =>
        obtain ⟨n, w, m1, hn, hw, hr1, hb1, hf1⟩ := ancillary_packet_total y (py + 3) 1920 tgt mem
          wanted_lines (by omega) (by omega) (by omega)
        obtain ⟨k, m2, hr2, hb2, hf2⟩ := vanc_scan_total y wanted_lines hy fuel
          (py + 3 + ((w &&& 255 : Nat) : Int)) (tgt + 46 * n) m1 (by omega)
          (by push_cast at hf; omega)
        refine ⟨n + k, m2, ?_, ?_, ?_⟩
        · rw [vanc_scan_adf y 1920 wanted_lines fuel py tgt (tgt + 46 * n) mem m1 w hc hb hr1 hw,
            hr2, show tgt + 46 * n + 46 * k = tgt + 46 * (n + k) by ring]
        · by_cases hn0 : n = 0
          · subst hn0
            rcases hb2 with h | h
            · exact Or.inl (by omega)
            · exact Or.inr (by push_cast; omega)
          · have := hb1 (by omega)
            right
            rcases hb2 with h | h
            · subst h
              push_cast
              omega
            · push_cast
              omega
        · intro a ha
          rw [hf2 a (by omega), hf1 a (by omega)]
    · exact ⟨0, mem, by simp only [vanc_scan, if_neg hc, Nat.mul_zero, Nat.add_zero],
        Or.inl rfl, fun _ _ => rfl⟩

/-- Every call of `teletext_data_unit_from_vanc_data` returns, having written
`k ≤ 40` data units at `tgt` and nothing else. -/
theorem vanc_data_total (src : Bytes) (tgt : Nat) (mem : Bytes) (wanted_lines : Int) :
    ∃ k mem1, teletext_data_unit_from_vanc_data src tgt mem wanted_lines
        = some (tgt + 46 * k, mem1) ∧ k ≤ 40 ∧
      ∀ a, a < tgt ∨ tgt + 46 * k ≤ a → mem1 a = mem a := by
  obtain ⟨k, m1, hr, hb, hf⟩ := vanc_scan_total (v210_luma src 640 0) wanted_lines
    (v210_luma_length src 640 0) 1920 0 tgt mem (le_refl _) (by norm_num)
  refine ⟨k, m1, hr, ?_, hf⟩
  rcases hb with h | h
  · omega
  · omega

/-- C11. For every V210 line and every line-selector mask, one call of
`teletext_data_unit_from_vanc_data` returns with the target pointer advanced by
`46 * k` bytes for some `k ≤ 40` (at most 1840 bytes, below the 1920-byte
margin), and every byte outside `[tgt, returned pointer)` is unchanged. -/
theorem vanc_data_advance (src : Bytes) (tgt : Nat) (mem : Bytes) (wanted_lines : Int) :
    ∃ k mem1, teletext_data_unit_from_vanc_data src tgt mem wanted_lines
        = some (tgt + 46 * k, mem1) ∧
      k ≤ 40 ∧ 46 * k ≤ 1840 ∧ 46 * k < 1920 ∧
      ∀ a, a < tgt ∨ tgt + 46 * k ≤ a → mem1 a = mem a := by
  obtain ⟨k, m1, hr, hk, hf⟩ := vanc_data_total src tgt mem wanted_lines
  exact ⟨k, m1, hr, hk, by omega, by omega, hf⟩

/-! ## Line selector -/

theorem two_pow_and_ne_zero (m s : Nat) : (2 ^ s &&& m ≠ 0) ↔ m.testBit s = true := by
  rw [Nat.two_pow_and]
  cases h : m.testBit s <;> simp

theorem linemask_shift_first (line : Int) (h1 : 6 ≤ line) (h2 : line ≤ 22) :
    linemask_shift line = line - 6 := by
  have a : line ≥ 6 ∧ line ≤ 22 := ⟨h1, h2⟩
  have b : ¬ (line ≥ 318 ∧ line ≤ 335) := by omega
  simp only [linemask_shift, if_pos a, if_neg b]

theorem linemask_shift_second (line : Int) (h1 : 318 ≤ line) (h2 : line ≤ 335) :
    linemask_shift line = line - 301 := by
  have b : line ≥ 318 ∧ line ≤ 335 := ⟨h1, h2⟩
  simp only [linemask_shift, if_pos b]
  omega

theorem linemask_shift_other (line : Int) (h1 : ¬ (6 ≤ line ∧ line ≤ 22))
    (h2 : ¬ (318 ≤ line ∧ line ≤ 335)) : linemask_shift line = -1 := by
  have a : ¬ (line ≥ 6 ∧ line ≤ 22) := h1
  have b : ¬ (line ≥ 318 ∧ line ≤ 335) := h2
  simp only [linemask_shift, if_neg a, if_neg b]

theorem linemask_matches_of_shift (line mask : Int) (s : Nat) (hs : linemask_shift line = s)
    (h64 : s < 64) : linemask_matches line mask = mask_bit mask s := by
  have hlt : 2 ^ s < 2 ^ 64 := Nat.pow_lt_pow_right (by norm_num) h64
  have h0 : linemask_shift line ≥ 0 := by omega
  simp only [linemask_matches, hs, Int.toNat_ofNat, Nat.mod_eq_of_lt hlt, mask_bit]
  generalize (mask % 2 ^ 64).toNat = m
  cases hb : m.testBit s
  · have := (two_pow_and_ne_zero m s).not.mpr (by simp [hb])
    simp only [ne_eq, not_not] at this
    simp [this, h0]
  · have := (two_pow_and_ne_zero m s).mpr hb
    simp [this, h0]

/-- The selector test in closed form. -/
theorem linemask_matches_eq (line mask : Int) :
    linemask_matches line mask =
      if 6 ≤ line ∧ line ≤ 22 then mask_bit mask (line - 6).toNat
      else if 318 ≤ line ∧ line ≤ 335 then mask_bit mask (line - 301).toNat
      else false := by
  by_cases h1 : 6 ≤ line ∧ line ≤ 22
  · rw [if_pos h1]
    exact linemask_matches_of_shift line mask _
      (by rw [linemask_shift_first line h1.1 h1.2]; omega) (by omega)
  · rw [if_neg h1]
    by_cases h2 : 318 ≤ line ∧ line ≤ 335
    · rw [if_pos h2]
      exact linemask_matches_of_shift line mask _
        (by rw [linemask_shift_second line h2.1 h2.2]; omega) (by omega)
    · rw [if_neg h2]
      simp [linemask_matches, linemask_shift_other line h1 h2]

/-- C13. For every line number and 64-bit mask, `linemask_matches line mask`
holds iff `6 ≤ line ≤ 22` and bit `line - 6` of the mask is set, or
`318 ≤ line ≤ 335` and bit `line - 301` is set; every other line is rejected
for every mask; and masks that agree on bits 0..34 select the same lines, so
bits 35..63 never select a line. -/
theorem linemask_matches_spec (line mask : Int) :
    (linemask_matches line mask = true ↔
      (6 ≤ line ∧ line ≤ 22 ∧ mask_bit mask (line - 6).toNat = true) ∨
      (318 ≤ line ∧ line ≤ 335 ∧ mask_bit mask (line - 301).toNat = true)) ∧
    (¬ (6 ≤ line ∧ line ≤ 22) → ¬ (318 ≤ line ∧ line ≤ 335) →
      linemask_matches line mask = false) ∧
    (∀ mask1 : Int, (∀ k < 35, mask_bit mask1 k = mask_bit mask k) →
      linemask_matches line mask1 = linemask_matches line mask) := by
  refine ⟨?_, ?_, ?_⟩
  · rw [linemask_matches_eq]
    by_cases h1 : 6 ≤ line ∧ line ≤ 22
    · rw [if_pos h1]
      constructor
      · intro h; exact Or.inl ⟨h1.1, h1.2, h⟩
      · rintro (⟨_, _, h⟩ | ⟨h, _, _⟩)
        · exact h
        · omega
    · rw [if_neg h1]
      by_cases h2 : 318 ≤ line ∧ line ≤ 335
      · rw [if_pos h2]
        constructor
        · intro h; exact Or.inr ⟨h2.1, h2.2, h⟩
        · rintro (⟨h, h', _⟩ | ⟨_, _, h⟩)
          · exact absurd ⟨h, h'⟩ h1
          · exact h
      · rw [if_neg h2]
        constructor
        · intro h; simp at h
        · rintro (⟨h, h', _⟩ | ⟨h, h', _⟩)
          · exact absurd ⟨h, h'⟩ h1
          · exact absurd ⟨h, h'⟩ h2
  · intro h1 h2
    rw [linemask_matches_eq, if_neg h1, if_neg h2]
  · intro mask1 hm
    rw [linemask_matches_eq, linemask_matches_eq line mask]
    by_cases h1 : 6 ≤ line ∧ line ≤ 22
    · rw [if_pos h1, if_pos h1]
      exact hm _ (by omega)
    · rw [if_neg h1, if_neg h1]
      by_cases h2 : 318 ≤ line ∧ line ≤ 335
      · rw [if_pos h2, if_pos h2]
        exact hm _ (by omega)
      · rw [if_neg h2, if_neg h2]

/-- Instance of C13: mask 2 selects line 7 (bit 1) and no line outside the two
ranges. -/
theorem linemask_matches_spec_witness :
    linemask_matches 7 2 = true ∧ linemask_matches 100 2 = false :=
  ⟨(linemask_matches_spec 7 2).1.mpr (Or.inl ⟨by decide, by decide, by decide⟩),
   (linemask_matches_spec 100 2).2.1 (by decide) (by decide)⟩

/-! ## OP-47 payload decoder against its specification -/

theorem op47_line_eq (d : Nat) :
    ((d &&& 31 : Nat) : Int) + (if d &&& 128 = 0 then 1 else 0) * 313 = op47_line_spec d := by
  have h31 : d &&& 31 = d % 32 := Nat.and_pow_two_sub_one_eq_mod d 5
  have h128 : d &&& 128 = (d.testBit 7).toNat * 2 ^ 7 := Nat.and_two_pow d 7
  rw [h31, h128]
  cases hb : d.testBit 7 <;> simp [op47_line_spec, hb]

theorem op47_unit_spec_skip (y : List Nat) (py pend : Int) (wanted_lines : Int)
    (st : Nat × Bytes) :
    ∀ l : List Nat, (∀ j ∈ l, ¬ py + 9 + 45 * (j : Int) < pend - 45) →
      l.foldlM (op47_unit_spec y py pend wanted_lines) st = some st
  | [], _ => rfl
  | j :: l, h => by
    have hj : ¬ py + 9 + 45 * (j : Int) < pend - 45 := h j (by simp)
    simp only [List.foldlM, op47_unit_spec, if_neg hj]
    exact op47_unit_spec_skip y py pend wanted_lines st l (fun x hx => h x (by simp [hx]))

/-- The loop of the decoder from iteration `i` on is the in-order fold of the
specification over sub-packets `i, ..., i + n - 1`. -/
theorem op47_units_eq_spec (y : List Nat) (py pend : Int) (wanted_lines : Int) :
    ∀ (n i : Nat) (tgt : Nat) (mem : Bytes),
      op47_units y (py + 4) pend wanted_lines n i (py + 9 + 45 * (i : Int)) tgt mem
        = (List.range' i n).foldlM (op47_unit_spec y py pend wanted_lines) (tgt, mem)
  | 0, _, _, _ => rfl
  | n + 1, i, tgt, mem => by
    by_cases hc : py + 9 + 45 * (i : Int) < pend - 45
    · simp only [op47_units, if_pos hc, List.range', List.foldlM, op47_unit_spec]
      cases hd : sample y (py + 4 + (i : Int)) with
      | none => rfl
      | some d =>
        simp only [op47_line_eq]
        have hnext : ∀ (t : Nat) (m : Bytes),
            op47_units y (py + 4) pend wanted_lines n (i + 1) (py + 9 + 45 * (i : Int) + 45) t m
              = (List.range' (i + 1) n).foldlM (op47_unit_spec y py pend wanted_lines) (t, m) := by
          intro t m
          have := op47_units_eq_spec y py pend wanted_lines n (i + 1) t m
          rw [show py + 9 + 45 * ((i + 1 : Nat) : Int) = py + 9 + 45 * (i : Int) + 45 by
            push_cast; ring] at this
          exact this
        by_cases hs : op47_line_spec d ≠ 0 ∧
            linemask_matches (op47_line_spec d) wanted_lines = true
        · simp only [if_pos hs]
          cases hu : teletext_data_unit_from_op47_vbi_packet (op47_line_spec d) y
              (py + 9 + 45 * (i : Int)) tgt mem with
          | none => rfl
          | some r =>
            obtain ⟨t1, m1⟩ := r
            simp only [Option.bind_eq_bind, Option.some_bind]
            exact hnext t1 m1
        · simp only [if_neg hs, Option.bind_eq_bind, Option.some_bind]
          exact hnext tgt mem
    · have hskip := op47_unit_spec_skip y py pend wanted_lines (tgt, mem) (List.range' i (n + 1))
        (fun j hj => by
          have := (List.mem_range'_1.mp hj).1
          omega)
      rw [hskip]
      simp only [op47_units, if_neg hc]

/-- On a payload inside the sample array the decoder and its specification
agree. -/
theorem op47_data_eq_spec (y : List Nat) (py pend : Int) (tgt : Nat) (mem : Bytes)
    (wanted_lines : Int) (hpy : 0 ≤ py) (hpend : pend ≤ y.length) :
    teletext_data_unit_from_op47_data y py pend tgt mem wanted_lines
      = op47_data_spec y py pend tgt mem wanted_lines := by
  by_cases hc : py < pend - 9
  · have e0 := sample_in_range y py hpy (by omega)
    have e1 := sample_in_range y (py + 1) (by omega) (by omega)
    have e3 := sample_in_range y (py + 3) (by omega) (by omega)
    generalize y.getD py.toNat 0 = a at e0
    generalize y.getD (py + 1).toNat 0 = b at e1
    generalize y.getD (py + 3).toNat 0 = c at e3
    have hunits := op47_units_eq_spec y py pend wanted_lines 5 0 tgt mem
    simp only [Nat.cast_zero, mul_zero, add_zero] at hunits
    have hrange : List.range' 0 5 = [0, 1, 2, 3, 4] := by decide
    rw [hrange] at hunits
    simp only [teletext_data_unit_from_op47_data, op47_data_spec, if_pos hc, op47_prefix_ok,
      e0, e1, e3]
    by_cases ha : a = 0x151
    · by_cases hb : b = 0x115
      · by_cases h3 : c = 0x102
        · simp [ha, hb, h3, hunits]
        · simp [ha, hb, h3]
      · simp [ha, hb]
    · simp [ha]
  · simp only [teletext_data_unit_from_op47_data, op47_data_spec, if_neg hc]

/-- C14. For every OP-47 payload `[py, pend)` inside the sample array and every
mask, `teletext_data_unit_from_op47_data` equals `op47_data_spec`: it emits
nothing unless more than 9 words are available and words 0, 1, 3 are 0x151,
0x115, 0x102; otherwise for `i = 0..4` in order, when sub-packet `i` at
`py + 9 + 45 * i` starts before `pend - 45`, it computes the line from
descriptor `i` (`& 31`, plus 313 when bit 7 is clear) and appends the unit of
`teletext_data_unit_from_op47_vbi_packet` exactly when the line is non-zero and
selected.  At most 5 units are emitted. -/
theorem op47_data_refines_spec (y : List Nat) (py pend : Int) (tgt : Nat) (mem : Bytes)
    (wanted_lines : Int) (hpy : 0 ≤ py) (hpend : pend ≤ y.length) :
    teletext_data_unit_from_op47_data y py pend tgt mem wanted_lines
        = op47_data_spec y py pend tgt mem wanted_lines ∧
      (¬ py < pend - 9 →
        teletext_data_unit_from_op47_data y py pend tgt mem wanted_lines = some (tgt, mem)) ∧
      ∃ k mem1, k ≤ 5 ∧
        teletext_data_unit_from_op47_data y py pend tgt mem wanted_lines
          = some (tgt + 46 * k, mem1) := by
  refine ⟨op47_data_eq_spec y py pend tgt mem wanted_lines hpy hpend, ?_, ?_⟩
  · intro hc
    simp only [teletext_data_unit_from_op47_data, if_neg hc]
  · obtain ⟨k, m1, hk, hr, _, _⟩ := op47_data_total y py pend tgt mem wanted_lines hpy hpend
    exact ⟨k, m1, hk, hr⟩

/-- Instance of C14: the subtitle-distribution payload of the sample line
(words 11 to 70). -/
theorem op47_data_refines_spec_witness :
    teletext_data_unit_from_op47_data (sampleContainerLine ++ List.replicate 6 0) 11 71 0
        (fun _ => 0) 2
      = op47_data_spec (sampleContainerLine ++ List.replicate 6 0) 11 71 0 (fun _ => 0) 2 :=
  (op47_data_refines_spec (sampleContainerLine ++ List.replicate 6 0) 11 71 0 (fun _ => 0) 2
    (by decide) (by decide)).1

/-! ## Stuffing units -/

theorem stuffing_units_eq (n : Nat) :
    (stuffing_units ((1 + 46 * n : Nat) : Int)).toNat = (4 - (n + 1) % 4) % 4 := by
  have h1 : Int.tdiv (45 + ((1 + 46 * n : Nat) : Int)) 46 = (n : Int) + 1 := by
    rw [Int.tdiv_eq_ediv (by omega) (by omega)]
    push_cast
    omega
  simp only [stuffing_units, h1]
  rw [@Int.tmod_eq_emod ((n : Int) + 1) 4 (by omega) (by omega),
    @Int.tmod_eq_emod (4 - ((n : Int) + 1) % 4) 4 (by omega) (by omega)]
  omega

theorem stuffing_fst : ∀ (n tgt : Nat) (mem : Bytes), (stuffing n tgt mem).1 = tgt + 46 * n
  | 0, _, _ => rfl
  | n + 1, tgt, mem => by
    simp only [stuffing]
    rw [stuffing_fst n]
    ring

theorem stuffing_frame : ∀ (n tgt : Nat) (mem : Bytes) (a : Nat),
    a < tgt ∨ tgt + 46 * n ≤ a → (stuffing n tgt mem).2 a = mem a
  | 0, _, _, _, _ => rfl
  | n + 1, tgt, mem, a, h => by
    simp only [stuffing]
    rw [stuffing_frame n (tgt + 46) _ a (by omega)]
    have h1 : a ≠ tgt + 1 := by omega
    have h2 : ¬ (tgt ≤ a ∧ a < tgt + 46) := by omega
    simp [poke, memset, h1, h2]

/-- After the stuffing loop the number of units plus one is a multiple of 4. -/
theorem stuffing_total (n : Nat) (mem : Bytes) :
    ∃ s, s ≤ 3 ∧ (stuffing_units ((1 + 46 * n : Nat) : Int)).toNat = s ∧
      (stuffing (stuffing_units ((1 + 46 * n : Nat) : Int)).toNat (1 + 46 * n) mem).1
        = 1 + 46 * (n + s) ∧
      (n + s + 1) % 4 = 0 := by
  refine ⟨(4 - (n + 1) % 4) % 4, by omega, stuffing_units_eq n, ?_, by omega⟩
  rw [stuffing_fst, stuffing_units_eq]
  omega

/-- C12 (as stated, refuted). With one collected data unit (offset 47) the
stuffing loop ends at offset `1 + 46 * 3`: the packet holds 3 units, which is
not a multiple of 4. -/
theorem stuffing_total_not_multiple_of_four :
    (stuffing (stuffing_units ((1 + 46 * 1 : Nat) : Int)).toNat (1 + 46 * 1) (fun _ => 0)).1
        = 1 + 46 * 3 ∧ ¬ (3 % 4 = 0) := by
  decide

/-- C12 (amended). For every number `n ≥ 1` of collected data units (offset
`1 + 46 * n`), after the stuffing loop the packet holds `n + s` units with
`s ≤ 3` stuffing units, and `n + s + 1` (the units plus the 46 bytes of PES
header and data identifier) is a multiple of 4; so the number of units is 3
modulo 4. -/
theorem stuffing_total_plus_one (n : Nat) (mem : Bytes) (hn : 1 ≤ n) :
    ∃ s, s ≤ 3 ∧
      (stuffing (stuffing_units ((1 + 46 * n : Nat) : Int)).toNat (1 + 46 * n) mem).1
        = 1 + 46 * (n + s) ∧
      (n + s + 1) % 4 = 0 ∧ (n + s) % 4 = 3 := by
  have _ := hn
  obtain ⟨s, hs, _, hr, hm⟩ := stuffing_total n mem
  exact ⟨s, hs, hr, hm, by omega⟩

/-- Instance of the amended C12 for one collected unit. -/
theorem stuffing_total_plus_one_witness :
    ∃ s, s ≤ 3 ∧
      (stuffing (stuffing_units ((1 + 46 * 1 : Nat) : Int)).toNat (1 + 46 * 1) (fun _ => 0)).1
        = 1 + 46 * (1 + s) ∧
      (1 + s + 1) % 4 = 0 ∧ (1 + s) % 4 = 3 :=
  stuffing_total_plus_one 1 (fun _ => 0) (by decide)

/-! ## The loop over the blanking lines of a 1920-wide frame -/

/-- Decoding one blanking line (or skipping it when its buffer is not
available) returns, with at most 40 data units appended. -/
theorem vanc_line_total (vanc : IDeckLinkVideoFrameAncillary) (teletext_lines : Int) (i : Int)
    (tgt : Nat) (mem : Bytes) :
    ∃ k mem1, k ≤ 40 ∧
      (match vanc.GetBufferForVerticalBlankingLine i with
        | some buf => teletext_data_unit_from_vanc_data buf tgt mem teletext_lines
        | none => some (tgt, mem)) = some (tgt + 46 * k, mem1) ∧
      ∀ a, a < tgt ∨ tgt + 46 * k ≤ a → mem1 a = mem a := by
  cases vanc.GetBufferForVerticalBlankingLine i with
  | none => exact ⟨0, mem, by omega, rfl, fun _ _ => rfl⟩
  | some buf =>
    obtain ⟨k, m1, hr, hk, hf⟩ := vanc_data_total buf tgt mem teletext_lines
    exact ⟨k, m1, hk, hr, hf⟩

/-- The loop stops right after a line that takes the offset above 1611. -/
theorem vanc_lines_stop (vanc : IDeckLinkVideoFrameAncillary) (teletext_lines : Int)
    (dom fal : Int) (fuel : Nat) (i : Int) (tgt tgt1 : Nat) (mem mem1 : Bytes)
    (hi : i < fal)
    (hdec : (match vanc.GetBufferForVerticalBlankingLine i with
        | some buf => teletext_data_unit_from_vanc_data buf tgt mem teletext_lines
        | none => some (tgt, mem)) = some (tgt1, mem1))
    (hover : tgt1 > 1611) :
    vanc_lines vanc teletext_lines dom fal (fuel + 1) i tgt mem = some (tgt1, mem1) := by
  simp only [vanc_lines, if_pos hi, hdec, if_pos hover]

/-- Entered at an offset of at most 1611 with enough fuel, the loop returns; it
appends whole data units, the last line it decodes starts at an offset of at
most 1611, and the final offset is at most 3451. -/
theorem vanc_lines_total (vanc : IDeckLinkVideoFrameAncillary) (teletext_lines : Int)
    (dom fal : Int) :
    ∀ (fuel : Nat) (i : Int) (tgt : Nat) (mem : Bytes), fal ≤ i + (fuel : Int) → tgt ≤ 1611 →
      ∃ k mem1, vanc_lines vanc teletext_lines dom fal fuel i tgt mem
          = some (tgt + 46 * k, mem1) ∧
        (tgt + 46 * k ≤ 1611 ∨ ∃ t0 j, tgt ≤ t0 ∧ t0 ≤ 1611 ∧ j ≤ 40 ∧ tgt + 46 * k = t0 + 46 * j) ∧
        ∀ a, a < tgt ∨ tgt + 46 * k ≤ a → mem1 a = mem a
  | 0, i, tgt, mem, hf, ht => by
    have : ¬ i < fal := by push_cast at hf; omega
    exact ⟨0, mem, by simp only [vanc_lines, if_neg this, Nat.mul_zero, Nat.add_zero],
      Or.inl (by omega), fun _ _ => rfl⟩
  | fuel + 1, i, tgt, mem, hf, ht => by
    by_cases hi : i < fal
    · obtain ⟨k, m1, hk, hdec, hfr⟩ := vanc_line_total vanc teletext_lines i tgt mem
      by_cases hover : tgt + 46 * k > 1611
      · exact ⟨k, m1, vanc_lines_stop vanc teletext_lines dom fal fuel i tgt _ mem m1 hi hdec hover,
          Or.inr ⟨tgt, k, le_refl _, ht, hk, rfl⟩, hfr⟩
      · obtain ⟨k2, m2, hr2, hb2, hf2⟩ := vanc_lines_total vanc teletext_lines dom fal fuel
          ((if dom ≠ bmdProgressiveFrame ∧ i = 20 then 569 else i) + 1) (tgt + 46 * k) m1
          (by split <;> (push_cast at hf; omega)) (by omega)
        refine ⟨k + k2, m2, ?_, ?_, ?_⟩
        · simp only [vanc_lines, if_pos hi, hdec, if_neg hover]
          rw [hr2, show tgt + 46 * k + 46 * k2 = tgt + 46 * (k + k2) by ring]
        · rcases hb2 with h | ⟨t0, j, h1, h2, h3, h4⟩
          · exact Or.inl (by omega)
          · exact Or.inr ⟨t0, j, by omega, h2, h3, by omega⟩
        · intro a ha
          rw [hf2 a (by omega), hfr a (by omega)]
    · exact ⟨0, mem, by simp only [vanc_lines, if_neg hi, Nat.mul_zero, Nat.add_zero],
        Or.inl (by omega), fun _ _ => rfl⟩

/-- The 1920-wide 10-bit branch, entered at offset 1, returns with the offset
`1 + 46 * k` for some `k ≤ 75`. -/
theorem vanc_branch_total (vanc : IDeckLinkVideoFrameAncillary) (teletext_lines : Int)
    (dom : Int) (mem : Bytes) :
    ∃ k mem1, k ≤ 75 ∧
      vanc_lines vanc teletext_lines dom (if dom = bmdProgressiveFrame then 42 else 584) 584 8 1
        mem = some (1 + 46 * k, mem1) ∧
      (1 + 46 * k ≤ 1611 ∨ ∃ t0 j, t0 ≤ 1611 ∧ j ≤ 40 ∧ 1 + 46 * k = t0 + 46 * j) ∧
      ∀ a, a < 1 ∨ 1 + 46 * k ≤ a → mem1 a = mem a := by
  obtain ⟨k, m1, hr, hb, hf⟩ := vanc_lines_total vanc teletext_lines dom
    (if dom = bmdProgressiveFrame then 42 else 584) 584 8 1 mem
    (by split <;> norm_num) (by norm_num)
  refine ⟨k, m1, ?_, hr, ?_, hf⟩
  · rcases hb with h | ⟨t0, j, _, h2, h3, h4⟩ <;> omega
  · rcases hb with h | ⟨t0, j, _, h2, h3, h4⟩
    · exact Or.inl h
    · exact Or.inr ⟨t0, j, h2, h3, h4⟩

/-- C20. In the 1920-wide 10-bit branch, for every field dominance and every
content of the blanking lines, the loop over the lines returns with an offset
into `txt_buf0` of at most 3451; the line decoded last started at an offset of
at most 1611 and the loop stops right after a line that takes the offset above
1611; after the stuffing units are appended the offset is still at most 3531,
and no byte at offset 3531 or beyond is written. -/
theorem txt_buf_offset_bound (vanc : IDeckLinkVideoFrameAncillary) (teletext_lines : Int)
    (dom : Int) (mem : Bytes) :
    (∃ off mem1,
      vanc_lines vanc teletext_lines dom (if dom = bmdProgressiveFrame then 42 else 584) 584 8 1
        mem = some (off, mem1) ∧
      off ≤ 3451 ∧
      (off ≤ 1611 ∨ ∃ t0 j, t0 ≤ 1611 ∧ j ≤ 40 ∧ off = t0 + 46 * j) ∧
      (stuffing (stuffing_units off).toNat off mem1).1 ≤ 3531 ∧
      ∀ a, 3531 ≤ a → (stuffing (stuffing_units off).toNat off mem1).2 a = mem a) ∧
    (∀ (fal : Int) (fuel : Nat) (i : Int) (tgt tgt1 : Nat) (m m1 : Bytes), i < fal →
      (match vanc.GetBufferForVerticalBlankingLine i with
        | some buf => teletext_data_unit_from_vanc_data buf tgt m teletext_lines
        | none => some (tgt, m)) = some (tgt1, m1) →
      tgt1 > 1611 →
      vanc_lines vanc teletext_lines dom fal (fuel + 1) i tgt m = some (tgt1, m1)) := by
  constructor
  · obtain ⟨k, m1, hk, hr, hb, hf⟩ := vanc_branch_total vanc teletext_lines dom mem
    have hs := stuffing_units_eq k
    rw [show ((1 + 46 * k : Nat) : Int) = (((1 + 46 * k : Nat)) : Int) from rfl] at hs
    refine ⟨1 + 46 * k, m1, hr, by omega, hb, ?_, ?_⟩
    · rw [stuffing_fst, hs]
      omega
    · intro a ha
      rw [stuffing_frame _ _ _ a (by rw [hs]; omega), hf a (by omega)]
  · intro fal fuel i tgt tgt1 m m1 hi hdec hover
    exact vanc_lines_stop vanc teletext_lines dom fal fuel i tgt tgt1 m m1 hi hdec hover

/-- Instance of C20: a progressive frame whose blanking line 9 holds the sample
line. -/
theorem txt_buf_offset_bound_witness :
    ∃ off mem1,
      vanc_lines sampleAncillary 2 bmdProgressiveFrame
        (if bmdProgressiveFrame = bmdProgressiveFrame then 42 else 584) 584 8 1 (fun _ => 0)
        = some (off, mem1) ∧
      off ≤ 3451 ∧
      (off ≤ 1611 ∨ ∃ t0 j, t0 ≤ 1611 ∧ j ≤ 40 ∧ off = t0 + 46 * j) ∧
      (stuffing (stuffing_units off).toNat off mem1).1 ≤ 3531 ∧
      ∀ a, 3531 ≤ a → (stuffing (stuffing_units off).toNat off mem1).2 a = 0 :=
  (txt_buf_offset_bound sampleAncillary 2 bmdProgressiveFrame (fun _ => 0)).1

/-! ## Lines without a selected sub-packet -/

theorem op47_units_unselected (y : List Nat) (descriptors pend : Int) (wanted_lines : Int)
    (hd0 : 0 ≤ descriptors) (hd1 : descriptors + 5 ≤ y.length) :
    ∀ (n i : Nat) (py : Int) (tgt : Nat) (mem : Bytes), i + n ≤ 5 →
      (∀ line ∈ op47_unit_lines y descriptors pend n i py, ¬ line_selected wanted_lines line) →
      op47_units y descriptors pend wanted_lines n i py tgt mem = some (tgt, mem)
  | 0, _, _, _, _, _, _ => rfl
  | n + 1, i, py, tgt, mem, hin, hsel => by
    by_cases hc : py < pend - 45
    · have hd := sample_in_range y (descriptors + (i : Int)) (by omega) (by omega)
      generalize y.getD (descriptors + (i : Int)).toNat 0 = d at hd
      simp only [op47_unit_lines, if_pos hc, hd, List.mem_cons, forall_eq_or_imp] at hsel
      have hns : ¬ (((d &&& 31 : Nat) : Int) + (if d &&& 128 = 0 then 1 else 0) * 313 ≠ 0 ∧
          linemask_matches (((d &&& 31 : Nat) : Int) + (if d &&& 128 = 0 then 1 else 0) * 313)
            wanted_lines = true) := hsel.1
      simp only [op47_units, if_pos hc, hd, if_neg hns]
      exact op47_units_unselected y descriptors pend wanted_lines hd0 hd1 n (i + 1) (py + 45)
        tgt mem (by omega) hsel.2
    · simp only [op47_units, if_neg hc]

theorem op47_data_unselected (y : List Nat) (py pend : Int) (tgt : Nat) (mem : Bytes)
    (wanted_lines : Int) (hpy : 0 ≤ py) (hpend : pend ≤ y.length)
    (hsel : ∀ line ∈ op47_data_lines y py pend, ¬ line_selected wanted_lines line) :
    teletext_data_unit_from_op47_data y py pend tgt mem wanted_lines = some (tgt, mem) := by
  obtain ⟨k, m1, _, hr, _, _⟩ := op47_data_total y py pend tgt mem wanted_lines hpy hpend
  by_cases hc : py < pend - 9
  · cases hb : op47_prefix_ok y py with
    | none => simp [teletext_data_unit_from_op47_data, hc, hb] at hr
    | some b =>
      cases b with
      | false => simp [teletext_data_unit_from_op47_data, hc, hb]
      | true =>
        simp only [op47_data_lines, if_pos hc, hb] at hsel
        rw [ op47_data_prefix y py pend tgt mem wanted_lines hc hb]
        exact op47_units_unselected y (py + 4) pend wanted_lines (by omega) (by omega) 5 0
          (py + 9) tgt mem (by omega) hsel
  · simp only [teletext_data_unit_from_op47_data, if_neg hc]

theorem ancillary_packet_unselected (y : List Nat) (py pend : Int) (tgt : Nat) (mem : Bytes)
    (wanted_lines : Int) (hpy : 0 ≤ py) (hhdr : py + 3 ≤ y.length) (hpend : pend ≤ y.length)
    (hsel : ∀ line ∈ ancillary_lines y py pend, ¬ line_selected wanted_lines line) :
    teletext_data_unit_from_ancillary_packet y py pend tgt mem wanted_lines 0
      = some (tgt, mem) := by
  have e0 := sample_in_range y py hpy (by omega)
  have e1 := sample_in_range y (py + 1) (by omega) (by omega)
  have e2 := sample_in_range y (py + 2) (by omega) (by omega)
  generalize y.getD py.toNat 0 = did at e0
  generalize y.getD (py + 1).toNat 0 = sdid at e1
  generalize y.getD (py + 2).toNat 0 = w at e2
  by_cases hs : did = 0x143 ∧ sdid = 0x102
  · simp only [ancillary_lines, e0, e1, e2, if_pos hs] at hsel
    obtain ⟨rfl, rfl⟩ := hs
    rw [ancillary_packet_subtitle y py pend tgt mem wanted_lines 0 w e0 e1 e2]
    exact op47_data_unselected y (py + 3) _ tgt mem wanted_lines (by omega)
      (le_trans (min_le_left _ _) hpend) hsel
  · exact ancillary_packet_no_expansion y py pend tgt mem wanted_lines did sdid w e0 e1 e2 hs

theorem vanc_scan_unselected (y : List Nat) (wanted_lines : Int) (hy : y.length = 1920) :
    ∀ (fuel : Nat) (py : Int) (tgt : Nat) (mem : Bytes), 0 ≤ py → 1914 ≤ py + (fuel : Int) →
      (∀ line ∈ vanc_scan_lines y 1920 fuel py, ¬ line_selected wanted_lines line) →
      vanc_scan y 1920 wanted_lines fuel py tgt mem = some (tgt, mem)
  | 0, py, tgt, mem, _, hf, _ => by
    have : ¬ py < 1920 - 6 := by push_cast at hf; omega
    simp only [vanc_scan, if_neg this]
  | fuel + 1, py, tgt, mem, hpy, hf, hsel => by
    by_cases hc : py < 1920 - 6
    · have e0 := sample_in_range y py hpy (by omega)
      have e1 := sample_in_range y (py + 1) (by omega) (by omega)
      have e2 := sample_in_range y (py + 2) (by omega) (by omega)
      have hadf : ∃ b, adf_at y py = some b := by
        simp only [adf_at, e0, e1, e2]
        split
        · exact ⟨_, rfl⟩
        · split
          · exact ⟨_, rfl⟩
          · exact ⟨_, rfl⟩
      obtain ⟨b, hb⟩ := hadf
      cases b with
      | false =>
        simp only [vanc_scan_lines, if_pos hc, hb] at hsel
        simp only [vanc_scan, if_pos hc, hb]
        exact vanc_scan_unselected y wanted_lines hy fuel (py + 1) tgt mem (by omega)
          (by push_cast at hf; omega) hsel
      | true =>
        have hw := sample_in_range y (py + 3 + 2) (by omega) (by omega)
        generalize y.getD (py + 3 + 2).toNat 0 = w at hw
        simp only [vanc_scan_lines, if_pos hc, hb, hw, List.mem_append] at hsel
        have hanc := ancillary_packet_unselected y (py + 3) 1920 tgt mem wanted_lines (by omega)
          (by omega) (by omega) (fun line hl => hsel line (Or.inl hl))
        rw [vanc_scan_adf y 1920 wanted_lines fuel py tgt tgt mem mem w hc hb hanc hw]
        exact vanc_scan_unselected y wanted_lines hy fuel _ tgt mem (by omega)
          (by push_cast at hf; omega) (fun line hl => hsel line (Or.inr hl))
    · simp only [vanc_scan, if_neg hc]

/-- A line on which no sub-packet has a selected line number leaves the target
pointer and the buffer unchanged. -/
theorem vanc_data_unselected (src : Bytes) (tgt : Nat) (mem : Bytes) (wanted_lines : Int)
    (hsel : ∀ line ∈ vanc_data_lines src, ¬ line_selected wanted_lines line) :
    teletext_data_unit_from_vanc_data src tgt mem wanted_lines = some (tgt, mem) :=
  vanc_scan_unselected (v210_luma src 640 0) wanted_lines (v210_luma_length src 640 0) 1920 0
    tgt mem (le_refl _) (by norm_num) hsel

/-- When no available blanking line has a selected sub-packet, the loop over the
lines leaves the offset and the buffer unchanged. -/
theorem vanc_lines_unselected (vanc : IDeckLinkVideoFrameAncillary) (teletext_lines : Int)
    (dom fal : Int)
    (hsel : ∀ i buf, vanc.GetBufferForVerticalBlankingLine i = some buf →
      ∀ line ∈ vanc_data_lines buf, ¬ line_selected teletext_lines line) :
    ∀ (fuel : Nat) (i : Int) (tgt : Nat) (mem : Bytes), fal ≤ i + (fuel : Int) → tgt ≤ 1611 →
      vanc_lines vanc teletext_lines dom fal fuel i tgt mem = some (tgt, mem)
  | 0, i, tgt, mem, hf, _ => by
    have : ¬ i < fal := by push_cast at hf; omega
    simp only [vanc_lines, if_neg this]
  | fuel + 1, i, tgt, mem, hf, ht => by
    by_cases hi : i < fal
    · have hdec : (match vanc.GetBufferForVerticalBlankingLine i with
          | some buf => teletext_data_unit_from_vanc_data buf tgt mem teletext_lines
          | none => some (tgt, mem)) = some (tgt, mem) := by
        cases hb : vanc.GetBufferForVerticalBlankingLine i with
        | none => rfl
        | some buf => exact vanc_data_unselected buf tgt mem teletext_lines (hsel i buf hb)
      have hover : ¬ tgt > 1611 := by omega
      simp only [vanc_lines, if_pos hi, hdec, if_neg hover]
      exact vanc_lines_unselected vanc teletext_lines dom fal hsel fuel _ tgt mem
        (by split <;> (push_cast at hf; omega)) ht
    · simp only [vanc_lines, if_neg hi]

/-! ## Capture callback: one invocation -/

theorem bump_zero (w d : Nat) : bump w d 0 = d := by simp [bump]

theorem bump_bump (w d a b : Nat) : bump w (bump w d a) b = bump w d (a + b) := by
  simp only [bump]
  by_cases ha : a = 0
  · by_cases hb : b = 0
    · simp [ha, hb]
    · simp [ha, hb]
  · by_cases hb : b = 0
    · simp [ha, hb]
    · have hab : a + b ≠ 0 := by omega
      simp only [if_neg ha, if_neg hb, if_neg hab]
      rw [Nat.add_mod, Nat.mod_mod, ← Nat.add_mod, Nat.add_assoc]

theorem bump_exact (w d k : Nat) (h : d + k < 2 ^ w) : bump w d k = d + k := by
  simp only [bump]
  split
  · omega
  · exact Nat.mod_eq_of_lt h

theorem put_ret (nodeSize : Nat) (q : AVPacketQueue) (pkt : AVPacket) (dup_ok malloc_ok : Bool) :
    ((avpacket_queue_put nodeSize q pkt dup_ok malloc_ok).1 = 0) ∨
      ((avpacket_queue_put nodeSize q pkt dup_ok malloc_ok).1 = -1 ∧
        (avpacket_queue_put nodeSize q pkt dup_ok malloc_ok).2 = q) := by
  by_cases hok : q.size ≤ 1024 * 1024 * 1024 ∧ dup_ok = true ∧ malloc_ok = true
  · obtain ⟨hz, rfl, rfl⟩ := hok
    have hs1 : ¬ avpacket_queue_size q > 1024 * 1024 * 1024 := by
      simp only [avpacket_queue_size]; omega
    left
    simp [avpacket_queue_put, hs1]
  · right
    rw [put_rejected nodeSize q pkt dup_ok malloc_ok hok]
    exact ⟨rfl, rfl⟩

theorem rejected_append (l r : List (AVPacket × Int)) :
    rejected (l ++ r) = rejected l + rejected r := by
  simp [rejected]

theorem rejected_le (l : List (AVPacket × Int)) : rejected l ≤ l.length := by
  simp only [rejected]
  exact List.length_filter_le _ _

theorem rejected_eq_zero (l : List (AVPacket × Int)) (h : ∀ p ∈ l, p.2 = 0) : rejected l = 0 := by
  simp only [rejected, List.length_eq_zero, List.filter_eq_nil_iff]
  intro p hp
  simp [h p hp]

/-- One put of the callback: the call is recorded once; a rejected put leaves
the queue as it was and increments `dropped`; an accepted one leaves `dropped`
as it was; the other fields are untouched. -/
theorem put_or_drop_spec (nodeSize : Nat) (outcome : Bool × Bool) (pkt : AVPacket)
    (st : decklink_ctx × List (AVPacket × Int)) :
    ∃ ret : Int,
      ret = (avpacket_queue_put nodeSize st.1.queue pkt outcome.1 outcome.2).1 ∧
      (put_or_drop nodeSize outcome pkt st).2 = st.2 ++ [(pkt, ret)] ∧
      (put_or_drop nodeSize outcome pkt st).1.queue
        = (avpacket_queue_put nodeSize st.1.queue pkt outcome.1 outcome.2).2 ∧
      (ret < 0 → (put_or_drop nodeSize outcome pkt st).1.queue = st.1.queue ∧
        (put_or_drop nodeSize outcome pkt st).1.dropped = (st.1.dropped + 1) % 2 ^ 32) ∧
      (¬ ret < 0 → (put_or_drop nodeSize outcome pkt st).1.dropped = st.1.dropped) ∧
      (put_or_drop nodeSize outcome pkt st).1.dropped
        = bump 32 st.1.dropped (rejected [(pkt, ret)]) ∧
      (put_or_drop nodeSize outcome pkt st).1.frameCount = st.1.frameCount ∧
      SameConfig (put_or_drop nodeSize outcome pkt st).1 st.1 := by
  refine ⟨_, rfl, rfl, rfl, ?_, ?_, ?_, rfl, ⟨rfl, rfl, rfl, rfl, rfl, rfl, rfl, rfl, rfl⟩⟩
  · intro h
    rcases put_ret nodeSize st.1.queue pkt outcome.1 outcome.2 with h0 | ⟨_, h1⟩
    · rw [h0] at h; omega
    · exact ⟨h1, by simp [put_or_drop, h]⟩
  · intro h
    simp [put_or_drop, h]
  · by_cases h : (avpacket_queue_put nodeSize st.1.queue pkt outcome.1 outcome.2).1 < 0
    · simp [put_or_drop, h, bump, rejected]
    · simp [put_or_drop, h, bump, rejected]

/-- The teletext part of the video branch returns when the asserted condition
holds; a packet it emits carries the teletext stream index and the time stamps
of the video packet. -/
theorem teletext_packet_total (env : CallbackEnv) (ctx : decklink_ctx)
    (v : IDeckLinkVideoInputFrame) (pkt : AVPacket) (ha : assert_holds env ctx v) :
    ∃ o, teletext_packet env ctx v pkt = some o ∧
      ∀ p, o = some p →
        p.stream_index = ctx.teletext_st.index ∧ p.pts = pkt.pts ∧ p.dts = pkt.dts := by
  unfold teletext_packet
  cases hanc : v.GetAncillaryData with
  | none => exact ⟨none, rfl, fun p hp => by simp at hp⟩
  | some vanc =>
    simp only
    have hpal : ∃ t m, (match env.zvbi with
        | some slice =>
          if ctx.bmd_mode = bmdModePAL ∧
              (vanc.GetPixelFormat = bmdFormat8BitYUV ∨
                vanc.GetPixelFormat = bmdFormat10BitYUV) then
            if v.GetWidth = 720 then
              some (pal_lines slice vanc ctx.teletext_lines vanc.GetPixelFormat 336 6 1 1
                (poke env.txt_buf0 0 0x10))
            else none
          else some (1, poke env.txt_buf0 0 0x10)
        | none => some (1, poke env.txt_buf0 0 0x10)) = some (t, m) ∧
        (v.GetWidth = 1920 → t = 1) := by
      cases hz : env.zvbi with
      | none => exact ⟨_, _, rfl, fun _ => rfl⟩
      | some slice =>
        simp only
        by_cases hc : ctx.bmd_mode = bmdModePAL ∧
            (vanc.GetPixelFormat = bmdFormat8BitYUV ∨ vanc.GetPixelFormat = bmdFormat10BitYUV)
        · have hw := ha slice vanc hz hanc hc.1 hc.2
          rw [if_pos hc, if_pos hw]
          exact ⟨_, _, rfl, fun h => by rw [hw] at h; omega⟩
        · rw [if_neg hc]
          exact ⟨_, _, rfl, fun _ => rfl⟩
    obtain ⟨t, m, hp, ht⟩ := hpal
    rw [hp]
    simp only
    have hhd : ∃ t1 m1, (if v.GetWidth = 1920 ∧ vanc.GetPixelFormat = bmdFormat10BitYUV then
          vanc_lines vanc ctx.teletext_lines ctx.bmd_field_dominance
            (if ctx.bmd_field_dominance = bmdProgressiveFrame then 42 else 584) 584 8 t m
        else some (t, m)) = some (t1, m1) := by
      by_cases hc : v.GetWidth = 1920 ∧ vanc.GetPixelFormat = bmdFormat10BitYUV
      · rw [if_pos hc, ht hc.1]
        obtain ⟨k, m1, _, hr, _, _⟩ := vanc_branch_total vanc ctx.teletext_lines
          ctx.bmd_field_dominance m
        exact ⟨_, _, hr⟩
      · rw [if_neg hc]
        exact ⟨_, _, rfl⟩
    obtain ⟨t1, m1, hh⟩ := hhd
    rw [hh]
    simp only
    by_cases h1 : t1 > 1
    · rw [if_pos h1]
      refine ⟨_, rfl, fun p hp => ?_⟩
      simp only [Option.some.injEq] at hp
      subst hp
      exact ⟨rfl, rfl, rfl⟩
    · rw [if_neg h1]
      exact ⟨none, rfl, fun p hp => by simp at hp⟩

theorem signal_drop (cb : decklink_input_callback) (vf : IDeckLinkVideoInputFrame) (d : Nat) :
    (if vf.GetFlags &&& bmdFrameHasNoInputSource ≠ 0 then
        (if cb.no_video = 0 then (d + 1) % 2 ^ 32 else d)
      else (if cb.no_video ≠ 0 then (d + 1) % 2 ^ 32 else d))
      = bump 32 d (signal_change cb (some vf)) := by
  simp only [signal_change, no_input, bump]
  by_cases h1 : vf.GetFlags &&& bmdFrameHasNoInputSource ≠ 0 <;>
    by_cases h2 : cb.no_video = 0 <;> simp [h1, h2]

/-- What the video branch leaves behind when it returns. -/
theorem video_branch_summary (env : CallbackEnv) (ctx : decklink_ctx)
    (cb : decklink_input_callback) (w : Int) (vf : IDeckLinkVideoInputFrame)
    (a : Option IDeckLinkAudioInputPacket)
    (res : decklink_ctx × decklink_input_callback × List (AVPacket × Int))
    (h : video_branch env ctx cb w vf a = some res) :
    res.1.dropped = bump 32 ctx.dropped (signal_change cb (some vf) + rejected res.2.2) ∧
      res.1.frameCount = ctx.frameCount ∧
      res.2.1.no_video = (if no_input vf = true then 1 else 0) ∧
      res.2.1.initial_audio_pts = cb.initial_audio_pts ∧
      1 ≤ res.2.2.length ∧ res.2.2.length ≤ 2 ∧ SameConfig res.1 ctx := by
  unfold video_branch at h
  simp only [signal_drop] at h
  split at h
  · simp at h
  · rename_i txt_pkt htxt
    simp only [Option.some.injEq] at h
    subst h
    cases txt_pkt with
    | none =>
      simp only
      obtain ⟨ret, _, hp, _, _, _, hd, hfc, hcfg⟩ := put_or_drop_spec env.nodeSize env.put_video
        _ (_, [])
      refine ⟨?_, hfc, ?_, trivial, ?_, ?_, ?_⟩
      · rw [hd, hp]
        simp only [List.nil_append]
        rw [bump_bump]
      · simp [no_input]
      · rw [hp]; simp
      · rw [hp]; simp
      · exact ⟨hcfg.1, hcfg.2, hcfg.3, hcfg.4, hcfg.5, hcfg.6, hcfg.7, hcfg.8, hcfg.9⟩
    | some p =>
      simp only
      obtain ⟨ret1, _, hp1, _, _, _, hd1, hfc1, hcfg1⟩ := put_or_drop_spec env.nodeSize
        env.put_txt p (_, [])
      obtain ⟨ret2, _, hp2, _, _, _, hd2, hfc2, hcfg2⟩ := put_or_drop_spec env.nodeSize
        env.put_video _ (put_or_drop env.nodeSize env.put_txt p (_, []))
      refine ⟨?_, ?_, ?_, trivial, ?_, ?_, ?_⟩
      · rw [hd2, hd1, hp2, hp1]
        simp only [List.nil_append, bump_bump, rejected_append]
        congr 1
        omega
      · rw [hfc2, hfc1]
      · simp [no_input]
      · rw [hp2, hp1]; simp
      · rw [hp2, hp1]; simp
      · exact ⟨hcfg2.1.trans hcfg1.1, hcfg2.2.trans hcfg1.2, hcfg2.3.trans hcfg1.3,
          hcfg2.4.trans hcfg1.4, hcfg2.5.trans hcfg1.5, hcfg2.6.trans hcfg1.6,
          hcfg2.7.trans hcfg1.7, hcfg2.8.trans hcfg1.8, hcfg2.9.trans hcfg1.9⟩

/-- What the audio branch leaves behind. -/
theorem audio_branch_summary (env : CallbackEnv) (ctx : decklink_ctx)
    (cb : decklink_input_callback) (w : Int) (v : Option IDeckLinkVideoInputFrame)
    (af : IDeckLinkAudioInputPacket) (puts : List (AVPacket × Int)) :
    ∃ (p : AVPacket) (ret : Int),
      (audio_branch env ctx cb w v af puts).2.2 = puts ++ [(p, ret)] ∧
      p.stream_index = ctx.audio_st.index ∧
      (audio_branch env ctx cb w v af puts).1.dropped
        = bump 32 ctx.dropped (rejected [(p, ret)]) ∧
      (audio_branch env ctx cb w v af puts).1.frameCount = ctx.frameCount ∧
      (audio_branch env ctx cb w v af puts).2.1.no_video = cb.no_video ∧
      (audio_branch env ctx cb w v af puts).2.1.initial_video_pts = cb.initial_video_pts ∧
      SameConfig (audio_branch env ctx cb w v af puts).1 ctx := by
  unfold audio_branch
  obtain ⟨ret, _, hp, _, _, _, hd, hfc, hcfg⟩ := put_or_drop_spec env.nodeSize env.put_audio
    { av_init_packet with
      size := wrap32 (af.GetSampleFrameCount * ctx.audio_st.channels * (16 / 8))
      pts := (get_pkt_pts env.av_rescale_q v (some af) w ctx.audio_pts_source
        ctx.audio_st.time_base cb.initial_audio_pts).1
      dts := (get_pkt_pts env.av_rescale_q v (some af) w ctx.audio_pts_source
        ctx.audio_st.time_base cb.initial_audio_pts).1
      flags := Int.lor av_init_packet.flags AV_PKT_FLAG_KEY
      stream_index := ctx.audio_st.index
      data := af.GetBytes } (ctx, puts)
  exact ⟨_, ret, hp, rfl, hd, hfc, rfl, rfl, hcfg⟩

/-- What one invocation of the callback leaves behind when it returns: it
returns `S_OK`; `dropped` has been incremented once for a signal transition and
once for every rejected put; `frameCount` has been incremented once; at most
three puts were made; the configuration is untouched. -/
theorem callback_summary (env : CallbackEnv) (ctx : decklink_ctx) (cb : decklink_input_callback)
    (v : Option IDeckLinkVideoInputFrame) (a : Option IDeckLinkAudioInputPacket)
    (r : CallbackResult) (h : VideoInputFrameArrived env ctx cb v a = some r) :
    r.ret = S_OK ∧
      r.ctx.dropped = bump 32 ctx.dropped (signal_change cb v + rejected r.puts) ∧
      r.ctx.frameCount = (ctx.frameCount + 1) % 2 ^ 32 ∧
      r.cb.no_video = no_video_after cb v ∧
      r.puts.length ≤ 3 ∧ SameConfig r.ctx ctx := by
  unfold VideoInputFrameArrived at h
  simp only at h
  split at h
  · simp at h
  · rename_i ctx1 cb1 puts1 hv
    simp only [Option.some.injEq] at h
    subst h
    have hvs : ctx1.dropped = bump 32 ctx.dropped (signal_change cb v + rejected puts1) ∧
        ctx1.frameCount = (ctx.frameCount + 1) % 2 ^ 32 ∧
        cb1.no_video = no_video_after cb v ∧
        puts1.length ≤ 2 ∧ SameConfig ctx1 ctx := by
      cases v with
      | none =>
        simp only [Option.some.injEq, Prod.mk.injEq] at hv
        obtain ⟨rfl, rfl, rfl⟩ := hv
        exact ⟨by simp [signal_change, rejected, bump], rfl, rfl, by simp,
          ⟨rfl, rfl, rfl, rfl, rfl, rfl, rfl, rfl, rfl⟩⟩
      | some vf =>
        simp only at hv
        obtain ⟨hd, hfc, hnv, _, _, hlen, hcfg⟩ := video_branch_summary env _ cb _ vf a _ hv
        exact ⟨hd, hfc, hnv, hlen,
          ⟨hcfg.1, hcfg.2, hcfg.3, hcfg.4, hcfg.5, hcfg.6, hcfg.7, hcfg.8, hcfg.9⟩⟩
    obtain ⟨hd, hfc, hnv, hlen, hcfg⟩ := hvs
    cases a with
    | none =>
      exact ⟨rfl, hd, hfc, hnv, by simp only; omega, hcfg⟩
    | some af =>
      obtain ⟨p, ret, hp, _, hd2, hfc2, hnv2, _, hcfg2⟩ := audio_branch_summary env ctx1 cb1
        (if ctx.audio_pts_source = PTS_SRC_WALLCLOCK ∨ ctx.video_pts_source = PTS_SRC_WALLCLOCK
          then env.av_gettime_relative else 0) v af puts1
      refine ⟨rfl, ?_, ?_, ?_, ?_, ?_⟩
      · simp only
        rw [hd2, hd, hp, bump_bump, rejected_append]
        congr 1
        omega
      · simp only
        rw [hfc2, hfc]
      · simp only
        rw [hnv2, hnv]
      · simp only
        rw [hp]
        simp only [List.length_append, List.length_cons, List.length_nil]
        omega
      · exact ⟨hcfg2.1.trans hcfg.1, hcfg2.2.trans hcfg.2, hcfg2.3.trans hcfg.3,
          hcfg2.4.trans hcfg.4, hcfg2.5.trans hcfg.5, hcfg2.6.trans hcfg.6,
          hcfg2.7.trans hcfg.7, hcfg2.8.trans hcfg.8, hcfg2.9.trans hcfg.9⟩

theorem teletext_if_ne_none (env : CallbackEnv) (c : decklink_ctx)
    (vf : IDeckLinkVideoInputFrame) (p : AVPacket) (P : Prop) [Decidable P]
    (ha : assert_holds env c vf) :
    (if P then teletext_packet env c vf p else some none) ≠ none := by
  obtain ⟨o, ho, _⟩ := teletext_packet_total env c vf p ha
  split
  · rw [ho]; simp
  · simp

theorem video_branch_returns (env : CallbackEnv) (ctx : decklink_ctx)
    (cb : decklink_input_callback) (w : Int) (vf : IDeckLinkVideoInputFrame)
    (a : Option IDeckLinkAudioInputPacket) (ha : assert_holds env ctx vf) :
    ∃ res, video_branch env ctx cb w vf a = some res := by
  unfold video_branch
  simp only
  split
  · rename_i htxt
    refine absurd htxt (teletext_if_ne_none env _ vf _ _ ?_)
    exact fun s va h1 h2 h3 h4 => ha s va h1 h2 h3 h4
  · exact ⟨_, rfl⟩

/-- The callback returns whenever the condition asserted in the PAL branch
holds for the video frame. -/
theorem callback_returns (env : CallbackEnv) (ctx : decklink_ctx) (cb : decklink_input_callback)
    (v : Option IDeckLinkVideoInputFrame) (a : Option IDeckLinkAudioInputPacket)
    (ha : ∀ vf, v = some vf → assert_holds env ctx vf) :
    ∃ r, VideoInputFrameArrived env ctx cb v a = some r := by
  unfold VideoInputFrameArrived
  simp only
  cases v with
  | none => exact ⟨_, rfl⟩
  | some vf =>
    obtain ⟨res, hres⟩ := video_branch_returns env
      { ctx with frameCount := (ctx.frameCount + 1) % 2 ^ ULONG_BITS } cb
      (if ctx.audio_pts_source = PTS_SRC_WALLCLOCK ∨ ctx.video_pts_source = PTS_SRC_WALLCLOCK
        then env.av_gettime_relative else 0) vf a
      (fun s va h1 h2 h3 h4 => ha vf rfl s va h1 h2 h3 h4)
    simp only [hres]
    exact ⟨_, rfl⟩

/-- The packets the video branch puts, and the callback object it leaves, do
not depend on the queue or on the outcome of the puts. -/
theorem video_branch_independent (env : CallbackEnv) (ctx : decklink_ctx)
    (cb : decklink_input_callback) (w : Int) (vf : IDeckLinkVideoInputFrame)
    (a : Option IDeckLinkAudioInputPacket) (q2 : AVPacketQueue) (o1 o2 o3 : Bool × Bool)
    (n2 : Nat) (res res2 : decklink_ctx × decklink_input_callback × List (AVPacket × Int))
    (h : video_branch env ctx cb w vf a = some res)
    (h2 : video_branch { env with put_txt := o1, put_video := o2, put_audio := o3, nodeSize := n2 }
      { ctx with queue := q2 } cb w vf a = some res2) :
    res2.2.2.map Prod.fst = res.2.2.map Prod.fst ∧ res2.2.1 = res.2.1 := by
  unfold video_branch at h h2
  simp only at h h2
  split at h
  · simp at h
  · rename_i txt_pkt htxt
    split at h2
    · simp at h2
    · rename_i txt_pkt2 htxt2
      have heq : txt_pkt2 = txt_pkt := by
        have : some txt_pkt2 = some txt_pkt := by
          rw [← htxt2, ← htxt]
          rfl
        exact Option.some.inj this
      subst heq
      simp only [Option.some.injEq] at h h2
      subst h
      subst h2
      cases txt_pkt2 with
      | none => exact ⟨rfl, rfl⟩
      | some p => exact ⟨rfl, rfl⟩

theorem accepted_queue_append (nodeSize : Nat) (q : AVPacketQueue)
    (l r : List (AVPacket × Int)) :
    accepted_queue nodeSize q (l ++ r)
      = accepted_queue nodeSize (accepted_queue nodeSize q l) r := by
  simp [accepted_queue, List.foldl_append]

theorem put_or_drop_queue (nodeSize : Nat) (outcome : Bool × Bool) (pkt : AVPacket)
    (st : decklink_ctx × List (AVPacket × Int)) :
    (put_or_drop nodeSize outcome pkt st).1.queue
      = accepted_queue nodeSize st.1.queue
          [(pkt, (avpacket_queue_put nodeSize st.1.queue pkt outcome.1 outcome.2).1)] := by
  simp only [accepted_queue, List.foldl_cons, List.foldl_nil]
  by_cases h : (avpacket_queue_put nodeSize st.1.queue pkt outcome.1 outcome.2).1 < 0
  · rcases put_ret nodeSize st.1.queue pkt outcome.1 outcome.2 with h0 | ⟨_, h1⟩
    · rw [h0] at h; omega
    · rw [if_pos h]
      exact h1
  · rw [if_neg h]
    rcases put_ret nodeSize st.1.queue pkt outcome.1 outcome.2 with h0 | ⟨h1, _⟩
    · obtain ⟨_, hd, hm⟩ := put_zero nodeSize st.1.queue pkt outcome.1 outcome.2 h0
      show (avpacket_queue_put nodeSize st.1.queue pkt outcome.1 outcome.2).2 = _
      rw [hd, hm]
    · rw [h1] at h; omega

theorem video_branch_queue (env : CallbackEnv) (ctx : decklink_ctx)
    (cb : decklink_input_callback) (w : Int) (vf : IDeckLinkVideoInputFrame)
    (a : Option IDeckLinkAudioInputPacket)
    (res : decklink_ctx × decklink_input_callback × List (AVPacket × Int))
    (h : video_branch env ctx cb w vf a = some res) :
    res.1.queue = accepted_queue env.nodeSize ctx.queue res.2.2 := by
  unfold video_branch at h
  simp only at h
  split at h
  · simp at h
  · rename_i txt_pkt htxt
    simp only [Option.some.injEq] at h
    subst h
    cases txt_pkt with
    | none =>
      simp only
      rw [put_or_drop_queue]
      rfl
    | some p =>
      simp only
      rw [put_or_drop_queue, put_or_drop_queue]
      obtain ⟨ret1, hr1, hp1, _⟩ := put_or_drop_spec env.nodeSize env.put_txt p
        (({ ctx with dropped := _ } : decklink_ctx), [])
      obtain ⟨ret2, hr2, hp2, _⟩ := put_or_drop_spec env.nodeSize env.put_video _
        (put_or_drop env.nodeSize env.put_txt p (({ ctx with dropped := _ } : decklink_ctx), []))
      rw [hp2, hp1, List.nil_append, accepted_queue_append, hr2, hr1, put_or_drop_queue]

theorem audio_branch_queue (env : CallbackEnv) (ctx : decklink_ctx)
    (cb : decklink_input_callback) (w : Int) (v : Option IDeckLinkVideoInputFrame)
    (af : IDeckLinkAudioInputPacket) (puts : List (AVPacket × Int)) :
    ∃ tail, (audio_branch env ctx cb w v af puts).2.2 = puts ++ tail ∧
      (audio_branch env ctx cb w v af puts).1.queue
        = accepted_queue env.nodeSize ctx.queue tail := by
  unfold audio_branch
  exact ⟨_, rfl, put_or_drop_queue env.nodeSize env.put_audio _ (ctx, puts)⟩

/-- The queue after an invocation is the queue before it with the accepted
packets of the invocation put in order; rejected puts leave nothing. -/
theorem callback_queue (env : CallbackEnv) (ctx : decklink_ctx) (cb : decklink_input_callback)
    (v : Option IDeckLinkVideoInputFrame) (a : Option IDeckLinkAudioInputPacket)
    (r : CallbackResult) (h : VideoInputFrameArrived env ctx cb v a = some r) :
    r.ctx.queue = accepted_queue env.nodeSize ctx.queue r.puts := by
  unfold VideoInputFrameArrived at h
  simp only at h
  split at h
  · simp at h
  · rename_i ctx1 cb1 puts1 hv
    simp only [Option.some.injEq] at h
    subst h
    have hq1 : ctx1.queue = accepted_queue env.nodeSize ctx.queue puts1 := by
      cases v with
      | none =>
        simp only [Option.some.injEq, Prod.mk.injEq] at hv
        obtain ⟨rfl, rfl, rfl⟩ := hv
        rfl
      | some vf =>
        simp only at hv
        exact video_branch_queue env _ cb _ vf a _ hv
    cases a with
    | none => exact hq1
    | some af =>
      obtain ⟨tail, ht, hq⟩ := audio_branch_queue env ctx1 cb1
        (if ctx.audio_pts_source = PTS_SRC_WALLCLOCK ∨ ctx.video_pts_source = PTS_SRC_WALLCLOCK
          then env.av_gettime_relative else 0) v af puts1
      simp only
      rw [hq, ht, accepted_queue_append, hq1]

/-- The packets an invocation puts, in order, and the callback object it leaves
do not depend on the queue or on the outcome of its puts. -/
theorem callback_independent (env : CallbackEnv) (ctx : decklink_ctx)
    (cb : decklink_input_callback) (v : Option IDeckLinkVideoInputFrame)
    (a : Option IDeckLinkAudioInputPacket) (q2 : AVPacketQueue) (o1 o2 o3 : Bool × Bool)
    (n2 : Nat) (r r2 : CallbackResult)
    (h : VideoInputFrameArrived env ctx cb v a = some r)
    (h2 : VideoInputFrameArrived
      { env with put_txt := o1, put_video := o2, put_audio := o3, nodeSize := n2 }
      { ctx with queue := q2 } cb v a = some r2) :
    r2.puts.map Prod.fst = r.puts.map Prod.fst ∧ r2.cb = r.cb := by
  unfold VideoInputFrameArrived at h h2
  simp only at h h2
  split at h
  · simp at h
  · rename_i ctx1 cb1 puts1 hv
    split at h2
    · simp at h2
    · rename_i ctx2 cb2 puts2 hv2
      simp only [Option.some.injEq] at h h2
      subst h
      subst h2
      have hvs : puts2.map Prod.fst = puts1.map Prod.fst ∧ cb2 = cb1 ∧
          ctx2.audio_st = ctx1.audio_st ∧ ctx2.audio_pts_source = ctx1.audio_pts_source := by
        cases v with
        | none =>
          simp only [Option.some.injEq, Prod.mk.injEq] at hv hv2
          obtain ⟨rfl, rfl, rfl⟩ := hv
          obtain ⟨rfl, rfl, rfl⟩ := hv2
          exact ⟨rfl, rfl, rfl, rfl⟩
        | some vf =>
          simp only at hv hv2
          obtain ⟨hp, hc⟩ := video_branch_independent env _ cb _ vf a q2 o1 o2 o3 n2 _ _ hv hv2
          obtain ⟨_, _, _, _, _, _, hcfg1⟩ := video_branch_summary env _ cb _ vf a _ hv
          obtain ⟨_, _, _, _, _, _, hcfg2⟩ := video_branch_summary _ _ cb _ vf a _ hv2
          exact ⟨hp, hc, hcfg2.audio_st.trans hcfg1.audio_st.symm,
            hcfg2.audio_pts_source.trans hcfg1.audio_pts_source.symm⟩
      obtain ⟨hp, rfl, hst, hsrc⟩ := hvs
      cases a with
      | none => exact ⟨hp, rfl⟩
      | some af =>
        simp [audio_branch, put_or_drop, List.map_append, hp, hst, hsrc]

theorem accepted_queue_all_rejected (nodeSize : Nat) (q : AVPacketQueue) :
    ∀ puts : List (AVPacket × Int), (∀ p ∈ puts, p.2 < 0) → accepted_queue nodeSize q puts = q
  | [], _ => rfl
  | p :: ps, h => by
    have hp : p.2 < 0 := h p (by simp)
    simp only [accepted_queue, List.foldl_cons, if_pos hp]
    exact accepted_queue_all_rejected nodeSize q ps (fun x hx => h x (by simp [hx]))

/-! ## Capture callback: records of puts and the queue -/

theorem puts_consistent_append (nodeSize : Nat) :
    ∀ (l r : List (AVPacket × Int)) (q : AVPacketQueue),
      puts_consistent nodeSize q (l ++ r) ↔
        puts_consistent nodeSize q l ∧ puts_consistent nodeSize (accepted_queue nodeSize q l) r
  | [], r, q => by simp [puts_consistent, accepted_queue]
  | p :: l, r, q => by
    have ih := puts_consistent_append nodeSize l r (accepted_queue nodeSize q [p])
    show (_ ∧ puts_consistent nodeSize (accepted_queue nodeSize q [p]) (l ++ r)) ↔
      (_ ∧ puts_consistent nodeSize (accepted_queue nodeSize q [p]) l) ∧
        puts_consistent nodeSize (accepted_queue nodeSize (accepted_queue nodeSize q [p]) l) r
    rw [ih]
    tauto

theorem accepted_append (l r : List (AVPacket × Int)) :
    accepted (l ++ r) = accepted l ++ accepted r := by
  simp [accepted]

/-- The queue left by a consistent record of puts holds what it held before
followed by the accepted packets, in order. -/
theorem accepted_queue_shape (nodeSize : Nat) :
    ∀ (puts : List (AVPacket × Int)) (q : AVPacketQueue) (l : List (Nat × AVPacket)),
      Shape q l → puts_consistent nodeSize q puts →
      ∃ l1, Shape (accepted_queue nodeSize q puts) l1 ∧
        l1.map Prod.snd = l.map Prod.snd ++ accepted puts
  | [], q, l, hs, _ => ⟨l, hs, by simp [accepted]⟩
  | p :: ps, q, l, hs, hc => by
    obtain ⟨⟨d, m, hret⟩, hrest⟩ := hc
    by_cases hneg : p.2 < 0
    · have hq : accepted_queue nodeSize q [p] = q := by
        simp [accepted_queue, hneg]
      rw [hq] at hrest
      obtain ⟨l1, hs1, hl1⟩ := accepted_queue_shape nodeSize ps q l hs hrest
      refine ⟨l1, ?_, ?_⟩
      · rw [show accepted_queue nodeSize q (p :: ps)
          = accepted_queue nodeSize (accepted_queue nodeSize q [p]) ps from rfl, hq]
        exact hs1
      · rw [hl1]
        simp [accepted, hneg]
    · have h0 : (avpacket_queue_put nodeSize q p.1 d m).1 = 0 := by
        rcases put_ret nodeSize q p.1 d m with h | ⟨h, _⟩
        · exact h
        · rw [hret, h] at hneg; omega
      obtain ⟨hz, _, _⟩ := put_zero nodeSize q p.1 d m h0
      have hq : accepted_queue nodeSize q [p] = (avpacket_queue_put nodeSize q p.1 true true).2 := by
        simp [accepted_queue, hneg]
      rw [hq] at hrest
      obtain ⟨l1, hs1, hl1⟩ := accepted_queue_shape nodeSize ps _ _
        (shape_put nodeSize hs p.1 hz).2 hrest
      refine ⟨l1, ?_, ?_⟩
      · rw [show accepted_queue nodeSize q (p :: ps)
          = accepted_queue nodeSize (accepted_queue nodeSize q [p]) ps from rfl, hq]
        exact hs1
      · have h0p : 0 ≤ p.2 := by omega
        rw [hl1]
        simp [accepted, h0p]

theorem put_or_drop_consistent (nodeSize : Nat) (outcome : Bool × Bool) (pkt : AVPacket)
    (st : decklink_ctx × List (AVPacket × Int)) (q0 : AVPacketQueue)
    (hq : st.1.queue = accepted_queue nodeSize q0 st.2)
    (hc : puts_consistent nodeSize q0 st.2) :
    (put_or_drop nodeSize outcome pkt st).1.queue
        = accepted_queue nodeSize q0 (put_or_drop nodeSize outcome pkt st).2 ∧
      puts_consistent nodeSize q0 (put_or_drop nodeSize outcome pkt st).2 := by
  obtain ⟨ret, hret, hp, _⟩ := put_or_drop_spec nodeSize outcome pkt st
  rw [hp, accepted_queue_append, puts_consistent_append, ← hq, put_or_drop_queue, ← hret]
  exact ⟨rfl, hc, ⟨outcome.1, outcome.2, hret⟩, trivial⟩

theorem video_branch_consistent (env : CallbackEnv) (ctx : decklink_ctx)
    (cb : decklink_input_callback) (w : Int) (vf : IDeckLinkVideoInputFrame)
    (a : Option IDeckLinkAudioInputPacket)
    (res : decklink_ctx × decklink_input_callback × List (AVPacket × Int))
    (h : video_branch env ctx cb w vf a = some res) :
    puts_consistent env.nodeSize ctx.queue res.2.2 := by
  unfold video_branch at h
  simp only at h
  split at h
  · simp at h
  · rename_i txt_pkt htxt
    simp only [Option.some.injEq] at h
    subst h
    cases txt_pkt with
    | none =>
      exact (put_or_drop_consistent env.nodeSize env.put_video _
        (({ ctx with dropped := _ } : decklink_ctx), []) ctx.queue rfl trivial).2
    | some p =>
      have h1 := put_or_drop_consistent env.nodeSize env.put_txt p
        (({ ctx with dropped := _ } : decklink_ctx), []) ctx.queue rfl trivial
      exact (put_or_drop_consistent env.nodeSize env.put_video _ _ ctx.queue h1.1 h1.2).2

/-- The record of puts of an invocation is consistent with the queue it
started from. -/
theorem callback_consistent (env : CallbackEnv) (ctx : decklink_ctx)
    (cb : decklink_input_callback) (v : Option IDeckLinkVideoInputFrame)
    (a : Option IDeckLinkAudioInputPacket) (r : CallbackResult)
    (h : VideoInputFrameArrived env ctx cb v a = some r) :
    puts_consistent env.nodeSize ctx.queue r.puts := by
  unfold VideoInputFrameArrived at h
  simp only at h
  split at h
  · simp at h
  · rename_i ctx1 cb1 puts1 hv
    simp only [Option.some.injEq] at h
    subst h
    have h1 : ctx1.queue = accepted_queue env.nodeSize ctx.queue puts1 ∧
        puts_consistent env.nodeSize ctx.queue puts1 := by
      cases v with
      | none =>
        simp only [Option.some.injEq, Prod.mk.injEq] at hv
        obtain ⟨rfl, rfl, rfl⟩ := hv
        exact ⟨rfl, trivial⟩
      | some vf =>
        simp only at hv
        exact ⟨video_branch_queue env _ cb _ vf a _ hv,
          video_branch_consistent env _ cb _ vf a _ hv⟩
    cases a with
    | none => exact h1.2
    | some af =>
      simp only [audio_branch]
      exact (put_or_drop_consistent env.nodeSize env.put_audio _ (ctx1, puts1) ctx.queue
        h1.1 h1.2).2

theorem no_input_sample (t : Int) : no_input (sampleVideoFrame t) = false := by
  simp [no_input, sampleVideoFrame]

theorem no_input_noSignal (t : Int) : no_input (noSignalFrame t) = true := by
  simp [no_input, noSignalFrame, bmdFrameHasNoInputSource]

theorem sampleEnv_asserts (ctx : decklink_ctx) (vf : IDeckLinkVideoInputFrame) :
    assert_holds sampleEnv ctx vf :=
  fun _ _ hz => by simp [sampleEnv] at hz

/-- C17. An invocation of `VideoInputFrameArrived` (for which the condition
asserted in the PAL branch holds) returns `S_OK`.  It makes at most three puts;
`dropped` is incremented once for each rejected put (and once for a signal
transition); the queue afterwards is the queue before with only the accepted
packets put, so a rejected put leaves it unchanged; and the packets put, in
order, are the same whatever the queue holds and whatever the outcome of the
puts, so a rejected put is not retried and the remaining packets are still
attempted; each recorded return value is the one `avpacket_queue_put` gives on
the queue left by the puts before it. -/
theorem callback_put_rejection (env : CallbackEnv) (ctx : decklink_ctx)
    (cb : decklink_input_callback) (v : Option IDeckLinkVideoInputFrame)
    (a : Option IDeckLinkAudioInputPacket)
    (ha : ∀ vf, v = some vf → assert_holds env ctx vf) :
    ∃ r, VideoInputFrameArrived env ctx cb v a = some r ∧
      r.ret = S_OK ∧
      r.puts.length ≤ 3 ∧
      r.ctx.dropped = bump 32 ctx.dropped (signal_change cb v + rejected r.puts) ∧
      (ctx.dropped + (signal_change cb v + rejected r.puts) < 2 ^ 32 →
        r.ctx.dropped = ctx.dropped + (signal_change cb v + rejected r.puts)) ∧
      r.ctx.queue = accepted_queue env.nodeSize ctx.queue r.puts ∧
      puts_consistent env.nodeSize ctx.queue r.puts ∧
      ((∀ p ∈ r.puts, p.2 < 0) → r.ctx.queue = ctx.queue) ∧
      (∀ (q2 : AVPacketQueue) (o1 o2 o3 : Bool × Bool) (n2 : Nat) (r2 : CallbackResult),
        VideoInputFrameArrived
          { env with put_txt := o1, put_video := o2, put_audio := o3, nodeSize := n2 }
          { ctx with queue := q2 } cb v a = some r2 →
        r2.puts.map Prod.fst = r.puts.map Prod.fst) := by
  obtain ⟨r, hr⟩ := callback_returns env ctx cb v a ha
  obtain ⟨hret, hd, _, _, hlen, _⟩ := callback_summary env ctx cb v a r hr
  have hq := callback_queue env ctx cb v a r hr
  refine ⟨r, hr, hret, hlen, hd, ?_, hq, callback_consistent env ctx cb v a r hr, ?_, ?_⟩
  · intro hlt
    rw [hd, bump_exact 32 _ _ hlt]
  · intro hall
    rw [hq, accepted_queue_all_rejected env.nodeSize ctx.queue r.puts hall]
  · intro q2 o1 o2 o3 n2 r2 h2
    exact (callback_independent env ctx cb v a q2 o1 o2 o3 n2 r r2 hr h2).1

/-- Instance of C17: the node of the video packet cannot be allocated on the
sample session: the invocation returns `S_OK`, its one put returned -1,
`dropped` advanced by one and the queue is as it was. -/
theorem callback_put_rejection_witness :
    ∃ r, VideoInputFrameArrived rejectingEnv sampleCtx decklink_input_callback_new
        (some (sampleVideoFrame 1000)) none = some r ∧ r.ret = S_OK ∧
      r.puts.map Prod.snd = [-1] ∧ r.ctx.dropped = sampleCtx.dropped + 1 ∧
      r.ctx.queue = sampleCtx.queue := by
  obtain ⟨r, hr, hret, hlen, hd, _, hq, _, hall, _⟩ := callback_put_rejection rejectingEnv
    sampleCtx decklink_input_callback_new (some (sampleVideoFrame 1000)) none
    (fun vf _ slice vanc hz => by simp [rejectingEnv, sampleEnv] at hz)
  have hp : r.puts.map Prod.snd = [-1] := by
    simp only [VideoInputFrameArrived, video_branch, sampleCtx, no_input_sample,
      rejectingEnv, sampleEnv, put_or_drop, avpacket_queue_put, sampleVideoFrame,
      ne_eq, not_true_eq_false, and_false, if_false, Option.some.injEq] at hr
    rw [← hr]
    simp [avpacket_queue_size, avpacket_queue_init]
  have hrej : ∀ p ∈ r.puts, p.2 < 0 := by
    intro p hp1
    have : p.2 ∈ r.puts.map Prod.snd := List.mem_map_of_mem _ hp1
    rw [hp] at this
    simp only [List.mem_singleton] at this
    omega
  have hcount : rejected r.puts = 1 := by
    have h1 : rejected r.puts = (r.puts.map Prod.snd).length := by
      rw [List.length_map]
      simp only [rejected]
      rw [List.filter_eq_self.2 (fun p hp1 => by simpa using hrej p hp1)]
    rw [h1, hp]
    rfl
  refine ⟨r, hr, hret, hp, ?_, hall hrej⟩
  rw [hd, hcount]
  simp [signal_change, no_input_sample, decklink_input_callback_new, bump, sampleCtx]

/-! ## Capture callback: video-only sessions -/

theorem put_accepted (nodeSize : Nat) (q : AVPacketQueue) (pkt : AVPacket)
    (hs : q.size ≤ 1024 * 1024 * 1024) :
    (avpacket_queue_put nodeSize q pkt true true).1 = 0 := by
  have hs1 : ¬ avpacket_queue_size q > 1024 * 1024 * 1024 := by
    simp only [avpacket_queue_size]; omega
  simp [avpacket_queue_put, hs1]

/-- One invocation with a video frame only, teletext disabled, on a queue under
its ceiling, duplication and allocation succeeding. -/
theorem video_only_call (env : CallbackEnv) (ctx : decklink_ctx) (cb : decklink_input_callback)
    (vf : IDeckLinkVideoInputFrame) (htt : ctx.teletext_lines = 0)
    (hput : env.put_video = (true, true)) (hsz : ctx.queue.size ≤ 1024 * 1024 * 1024) :
    VideoInputFrameArrived env ctx cb (some vf) none = some
      { ret := S_OK
        ctx := { ctx with
          frameCount := (ctx.frameCount + 1) % 2 ^ 32
          dropped := bump 32 ctx.dropped (signal_change cb (some vf))
          queue := (avpacket_queue_put env.nodeSize ctx.queue
            (video_packet ctx vf (get_pkt_pts env.av_rescale_q (some vf) none
              (callback_wallclock env ctx) ctx.video_pts_source ctx.video_st.time_base
              cb.initial_video_pts).1) true true).2 }
        cb := { cb with
          no_video := no_video_after cb (some vf)
          initial_video_pts := (get_pkt_pts env.av_rescale_q (some vf) none
            (callback_wallclock env ctx) ctx.video_pts_source ctx.video_st.time_base
            cb.initial_video_pts).2 }
        puts := [(video_packet ctx vf (get_pkt_pts env.av_rescale_q (some vf) none
            (callback_wallclock env ctx) ctx.video_pts_source ctx.video_st.time_base
            cb.initial_video_pts).1, 0)] } := by
  have h0 := put_accepted env.nodeSize ctx.queue
    (video_packet ctx vf (get_pkt_pts env.av_rescale_q (some vf) none
      (callback_wallclock env ctx) ctx.video_pts_source ctx.video_st.time_base
      cb.initial_video_pts).1) hsz
  have hd := signal_drop cb vf ctx.dropped
  simp only [video_packet, callback_wallclock] at h0
  simp only [VideoInputFrameArrived, video_branch, htt, ne_eq, not_true_eq_false, and_false,
    if_false, put_or_drop, hput, h0, video_packet, callback_wallclock, ULONG_BITS,
    List.nil_append, hd, no_video_after, no_input, lt_self_iff_false, decide_eq_true_eq]
theorem video_packets_config (a b : decklink_ctx) (h : SameConfig a b) :
    ∀ (cs : List (CallbackEnv × IDeckLinkVideoInputFrame)) (s : Int),
      video_packets a s cs = video_packets b s cs
  | [], _ => rfl
  | c :: cs, s => by
    simp only [video_packets, video_packet, callback_wallclock, h.video_st, h.video_pts_source,
      h.audio_pts_source, h.draw_bars]
    rw [video_packets_config a b h cs]

theorem frames_footprint_cons (n : Nat) (c : CallbackEnv × IDeckLinkVideoInputFrame)
    (cs : List (CallbackEnv × IDeckLinkVideoInputFrame)) :
    frames_footprint n (c :: cs)
      = wrap32 (c.2.GetRowBytes * c.2.GetHeight) + (n : Int) + frames_footprint n cs := by
  simp [frames_footprint]

theorem frames_footprint_nonneg (n : Nat) :
    ∀ cs : List (CallbackEnv × IDeckLinkVideoInputFrame),
      (∀ c ∈ cs, 0 ≤ wrap32 (c.2.GetRowBytes * c.2.GetHeight)) → 0 ≤ frames_footprint n cs
  | [], _ => by simp [frames_footprint]
  | c :: cs, h => by
    have ih := frames_footprint_nonneg n cs (fun x hx => h x (by simp [hx]))
    have hc := h c (by simp)
    rw [frames_footprint_cons]
    omega

/-- A run of invocations with video frames only, teletext disabled, on a
well-formed queue whose byte count is exact, duplication and allocation
succeeding and the footprint of the frames fitting under the ceiling: every put
returns 0 and the queue holds what it held followed by the video packets. -/
theorem video_only_run (n : Nat) :
    ∀ (calls : List (CallbackEnv × IDeckLinkVideoInputFrame)) (ctx : decklink_ctx)
      (cb : decklink_input_callback) (l : List (Nat × AVPacket)),
      ctx.teletext_lines = 0 →
      (∀ c ∈ calls, c.1.nodeSize = n ∧ c.1.put_video = (true, true) ∧
        0 ≤ wrap32 (c.2.GetRowBytes * c.2.GetHeight)) →
      Shape ctx.queue l → (ctx.queue.size : Int) = footprint n (l.map Prod.snd) →
      footprint n (l.map Prod.snd) + frames_footprint n calls ≤ 2 ^ 30 →
      ∃ ctx1 cb1 puts l1, run_callbacks ctx cb (video_calls calls) = some (ctx1, cb1, puts) ∧
        Shape ctx1.queue l1 ∧
        l1.map Prod.snd = l.map Prod.snd ++ video_packets ctx cb.initial_video_pts calls ∧
        puts.map Prod.fst = video_packets ctx cb.initial_video_pts calls ∧
        (∀ p ∈ puts, p.2 = 0)
  | [], ctx, cb, l, _, _, hs, _, _ =>
    ⟨ctx, cb, [], l, rfl, hs, by simp [video_packets], rfl, by simp⟩
  | c :: cs, ctx, cb, l, htt, hc, hs, hz, hf => by
    obtain ⟨hn, hput, hsize⟩ := hc c (by simp)
    have hrest := frames_footprint_nonneg n cs (fun x hx => (hc x (by simp [hx])).2.2)
    rw [frames_footprint_cons] at hf
    have hq : ctx.queue.size ≤ 1024 * 1024 * 1024 := by
      have : (ctx.queue.size : Int) ≤ 2 ^ 30 := by omega
      omega
    have hcall := video_only_call c.1 ctx cb c.2 htt hput hq
    have hpk : video_packets ctx cb.initial_video_pts (c :: cs)
        = video_packet ctx c.2 (get_pkt_pts c.1.av_rescale_q (some c.2) none
            (callback_wallclock c.1 ctx) ctx.video_pts_source ctx.video_st.time_base
            cb.initial_video_pts).1 ::
          video_packets ctx (get_pkt_pts c.1.av_rescale_q (some c.2) none
            (callback_wallclock c.1 ctx) ctx.video_pts_source ctx.video_st.time_base
            cb.initial_video_pts).2 cs := rfl
    rw [hpk]
    generalize get_pkt_pts c.1.av_rescale_q (some c.2) none (callback_wallclock c.1 ctx)
      ctx.video_pts_source ctx.video_st.time_base cb.initial_video_pts = g at hcall ⊢
    have hvs : (video_packet ctx c.2 g.1).size = wrap32 (c.2.GetRowBytes * c.2.GetHeight) := rfl
    obtain ⟨_, hshape⟩ := shape_put c.1.nodeSize hs (video_packet ctx c.2 g.1) hq
    obtain ⟨_, hsz⟩ := put_fields c.1.nodeSize ctx.queue (video_packet ctx c.2 g.1) hq
    obtain ⟨ctx2, hctx2⟩ : ∃ x : decklink_ctx, x = { ctx with
        frameCount := (ctx.frameCount + 1) % 2 ^ 32
        dropped := bump 32 ctx.dropped (signal_change cb (some c.2))
        queue := (avpacket_queue_put c.1.nodeSize ctx.queue (video_packet ctx c.2 g.1)
          true true).2 } := ⟨_, rfl⟩
    rw [← hctx2] at hcall
    have hcfg : SameConfig ctx2 ctx := by
      rw [hctx2]; exact ⟨rfl, rfl, rfl, rfl, rfl, rfl, rfl, rfl, rfl⟩
    have hq2 : ctx2.queue = (avpacket_queue_put c.1.nodeSize ctx.queue (video_packet ctx c.2 g.1)
        true true).2 := by rw [hctx2]
    obtain ⟨ctx1, cb1, puts, l1, hrun, hs1, hl1, hp1, hok⟩ := video_only_run n cs ctx2
      { cb with no_video := no_video_after cb (some c.2), initial_video_pts := g.2 }
      (l ++ [(ctx.queue.brk, video_packet ctx c.2 g.1)])
      (hcfg.teletext_lines.trans htt) (fun x hx => hc x (by simp [hx]))
      (by rw [hq2]; exact hshape)
      (by
        rw [hq2, hsz]
        simp only [List.map_append, List.map_cons, List.map_nil, footprint_append,
          footprint_cons, footprint_nil, hn, hvs]
        generalize footprint n (l.map Prod.snd) = f at hz hf ⊢
        omega)
      (by
        simp only [List.map_append, List.map_cons, List.map_nil, footprint_append,
          footprint_cons, footprint_nil, hvs]
        omega)
    simp only [video_packets_config ctx2 ctx hcfg] at hl1 hp1
    refine ⟨ctx1, cb1, (video_packet ctx c.2 g.1, 0) :: puts, l1, ?_, hs1, ?_, ?_, ?_⟩
    · simp only [video_calls, List.map_cons, run_callbacks, hcall]
      simp only [video_calls] at hrun
      rw [hrun]
      rfl
    · rw [hl1]
      simp
    · simp only [List.map_cons, hp1]
    · intro p hp
      rcases List.mem_cons.1 hp with rfl | hp
      · rfl
      · exact hok p hp
/-! ## Capture callback: the counters over a run -/

theorem no_video_after_flag (cb : decklink_input_callback) (vf : IDeckLinkVideoInputFrame) :
    decide (no_video_after cb (some vf) ≠ 0) = no_input vf := by
  simp only [no_video_after]
  by_cases h : no_input vf = true
  · simp [h]
  · simp only [Bool.not_eq_true] at h
    simp [h]

theorem transitions_call (cb cb1 : decklink_input_callback)
    (c : CallbackEnv × Option IDeckLinkVideoInputFrame × Option IDeckLinkAudioInputPacket)
    (cs : List (CallbackEnv × Option IDeckLinkVideoInputFrame × Option IDeckLinkAudioInputPacket))
    (h : cb1.no_video = no_video_after cb c.2.1) :
    transitions (decide (cb.no_video ≠ 0)) (signal_flags (c :: cs))
      = signal_change cb c.2.1 + transitions (decide (cb1.no_video ≠ 0)) (signal_flags cs) := by
  obtain ⟨env, v, a⟩ := c
  cases v with
  | none =>
    simp only [no_video_after] at h
    simp [signal_flags, signal_change, h]
  | some vf =>
    have hf := no_video_after_flag cb vf
    simp only at h
    rw [← h] at hf
    simp only [signal_flags, List.filterMap_cons, Option.map_some', transitions, signal_change, hf]

/-- Over a run of invocations that return, `dropped` advances by the number of
signal transitions plus the number of rejected puts, `frameCount` by the number
of invocations, and the configuration is kept. -/
theorem run_summary :
    ∀ (calls : List (CallbackEnv × Option IDeckLinkVideoInputFrame ×
        Option IDeckLinkAudioInputPacket)) (ctx : decklink_ctx) (cb : decklink_input_callback)
      (ctx1 : decklink_ctx) (cb1 : decklink_input_callback) (puts : List (AVPacket × Int)),
      run_callbacks ctx cb calls = some (ctx1, cb1, puts) →
      ctx1.dropped = bump 32 ctx.dropped
          (transitions (decide (cb.no_video ≠ 0)) (signal_flags calls) + rejected puts) ∧
        ctx1.frameCount = bump 32 ctx.frameCount calls.length ∧
        puts.length ≤ 3 * calls.length ∧ SameConfig ctx1 ctx
  | [], ctx, cb, ctx1, cb1, puts, h => by
    simp only [run_callbacks, Option.some.injEq, Prod.mk.injEq] at h
    obtain ⟨rfl, rfl, rfl⟩ := h
    exact ⟨by simp [signal_flags, transitions, rejected, bump], by simp [bump], by simp,
      ⟨rfl, rfl, rfl, rfl, rfl, rfl, rfl, rfl, rfl⟩⟩
  | c :: cs, ctx, cb, ctx1, cb1, puts, h => by
    simp only [run_callbacks] at h
    split at h
    · simp at h
    · rename_i r hr
      split at h
      · simp at h
      · rename_i ctx2 cb2 puts2 hrun
        simp only [Option.some.injEq, Prod.mk.injEq] at h
        obtain ⟨rfl, rfl, rfl⟩ := h
        obtain ⟨_, hd, hfc, hnv, hlen, hcfg⟩ := callback_summary c.1 ctx cb c.2.1 c.2.2 r hr
        obtain ⟨hd2, hfc2, hlen2, hcfg2⟩ := run_summary cs r.ctx r.cb ctx2 cb2 puts2 hrun
        refine ⟨?_, ?_, ?_, ?_⟩
        · rw [hd2, hd, bump_bump, transitions_call cb r.cb c cs hnv, rejected_append]
          congr 1
          omega
        · have h1 : (ctx.frameCount + 1) % 2 ^ 32 = bump 32 ctx.frameCount 1 := by simp [bump]
          rw [hfc2, hfc, h1, bump_bump]
          simp only [List.length_cons]
          congr 1
          omega
        · simp only [List.length_append, List.length_cons]
          omega
        · exact ⟨hcfg2.1.trans hcfg.1, hcfg2.2.trans hcfg.2, hcfg2.3.trans hcfg.3,
            hcfg2.4.trans hcfg.4, hcfg2.5.trans hcfg.5, hcfg2.6.trans hcfg.6,
            hcfg2.7.trans hcfg.7, hcfg2.8.trans hcfg.8, hcfg2.9.trans hcfg.9⟩
theorem assert_holds_config (env : CallbackEnv) (a b : decklink_ctx)
    (v : IDeckLinkVideoInputFrame) (h : a.bmd_mode = b.bmd_mode) (hb : assert_holds env b v) :
    assert_holds env a v :=
  fun s va h1 h2 h3 h4 => hb s va h1 h2 (h ▸ h3) h4

/-- A run of invocations returns whenever the condition asserted in the PAL
branch holds for every video frame. -/
theorem run_returns :
    ∀ (calls : List (CallbackEnv × Option IDeckLinkVideoInputFrame ×
        Option IDeckLinkAudioInputPacket)) (ctx : decklink_ctx) (cb : decklink_input_callback),
      (∀ c ∈ calls, ∀ vf, c.2.1 = some vf → assert_holds c.1 ctx vf) →
      ∃ res, run_callbacks ctx cb calls = some res
  | [], ctx, cb, _ => ⟨_, rfl⟩
  | c :: cs, ctx, cb, ha => by
    obtain ⟨r, hr⟩ := callback_returns c.1 ctx cb c.2.1 c.2.2 (ha c (by simp))
    obtain ⟨_, _, _, _, _, hcfg⟩ := callback_summary c.1 ctx cb c.2.1 c.2.2 r hr
    obtain ⟨res, hres⟩ := run_returns cs r.ctx r.cb
      (fun x hx vf hv => assert_holds_config x.1 r.ctx ctx vf hcfg.bmd_mode
        (ha x (by simp [hx]) vf hv))
    exact ⟨(res.1, res.2.1, r.puts ++ res.2.2), by simp only [run_callbacks, hr, hres]⟩

/-- C18. For a sequence of invocations on one callback object whose member
`no_video` is 0 before the first (as the constructor leaves it), with the
condition asserted in the PAL branch holding for every video frame: the run
returns, and when every put of the run returned 0 the counter `dropped` has
advanced (as an `unsigned` of 32 bits) by the number of video frames whose
no-input flag differs from that of the video frame before, the state before the
first counting as signal present; without wrap-around that is the exact sum.
An invocation whose video frame carries the same flag value as the one before,
all its puts returning 0, leaves `dropped` as it was. -/
theorem dropped_counts_signal_transitions
    (calls : List (CallbackEnv × Option IDeckLinkVideoInputFrame ×
      Option IDeckLinkAudioInputPacket)) (ctx : decklink_ctx) (cb : decklink_input_callback)
    (h0 : cb.no_video = 0)
    (ha : ∀ c ∈ calls, ∀ vf, c.2.1 = some vf → assert_holds c.1 ctx vf) :
    ∃ ctx1 cb1 puts, run_callbacks ctx cb calls = some (ctx1, cb1, puts) ∧
      ((∀ p ∈ puts, p.2 = 0) →
        ctx1.dropped = bump 32 ctx.dropped (transitions false (signal_flags calls)) ∧
        (ctx.dropped + transitions false (signal_flags calls) < 2 ^ 32 →
          ctx1.dropped = ctx.dropped + transitions false (signal_flags calls))) ∧
      (∀ (env : CallbackEnv) (ctx2 : decklink_ctx) (cb2 : decklink_input_callback)
        (vf : IDeckLinkVideoInputFrame) (a : Option IDeckLinkAudioInputPacket)
        (r : CallbackResult),
        VideoInputFrameArrived env ctx2 cb2 (some vf) a = some r →
        no_input vf = decide (cb2.no_video ≠ 0) → (∀ p ∈ r.puts, p.2 = 0) →
        r.ctx.dropped = ctx2.dropped) := by
  obtain ⟨⟨ctx1, cb1, puts⟩, hrun⟩ := run_returns calls ctx cb ha
  obtain ⟨hd, _⟩ := run_summary calls ctx cb ctx1 cb1 puts hrun
  have hprev : decide (cb.no_video ≠ 0) = false := by simp [h0]
  rw [hprev] at hd
  refine ⟨ctx1, cb1, puts, hrun, ?_, ?_⟩
  · intro hok
    rw [rejected_eq_zero puts hok, Nat.add_zero] at hd
    exact ⟨hd, fun hlt => by rw [hd, bump_exact 32 _ _ hlt]⟩
  · intro env ctx2 cb2 vf a r hr hsame hok
    obtain ⟨_, hd2, _⟩ := callback_summary env ctx2 cb2 (some vf) a r hr
    rw [hd2, rejected_eq_zero r.puts hok]
    simp [signal_change, hsame, bump]

/-- Instance of C18: signal, no signal, no signal, signal on the sample session:
every put returns 0 and `dropped` ends at 2. -/
theorem dropped_counts_signal_transitions_witness :
    ∃ ctx1 cb1 puts, run_callbacks sampleCtx decklink_input_callback_new
        (video_calls [(sampleEnv, sampleVideoFrame 0), (sampleEnv, noSignalFrame 40),
          (sampleEnv, noSignalFrame 80), (sampleEnv, sampleVideoFrame 120)])
        = some (ctx1, cb1, puts) ∧
      (∀ p ∈ puts, p.2 = 0) ∧ ctx1.dropped = 2 := by
  have hmem : ∀ c ∈ video_calls [(sampleEnv, sampleVideoFrame 0), (sampleEnv, noSignalFrame 40),
      (sampleEnv, noSignalFrame 80), (sampleEnv, sampleVideoFrame 120)], c.1 = sampleEnv := by
    simp [video_calls]
  obtain ⟨ctx1, cb1, puts, hrun, hd, _⟩ := dropped_counts_signal_transitions
    (video_calls [(sampleEnv, sampleVideoFrame 0), (sampleEnv, noSignalFrame 40),
      (sampleEnv, noSignalFrame 80), (sampleEnv, sampleVideoFrame 120)])
    sampleCtx decklink_input_callback_new rfl
    (fun c hc vf _ => by rw [hmem c hc]; exact sampleEnv_asserts sampleCtx vf)
  obtain ⟨ctx2, cb2, puts2, l2, hrun2, _, _, _, hok⟩ := video_only_run 96
    [(sampleEnv, sampleVideoFrame 0), (sampleEnv, noSignalFrame 40),
      (sampleEnv, noSignalFrame 80), (sampleEnv, sampleVideoFrame 120)]
    sampleCtx decklink_input_callback_new [] rfl
    (by simp [sampleEnv, sampleVideoFrame, noSignalFrame, wrap32])
    shape_init (by simp [sampleCtx, avpacket_queue_init, footprint])
    (by simp [frames_footprint, footprint, sampleVideoFrame, noSignalFrame, wrap32])
  rw [hrun] at hrun2
  simp only [Option.some.injEq, Prod.mk.injEq] at hrun2
  obtain ⟨rfl, rfl, rfl⟩ := hrun2
  refine ⟨ctx1, cb1, puts, hrun, hok, ?_⟩
  rw [(hd hok).1]
  simp [signal_flags, video_calls, no_input_sample, no_input_noSignal, transitions, bump,
    sampleCtx]
/-! ## Capture callback: time stamps of a video-only session -/

theorem get_pkt_pts_video_unset (f : Int → AVRational → AVRational → Int) (ctx : decklink_ctx)
    (vf : IDeckLinkVideoInputFrame) (w : Int)
    (hsrc : ctx.video_pts_source = PTS_SRC_VIDEO) (hnum : ctx.video_st.time_base.num = 1)
    (hok : (vf.GetStreamTime ctx.video_st.time_base.den).1 = S_OK)
    (h1 : -2 ^ 63 < stream_time ctx vf) (h2 : stream_time ctx vf < 2 ^ 63) :
    get_pkt_pts f (some vf) none w ctx.video_pts_source ctx.video_st.time_base AV_NOPTS_VALUE
      = (0, stream_time ctx vf) := by
  have hraw : raw_pts f PTS_SRC_VIDEO ctx.video_st.time_base (some vf, none, w)
      = stream_time ctx vf := by
    simp only [raw_pts, device_time, pts_switch, div64, hnum, Int.tdiv_one, stream_time]
    exact wrap64_of_range _ (by simp only [stream_time] at h1; omega) h2
  rw [hsrc]
  have h := get_pkt_pts_unset f PTS_SRC_VIDEO ctx.video_st.time_base (some vf, none, w)
    (by simpa [pts_switch] using hok)
    (by rw [hraw]; simp only [AV_NOPTS_VALUE]; omega)
  rw [hraw] at h
  exact h

theorem get_pkt_pts_video_set (f : Int → AVRational → AVRational → Int) (ctx : decklink_ctx)
    (vf : IDeckLinkVideoInputFrame) (w : Int) (s : Int)
    (hsrc : ctx.video_pts_source = PTS_SRC_VIDEO) (hnum : ctx.video_st.time_base.num = 1)
    (hok : (vf.GetStreamTime ctx.video_st.time_base.den).1 = S_OK)
    (hs : s ≠ AV_NOPTS_VALUE)
    (h1 : -2 ^ 63 ≤ stream_time ctx vf) (h2 : stream_time ctx vf < 2 ^ 63)
    (h3 : -2 ^ 63 ≤ stream_time ctx vf - s) (h4 : stream_time ctx vf - s < 2 ^ 63) :
    get_pkt_pts f (some vf) none w ctx.video_pts_source ctx.video_st.time_base s
      = (stream_time ctx vf - s, s) := by
  have hraw : raw_pts f PTS_SRC_VIDEO ctx.video_st.time_base (some vf, none, w)
      = stream_time ctx vf := by
    simp only [raw_pts, device_time, pts_switch, div64, hnum, Int.tdiv_one, stream_time]
    exact wrap64_of_range _ (by simp only [stream_time] at h1; omega) h2
  rw [hsrc]
  have h := get_pkt_pts_set f PTS_SRC_VIDEO ctx.video_st.time_base (some vf, none, w) s hs
    (by simpa [pts_switch] using hok)
  rw [hraw, wrap64_of_range _ h3 h4] at h
  exact h

theorem video_packets_set (ctx : decklink_ctx) (s : Int)
    (hsrc : ctx.video_pts_source = PTS_SRC_VIDEO) (hnum : ctx.video_st.time_base.num = 1)
    (hs : s ≠ AV_NOPTS_VALUE) :
    ∀ cs : List (CallbackEnv × IDeckLinkVideoInputFrame),
      (∀ c ∈ cs, (c.2.GetStreamTime ctx.video_st.time_base.den).1 = S_OK ∧
        -2 ^ 63 ≤ stream_time ctx c.2 ∧ stream_time ctx c.2 < 2 ^ 63 ∧
        -2 ^ 63 ≤ stream_time ctx c.2 - s ∧ stream_time ctx c.2 - s < 2 ^ 63) →
      video_packets ctx s cs = cs.map (fun c => video_packet ctx c.2 (stream_time ctx c.2 - s))
  | [], _ => rfl
  | c :: cs, h => by
    obtain ⟨hok, h1, h2, h3, h4⟩ := h c (by simp)
    simp only [video_packets, List.map_cons]
    rw [get_pkt_pts_video_set c.1.av_rescale_q ctx c.2 _ s hsrc hnum hok hs h1 h2 h3 h4]
    simp only
    rw [video_packets_set ctx s hsrc hnum hs cs (fun x hx => h x (by simp [hx]))]

/-- The video packets of a session on the video stream clock with time base
numerator 1 and an unset zero point: the k-th carries `t_k - t_0`. -/
theorem video_packets_unset (ctx : decklink_ctx)
    (hsrc : ctx.video_pts_source = PTS_SRC_VIDEO) (hnum : ctx.video_st.time_base.num = 1)
    (c0 : CallbackEnv × IDeckLinkVideoInputFrame)
    (cs : List (CallbackEnv × IDeckLinkVideoInputFrame))
    (hok : ∀ c ∈ c0 :: cs, (c.2.GetStreamTime ctx.video_st.time_base.den).1 = S_OK)
    (h0 : -2 ^ 63 < stream_time ctx c0.2)
    (hinc : ∀ c ∈ cs, stream_time ctx c0.2 < stream_time ctx c.2)
    (hfit : ∀ c ∈ c0 :: cs, stream_time ctx c.2 < 2 ^ 63 ∧
      stream_time ctx c.2 - stream_time ctx c0.2 < 2 ^ 63) :
    video_packets ctx AV_NOPTS_VALUE (c0 :: cs)
      = (c0 :: cs).map (fun c =>
          video_packet ctx c.2 (stream_time ctx c.2 - stream_time ctx c0.2)) := by
  simp only [video_packets, List.map_cons]
  rw [get_pkt_pts_video_unset c0.1.av_rescale_q ctx c0.2 _ hsrc hnum (hok c0 (by simp)) h0
    (hfit c0 (by simp)).1]
  simp only [sub_self]
  rw [video_packets_set ctx (stream_time ctx c0.2) hsrc hnum
    (by simp only [AV_NOPTS_VALUE]; omega) cs
    (fun c hc => by
      have hi := hinc c hc
      have hf := hfit c (by simp [hc])
      exact ⟨hok c (by simp [hc]), by omega, hf.1, by omega, hf.2⟩)]
theorem signal_flags_video_calls (calls : List (CallbackEnv × IDeckLinkVideoInputFrame)) :
    signal_flags (video_calls calls) = calls.map (fun c => no_input c.2) := by
  induction calls with
  | nil => rfl
  | cons c cs ih =>
    simp only [signal_flags, video_calls, List.map_cons, List.filterMap_cons,
      Option.map_some'] at ih ⊢
    rw [ih]

theorem transitions_const (b : Bool) : ∀ l : List Bool, (∀ x ∈ l, x = b) → transitions b l = 0
  | [], _ => rfl
  | x :: l, h => by
    have hx : x = b := h x (by simp)
    subst hx
    simp only [transitions, if_true, Nat.zero_add]
    exact transitions_const x l (fun y hy => h y (by simp [hy]))

theorem transitions_enter : ∀ l : List Bool, l ≠ [] → (∀ x ∈ l, x = true) →
    transitions false l = 1
  | [], h, _ => absurd rfl h
  | x :: l, _, h => by
    have hx : x = true := h x (by simp)
    subst hx
    simp only [transitions, Bool.true_eq_false, if_false]
    rw [transitions_const true l (fun y hy => h y (by simp [hy]))]

theorem video_packets_length (ctx : decklink_ctx) :
    ∀ (cs : List (CallbackEnv × IDeckLinkVideoInputFrame)) (s : Int),
      (video_packets ctx s cs).length = cs.length
  | [], _ => rfl
  | c :: cs, s => by
    simp only [video_packets, List.length_cons]
    rw [video_packets_length ctx cs]

/-- C15 (as stated, refuted). On the sample session (teletext disabled, video
stream clock, time base 1/25, empty queue, fresh callback object) 25 video
frames with the strictly increasing device time stamps 0, 40, ..., 960, each
carrying the flag `bmdFrameHasNoInputSource`, are all accepted by the queue,
which then holds 25 packets, yet `dropped` has advanced by one. -/
theorem video_only_session_no_signal :
    ∃ ctx1 cb1 puts, run_callbacks sampleCtx decklink_input_callback_new
        (video_calls ((List.range 25).map (fun k : Nat => (sampleEnv, noSignalFrame (40 * (k : Int))))))
        = some (ctx1, cb1, puts) ∧
      (∀ p ∈ puts, p.2 = 0) ∧ (queued ctx1.queue).length = 25 ∧
      ctx1.dropped = sampleCtx.dropped + 1 := by
  obtain ⟨ctx1, cb1, puts, l1, hrun, hs1, hl1, _, hok⟩ := video_only_run 96
    ((List.range 25).map (fun k : Nat => (sampleEnv, noSignalFrame (40 * (k : Int)))))
    sampleCtx decklink_input_callback_new [] rfl
    (by
      intro c hc
      obtain ⟨k, _, rfl⟩ := List.mem_map.1 hc
      simp [sampleEnv, sampleVideoFrame, noSignalFrame, wrap32])
    shape_init (by simp [sampleCtx, avpacket_queue_init, footprint])
    (by
      simp only [frames_footprint, List.map_map, footprint, List.map_nil, List.sum_nil]
      have : ((fun c : CallbackEnv × IDeckLinkVideoInputFrame =>
          wrap32 (c.2.GetRowBytes * c.2.GetHeight) + ((96 : Nat) : Int)) ∘
          fun k : Nat => (sampleEnv, noSignalFrame (40 * (k : Int)))) = fun _ => (96 : Int) := by
        funext k
        simp [noSignalFrame, sampleVideoFrame, wrap32]
      rw [this]
      simp)
  obtain ⟨hd, _⟩ := run_summary _ sampleCtx decklink_input_callback_new ctx1 cb1 puts hrun
  refine ⟨ctx1, cb1, puts, hrun, hok, ?_, ?_⟩
  · rw [shape_queued hs1, hl1, List.map_nil, List.nil_append, video_packets_length,
      List.length_map, List.length_range]
  · rw [hd, rejected_eq_zero puts hok, signal_flags_video_calls]
    simp only [List.map_map, Function.comp_def]
    have hprev : decide (decklink_input_callback_new.no_video ≠ 0) = false := by
      simp [decklink_input_callback_new]
    rw [hprev, transitions_enter _ (by simp) (by
      intro x hx
      obtain ⟨k, _, hk⟩ := List.mem_map.1 hx
      rw [← hk, no_input_noSignal])]
    simp [bump, sampleCtx]
/-- C15 (amended). For a video-only session (no audio packets, teletext
disabled, video PTS policy on the video stream clock, time base numerator 1)
whose queue is empty and well formed, on a fresh callback object (`no_video`
0, zero point unset), with duplication and allocation succeeding, the frame
sizes non-negative and their footprint under the ceiling, every frame carrying
input signal, `GetStreamTime` succeeding with strictly increasing time stamps
`t_0 < t_1 < ...` that are not `AV_NOPTS_VALUE` and whose distance from `t_0`
fits `int64_t`: the run returns, the queue holds exactly one packet per
invocation in arrival order (the frame buffers in order), each with the video
stream index and `dts = pts`, the k-th with `pts = t_k - t_0`, so the PTS
sequence starts at 0 and is strictly increasing; `frameCount` has advanced by
the number of invocations and `dropped` is unchanged. -/
theorem video_only_session (n : Nat) (ctx : decklink_ctx) (cb : decklink_input_callback)
    (c0 : CallbackEnv × IDeckLinkVideoInputFrame)
    (cs : List (CallbackEnv × IDeckLinkVideoInputFrame))
    (htt : ctx.teletext_lines = 0) (hsrc : ctx.video_pts_source = PTS_SRC_VIDEO)
    (hnum : ctx.video_st.time_base.num = 1)
    (hq : Shape ctx.queue []) (hsz : ctx.queue.size = 0)
    (hnv : cb.no_video = 0) (hini : cb.initial_video_pts = AV_NOPTS_VALUE)
    (henv : ∀ c ∈ c0 :: cs, c.1.nodeSize = n ∧ c.1.put_video = (true, true) ∧
      0 ≤ wrap32 (c.2.GetRowBytes * c.2.GetHeight))
    (hfoot : frames_footprint n (c0 :: cs) ≤ 2 ^ 30)
    (hsig : ∀ c ∈ c0 :: cs, no_input c.2 = false)
    (hok : ∀ c ∈ c0 :: cs, (c.2.GetStreamTime ctx.video_st.time_base.den).1 = S_OK)
    (hinc : List.Pairwise (fun a b => a < b) ((c0 :: cs).map (fun c => stream_time ctx c.2)))
    (h0 : -2 ^ 63 < stream_time ctx c0.2)
    (hfit : ∀ c ∈ c0 :: cs, stream_time ctx c.2 < 2 ^ 63 ∧
      stream_time ctx c.2 - stream_time ctx c0.2 < 2 ^ 63) :
    ∃ ctx1 cb1 puts, run_callbacks ctx cb (video_calls (c0 :: cs)) = some (ctx1, cb1, puts) ∧
      queued ctx1.queue = (c0 :: cs).map (fun c =>
        video_packet ctx c.2 (stream_time ctx c.2 - stream_time ctx c0.2)) ∧
      (queued ctx1.queue).length = cs.length + 1 ∧
      (∀ p ∈ queued ctx1.queue, p.stream_index = ctx.video_st.index ∧ p.dts = p.pts) ∧
      (queued ctx1.queue).map (fun p => p.pts)
        = (c0 :: cs).map (fun c => stream_time ctx c.2 - stream_time ctx c0.2) ∧
      (queued ctx1.queue).map (fun p => p.data) = (c0 :: cs).map (fun c => c.2.GetBytes) ∧
      ((queued ctx1.queue).map (fun p => p.pts)).head? = some 0 ∧
      List.Pairwise (fun a b => a < b) ((queued ctx1.queue).map (fun p => p.pts)) ∧
      ctx1.frameCount = (ctx.frameCount + (cs.length + 1)) % 2 ^ 32 ∧
      ctx1.dropped = ctx.dropped := by
  have hinc0 : ∀ c ∈ cs, stream_time ctx c0.2 < stream_time ctx c.2 := by
    intro c hc
    simp only [List.map_cons, List.pairwise_cons, List.mem_map, forall_exists_index,
      and_imp, forall_apply_eq_imp_iff₂] at hinc
    exact hinc.1 c hc
  obtain ⟨ctx1, cb1, puts, l1, hrun, hs1, hl1, _, hacc⟩ := video_only_run n (c0 :: cs) ctx cb []
    htt henv hq (by rw [hsz]; simp [footprint])
    (by simpa [footprint] using hfoot)
  rw [hini, video_packets_unset ctx hsrc hnum c0 cs hok h0 hinc0 hfit, List.map_nil,
    List.nil_append] at hl1
  obtain ⟨hd, hfc, _, _⟩ := run_summary _ ctx cb ctx1 cb1 puts hrun
  have hqd := shape_queued hs1
  rw [hl1] at hqd
  have hpts : (queued ctx1.queue).map (fun p => p.pts)
      = (c0 :: cs).map (fun c => stream_time ctx c.2 - stream_time ctx c0.2) := by
    rw [hqd, List.map_map]
    rfl
  refine ⟨ctx1, cb1, puts, hrun, hqd, ?_, ?_, hpts, ?_, ?_, ?_, ?_, ?_⟩
  · rw [hqd, List.length_map, List.length_cons]
  · intro p hp
    rw [hqd] at hp
    obtain ⟨c, _, rfl⟩ := List.mem_map.1 hp
    exact ⟨rfl, rfl⟩
  · rw [hqd, List.map_map]
    refine List.map_congr_left (fun c hc => ?_)
    have hs := hsig c hc
    simp only [no_input, decide_eq_false_iff_not] at hs
    simp [video_packet, hs]
  · rw [hpts]
    simp
  · rw [hpts, List.pairwise_map]
    rw [List.pairwise_map] at hinc
    exact hinc.imp (fun h => by omega)
  · rw [hfc]
    simp [video_calls, bump]
  · rw [hd, rejected_eq_zero puts hacc, signal_flags_video_calls,
      transitions_const _ _ (fun x hx => by
        obtain ⟨c, hc, hx⟩ := List.mem_map.1 hx
        rw [← hx, hsig c hc]
        simp [hnv])]
    simp [bump]
theorem stream_time_sample (ctx : decklink_ctx) (t : Int) :
    stream_time ctx (sampleVideoFrame t) = t := rfl

theorem frames_footprint_sample (n : Nat) :
    ∀ ts : List Int, frames_footprint n (ts.map (fun t => (sampleEnv, sampleVideoFrame t)))
      = (n : Int) * ts.length
  | [] => by simp [frames_footprint]
  | t :: ts => by
    rw [List.map_cons, frames_footprint_cons, frames_footprint_sample n ts]
    simp only [sampleVideoFrame, wrap32, List.length_cons]
    push_cast
    ring_nf

/-- Instance of C15: 25 frames with signal and device time stamps 1000, 1040,
..., 1960 on the sample session: 25 packets with PTS 0, 40, ..., 960. -/
theorem video_only_session_witness :
    ∃ ctx1 cb1 puts, run_callbacks sampleCtx decklink_input_callback_new
        (video_calls (((List.range 25).map (fun k : Nat => 1000 + 40 * (k : Int))).map
          (fun t => (sampleEnv, sampleVideoFrame t)))) = some (ctx1, cb1, puts) ∧
      (queued ctx1.queue).length = 25 ∧
      (queued ctx1.queue).map (fun p => p.pts)
        = (List.range 25).map (fun k : Nat => 40 * (k : Int)) ∧
      ctx1.frameCount = 25 ∧ ctx1.dropped = 0 := by
  have hmem : ∀ c ∈ (sampleEnv, sampleVideoFrame 1000) ::
      ((List.range 24).map (fun k : Nat => 1040 + 40 * (k : Int))).map
        (fun t => (sampleEnv, sampleVideoFrame t)),
      ∃ t : Int, 1000 ≤ t ∧ t ≤ 2000 ∧ c = (sampleEnv, sampleVideoFrame t) := by
    intro c hc
    rcases List.mem_cons.1 hc with rfl | hc
    · exact ⟨1000, by omega, by omega, rfl⟩
    · obtain ⟨t, ht, rfl⟩ := List.mem_map.1 hc
      obtain ⟨k, hk, rfl⟩ := List.mem_map.1 ht
      have := List.mem_range.1 hk
      exact ⟨_, by omega, by omega, rfl⟩
  have hlist : (List.range 25).map (fun k : Nat => 1000 + 40 * (k : Int))
      = 1000 :: (List.range 24).map (fun k : Nat => 1040 + 40 * (k : Int)) := by
    decide
  rw [hlist, List.map_cons]
  obtain ⟨ctx1, cb1, puts, hrun, _, hlen, _, hpts, _, _, _, hfc, hd⟩ := video_only_session 96
    sampleCtx decklink_input_callback_new (sampleEnv, sampleVideoFrame 1000)
    (((List.range 24).map (fun k : Nat => 1040 + 40 * (k : Int))).map
      (fun t => (sampleEnv, sampleVideoFrame t)))
    rfl rfl rfl shape_init rfl rfl rfl
    (fun c hc => by
      obtain ⟨t, _, _, rfl⟩ := hmem c hc
      simp [sampleEnv, sampleVideoFrame, wrap32])
    (by
      rw [frames_footprint_cons, frames_footprint_sample]
      simp [sampleVideoFrame, wrap32])
    (fun c hc => by
      obtain ⟨t, _, _, rfl⟩ := hmem c hc
      exact no_input_sample t)
    (fun c hc => by
      obtain ⟨t, _, _, rfl⟩ := hmem c hc
      rfl)
    (by
      simp only [List.map_cons, List.map_map, Function.comp_def, stream_time_sample,
        List.pairwise_cons, List.mem_map, List.mem_range, forall_exists_index, and_imp,
        forall_apply_eq_imp_iff₂, List.pairwise_map]
      refine ⟨fun k _ => by omega, ?_⟩
      exact (List.pairwise_lt_range 24).imp (fun h => by omega))
    (by rw [stream_time_sample]; omega)
    (fun c hc => by
      obtain ⟨t, h1, h2, rfl⟩ := hmem c hc
      simp only [stream_time_sample]
      omega)
  refine ⟨ctx1, cb1, puts, hrun, ?_, ?_, ?_, ?_⟩
  · rw [hlen]; simp
  · rw [hpts]
    simp only [List.map_cons, List.map_map, Function.comp_def, stream_time_sample]
    decide
  · rw [hfc]; simp [sampleCtx]
  · rw [hd]; rfl
/-! ## Capture callback: teletext enabled, no selected line -/

/-- With 1920-wide 10-bit ancillary data in which no sub-packet has a selected
line, the teletext part of the video branch emits no packet. -/
theorem teletext_packet_unselected (env : CallbackEnv) (ctx : decklink_ctx)
    (vf : IDeckLinkVideoInputFrame) (vanc : IDeckLinkVideoFrameAncillary) (pkt : AVPacket)
    (hvanc : vf.GetAncillaryData = some vanc) (hw : vf.GetWidth = 1920)
    (hfmt : vanc.GetPixelFormat = bmdFormat10BitYUV) (ha : assert_holds env ctx vf)
    (hsel : ∀ i buf, vanc.GetBufferForVerticalBlankingLine i = some buf →
      ∀ line ∈ vanc_data_lines buf, ¬ line_selected ctx.teletext_lines line) :
    teletext_packet env ctx vf pkt = some none := by
  have hpal : (match env.zvbi with
      | some slice =>
        if ctx.bmd_mode = bmdModePAL ∧
            (vanc.GetPixelFormat = bmdFormat8BitYUV ∨ vanc.GetPixelFormat = bmdFormat10BitYUV) then
          if vf.GetWidth = 720 then
            some (pal_lines slice vanc ctx.teletext_lines vanc.GetPixelFormat 336 6 1 1
              (poke env.txt_buf0 0 0x10))
          else none
        else some (1, poke env.txt_buf0 0 0x10)
      | none => some (1, poke env.txt_buf0 0 0x10)) = some (1, poke env.txt_buf0 0 0x10) := by
    cases hz : env.zvbi with
    | none => rfl
    | some slice =>
      simp only
      by_cases hc : ctx.bmd_mode = bmdModePAL ∧
          (vanc.GetPixelFormat = bmdFormat8BitYUV ∨ vanc.GetPixelFormat = bmdFormat10BitYUV)
      · have h720 := ha slice vanc hz hvanc hc.1 hc.2
        rw [hw] at h720
        omega
      · rw [if_neg hc]
  have hlines : ∀ fal : Int, fal ≤ 584 →
      vanc_lines vanc ctx.teletext_lines ctx.bmd_field_dominance fal 584 8 1
        (poke env.txt_buf0 0 0x10) = some (1, poke env.txt_buf0 0 0x10) :=
    fun fal hfal => vanc_lines_unselected vanc ctx.teletext_lines ctx.bmd_field_dominance fal
      hsel 584 8 1 _ (by push_cast; omega) (by omega)
  unfold teletext_packet
  simp only [hvanc]
  rw [hpal]
  simp only [hw, hfmt, and_self, if_true]
  rw [hlines _ (by split <;> omega)]
  simp

/-- C16. For a video frame with input signal present, teletext enabled
(non-zero mask) and 1920-wide 10-bit ancillary data in which no OP-47
sub-packet has a computed line number selected by the mask (the condition
asserted in the PAL branch holding): `teletext_data_unit_from_vanc_data`
returns the target unchanged (and leaves the buffer as it was) for every
blanking line, and `VideoInputFrameArrived` returns `S_OK` having put the
video packet first and nothing else but the audio packet of the invocation
when there is one: no teletext packet is put. -/
theorem unselected_lines_no_teletext_packet (env : CallbackEnv) (ctx : decklink_ctx)
    (cb : decklink_input_callback) (vf : IDeckLinkVideoInputFrame)
    (vanc : IDeckLinkVideoFrameAncillary) (a : Option IDeckLinkAudioInputPacket)
    (hsig : no_input vf = false) (htt : ctx.teletext_lines ≠ 0)
    (hvanc : vf.GetAncillaryData = some vanc) (hw : vf.GetWidth = 1920)
    (hfmt : vanc.GetPixelFormat = bmdFormat10BitYUV) (ha : assert_holds env ctx vf)
    (hsel : ∀ i buf, vanc.GetBufferForVerticalBlankingLine i = some buf →
      ∀ line ∈ vanc_data_lines buf, ¬ line_selected ctx.teletext_lines line) :
    (∀ i buf tgt mem, vanc.GetBufferForVerticalBlankingLine i = some buf →
      teletext_data_unit_from_vanc_data buf tgt mem ctx.teletext_lines = some (tgt, mem)) ∧
    ∃ r, VideoInputFrameArrived env ctx cb (some vf) a = some r ∧ r.ret = S_OK ∧ ∃ ret,
      (a = none → r.puts = [(video_packet ctx vf (get_pkt_pts env.av_rescale_q (some vf) a
          (callback_wallclock env ctx) ctx.video_pts_source ctx.video_st.time_base
          cb.initial_video_pts).1, ret)]) ∧
      (∀ af, a = some af → ∃ apkt aret,
        r.puts = [(video_packet ctx vf (get_pkt_pts env.av_rescale_q (some vf) a
          (callback_wallclock env ctx) ctx.video_pts_source ctx.video_st.time_base
          cb.initial_video_pts).1, ret), (apkt, aret)] ∧
        apkt.stream_index = ctx.audio_st.index ∧ apkt.data = af.GetBytes) := by
  refine ⟨fun i buf tgt mem hb =>
    vanc_data_unselected buf tgt mem ctx.teletext_lines (hsel i buf hb), ?_⟩
  have hflag : ¬ (vf.GetFlags &&& bmdFrameHasNoInputSource ≠ 0) := by
    simpa [no_input] using hsig
  have htxt : ∀ fc d p, teletext_packet env { ctx with frameCount := fc, dropped := d } vf p
      = some none :=
    fun fc d p => teletext_packet_unselected env { ctx with frameCount := fc, dropped := d } vf
      vanc p hvanc hw hfmt (fun s va h1 h2 h3 h4 => ha s va h1 h2 h3 h4) hsel
  cases a with
  | none =>
    simp only [VideoInputFrameArrived, video_branch, hflag, if_false, htt, ne_eq,
      not_false_eq_true, and_self, if_true]
    rw [htxt]
    simp only [false_and, if_false, put_or_drop, List.nil_append, video_packet,
      callback_wallclock, hflag, audio_branch]
    exact ⟨_, rfl, rfl, _, fun _ => rfl, fun af h => by simp at h⟩
  | some af =>
    simp only [VideoInputFrameArrived, video_branch, hflag, if_false, htt, ne_eq,
      not_false_eq_true, and_self, if_true]
    rw [htxt]
    simp only [false_and, if_false, put_or_drop, List.nil_append, video_packet,
      callback_wallclock, hflag, audio_branch]
    refine ⟨_, rfl, rfl, _, fun h => by simp at h, fun af2 h => ⟨_, _, rfl, rfl, ?_⟩⟩
    simp only [Option.some.injEq] at h
    rw [← h]
/-- The marker scan finds no sub-packet in a run of zero samples. -/
theorem vanc_scan_lines_zeros (y : List Nat) (pend : Int) (lo : Int)
    (hz : ∀ i : Int, lo ≤ i → i < pend → sample y i = some 0) :
    ∀ (fuel : Nat) (py : Int), lo ≤ py → vanc_scan_lines y pend fuel py = []
  | 0, _, _ => rfl
  | fuel + 1, py, hlo => by
    by_cases hc : py < pend - 6
    · have a0 : sample y py = some 0 := hz py hlo (by omega)
      have a1 : sample y (py + 1) = some 0 := hz (py + 1) (by omega) (by omega)
      have hadf : adf_at y py = some false := by simp [adf_at, a0, a1]
      simp only [vanc_scan_lines, if_pos hc, hadf]
      exact vanc_scan_lines_zeros y pend lo hz fuel (py + 1) (by omega)
    · simp [vanc_scan_lines, hc]

/-- One iteration of the marker scan at an ancillary data flag. -/
theorem vanc_scan_lines_adf (y : List Nat) (pend : Int) (fuel : Nat) (py : Int) (dc : Nat)
    (hc : py < pend - 6) (hadf : adf_at y py = some true)
    (hdc : sample y (py + 3 + 2) = some dc) :
    vanc_scan_lines y pend (fuel + 1) py
      = ancillary_lines y (py + 3) pend ++
          vanc_scan_lines y pend fuel (py + 3 + ((dc &&& 255 : Nat) : Int)) := by
  simp only [vanc_scan_lines, if_pos hc, hadf, hdc]

theorem line_7_selected_by_2 : line_selected 2 7 :=
  ⟨by decide, by decide⟩

theorem line_7_not_selected_by_4 : ¬ line_selected 4 7 :=
  fun h => absurd h.2 (by decide)

theorem sampleSubtitleLine_range : ∀ x ∈ sampleSubtitleLine, x < 1024 := by
  decide

theorem sampleSubtitleLine_sample (k : Nat) (hk : k < 1920) :
    sample (v210_luma (v210_pack sampleSubtitleLine) 640 0) (k : Int)
      = some (sampleSubtitleLine.getD k 0) :=
  sample_luma_pack sampleSubtitleLine sampleSubtitleLine_range k hk

theorem sampleSubtitleLine_tail (i : Int) (h1 : 60 ≤ i) (h2 : i < 1920) :
    sample (v210_luma (v210_pack sampleSubtitleLine) 640 0) i = some 0 := by
  obtain ⟨k, rfl⟩ := Int.eq_ofNat_of_zero_le (by omega : 0 ≤ i)
  rw [sampleSubtitleLine_sample k (by omega)]
  have : sampleSubtitleLine.length ≤ k := by
    have : sampleSubtitleLine.length = 60 := by decide
    omega
  rw [List.getD_eq_default _ _ this]

/-- The marker scan of the sample subtitle line reaches one OP-47 sub-packet,
whose computed line number is 7. -/
theorem sampleSubtitleLine_lines : vanc_data_lines (v210_pack sampleSubtitleLine) = [7] := by
  have g : ∀ (k v : Nat), k < 1920 → sampleSubtitleLine.getD k 0 = v →
      sample (v210_luma (v210_pack sampleSubtitleLine) 640 0) (k : Int) = some v := by
    intro k v hk hv
    rw [sampleSubtitleLine_sample k hk, hv]
  have ht := sampleSubtitleLine_tail
  simp only [vanc_data_lines]
  generalize v210_luma (v210_pack sampleSubtitleLine) 640 0 = y at g ht ⊢
  have s0 : sample y 0 = some 0 := by simpa using g 0 0 (by norm_num) (by decide)
  have s1 : sample y 1 = some 0x3ff := by simpa using g 1 0x3ff (by norm_num) (by decide)
  have s2 : sample y 2 = some 0x3ff := by simpa using g 2 0x3ff (by norm_num) (by decide)
  have s3 : sample y 3 = some 0x143 := by simpa using g 3 0x143 (by norm_num) (by decide)
  have s4 : sample y 4 = some 0x102 := by simpa using g 4 0x102 (by norm_num) (by decide)
  have s5 : sample y 5 = some 0x23c := by simpa using g 5 0x23c (by norm_num) (by decide)
  have s6 : sample y 6 = some 0x151 := by simpa using g 6 0x151 (by norm_num) (by decide)
  have s7 : sample y 7 = some 0x115 := by simpa using g 7 0x115 (by norm_num) (by decide)
  have s9 : sample y 9 = some 0x102 := by simpa using g 9 0x102 (by norm_num) (by decide)
  have s10 : sample y 10 = some 0x287 := by simpa using g 10 0x287 (by norm_num) (by decide)
  have hadf : adf_at y 0 = some true := by simp [adf_at, s0, s1, s2]
  have hprefix : op47_prefix_ok y 6 = some true := by
    simp [op47_prefix_ok, s6, s7, s9]
  have hunits : op47_unit_lines y 10 66 5 0 15 = [7] := by
    have c0 : (15 : Int) < 66 - 45 := by decide
    have c1 : ¬ ((15 : Int) + 45 < 66 - 45) := by decide
    have e10 : sample y (10 + ((0 : Nat) : Int)) = some 0x287 := by simpa using s10
    simp only [op47_unit_lines, if_pos c0, e10, if_neg c1]
    decide
  have hdata : op47_data_lines y 6 66 = [7] := by
    have c : (6 : Int) < 66 - 9 := by decide
    simp only [op47_data_lines, if_pos c, hprefix]
    exact hunits
  have hanc : ancillary_lines y 3 1920 = [7] := by
    have e4 : sample y (3 + 1) = some 0x102 := by simpa using s4
    have e5 : sample y (3 + 2) = some 0x23c := by simpa using s5
    have hmin : min (1920 : Int) (3 + 3 + ((0x23c &&& 255 : Nat) : Int)) = 66 := by decide
    simp only [ancillary_lines, s3, e4, e5, and_self, if_true, hmin]
    exact hdata
  have hc : (0 : Int) < 1920 - 6 := by decide
  have e5 : sample y (0 + 3 + 2) = some 0x23c := by simpa using s5
  have h3 : ((0 : Int) + 3) = 3 := by decide
  rw [show (1920 : Nat) = 1919 + 1 from rfl, vanc_scan_lines_adf y 1920 1919 0 0x23c hc hadf e5,
    h3, hanc, vanc_scan_lines_zeros y 1920 60 ht 1919 _ (by decide)]
  rfl

/-- Instance of C16: the 1920-wide frame whose blanking line 9 carries a
subtitle-distribution packet with one OP-47 sub-packet for line 7, on the
session whose mask 4 selects line 8 only.  The scan reaches the sub-packet
(its computed line is 7, which mask 2 would select), the line is not selected,
and the invocation makes one put, the video packet. -/
theorem unselected_lines_no_teletext_packet_witness :
    vanc_data_lines (v210_pack sampleSubtitleLine) = [7] ∧
      line_selected 2 7 ∧ ¬ line_selected sampleLine8Ctx.teletext_lines 7 ∧
      sampleLine8Ctx.teletext_lines ≠ 0 ∧
      teletext_data_unit_from_vanc_data (v210_pack sampleSubtitleLine) 1 (fun _ => 0)
        sampleLine8Ctx.teletext_lines = some (1, fun _ => 0) ∧
      ∃ r, VideoInputFrameArrived sampleEnv sampleLine8Ctx decklink_input_callback_new
          (some sampleSubtitleFrame) none = some r ∧ r.ret = S_OK ∧ r.puts.length = 1 ∧
        ∀ p ∈ r.puts, p.1.stream_index = sampleLine8Ctx.video_st.index := by
  have hsel : ∀ (i : Int) (buf : Bytes),
      sampleSubtitleAncillary.GetBufferForVerticalBlankingLine i = some buf →
      ∀ line ∈ vanc_data_lines buf, ¬ line_selected sampleLine8Ctx.teletext_lines line := by
    intro i buf hb line hl
    simp only [sampleSubtitleAncillary] at hb
    split at hb
    · simp only [Option.some.injEq] at hb
      rw [← hb, sampleSubtitleLine_lines, List.mem_singleton] at hl
      rw [hl]
      exact line_7_not_selected_by_4
    · simp at hb
  obtain ⟨hdec, r, hr, hret, ret, hputs, _⟩ := unselected_lines_no_teletext_packet sampleEnv
    sampleLine8Ctx decklink_input_callback_new sampleSubtitleFrame sampleSubtitleAncillary none
    (no_input_sample 1000) (by decide) rfl rfl rfl (sampleEnv_asserts _ _) hsel
  refine ⟨sampleSubtitleLine_lines, line_7_selected_by_2, line_7_not_selected_by_4, by decide,
    hdec 9 (v210_pack sampleSubtitleLine) 1 (fun _ => 0) rfl, r, hr, hret, ?_, ?_⟩
  · rw [hputs rfl]; rfl
  · intro p hp
    rw [hputs rfl] at hp
    simp only [List.mem_singleton] at hp
    rw [hp]
    rfl

/-! ## Session start -/

theorem read_header_streams_prefix (env : HeaderEnv) (cctx : decklink_cctx)
    (ops : List DeviceOp) :
    ∃ rest, (read_header_streams env cctx ops).2 = ops ++ rest := by
  unfold read_header_streams
  simp only
  split_ifs <;> simp [List.append_assoc]

/-- C19. When `av_mallocz` has returned the session block: for every
configuration whose audio channel count is not 2, 8 or 16,
`ff_decklink_read_header` returns `AVERROR(EINVAL)` whatever the other options
and the device, having made no call on the device layer; for channel counts 2,
8 and 16 the check is passed: the function goes on to its first device call,
`ff_decklink_list_devices` or `ff_decklink_init_device`. -/
theorem read_header_channel_check (env : HeaderEnv) (cctx : decklink_cctx)
    (hm : env.av_mallocz_ok = true) :
    (¬ (cctx.audio_channels = 2 ∨ cctx.audio_channels = 8 ∨ cctx.audio_channels = 16) →
      ff_decklink_read_header env cctx = (env.AVERROR env.EINVAL, [])) ∧
    ((cctx.audio_channels = 2 ∨ cctx.audio_channels = 8 ∨ cctx.audio_channels = 16) →
      ∃ op rest, (ff_decklink_read_header env cctx).2 = op :: rest ∧
        (op = DeviceOp.list_devices ∨ op = DeviceOp.init_device)) := by
  constructor
  · intro h
    simp [ff_decklink_read_header, hm, h]
  · intro h
    unfold ff_decklink_read_header
    simp only [hm, Bool.true_eq_false, if_false, h, not_true_eq_false]
    by_cases h1 : cctx.list_devices ≠ 0
    · rw [if_pos h1]
      exact ⟨_, _, rfl, Or.inl rfl⟩
    · rw [if_neg h1]
      by_cases h2 : env.ff_decklink_init_device < 0
      · rw [if_pos h2]
        exact ⟨_, _, rfl, Or.inr rfl⟩
      · rw [if_neg h2]
        split_ifs
        all_goals first
          | exact ⟨_, _, rfl, Or.inr rfl⟩
          | (obtain ⟨rest, hr⟩ := read_header_streams_prefix env cctx
              ([DeviceOp.init_device] ++ [DeviceOp.query_interface] ++ [DeviceOp.set_format])
             rw [hr]
             exact ⟨_, _, rfl, Or.inr rfl⟩)
          | (obtain ⟨rest, hr⟩ := read_header_streams_prefix env cctx
              ([DeviceOp.init_device] ++ [DeviceOp.query_interface])
             rw [hr]
             exact ⟨_, _, rfl, Or.inr rfl⟩)

/-- Instance of C19: 4 channels are refused before any device call, and 2
channels start the session. -/
theorem read_header_channel_check_witness :
    ff_decklink_read_header sampleHeaderEnv (sampleOptions 4) = (-22, []) ∧
      (ff_decklink_read_header sampleHeaderEnv (sampleOptions 2)).1 = 0 :=
  ⟨(read_header_channel_check sampleHeaderEnv (sampleOptions 4) rfl).1 (by decide),
    by decide⟩
/-! ## Line offset of the selectable lines -/

theorem mask_bit_all (k : Nat) (hk : k < 64) : mask_bit (-1) k = true := by
  simp only [mask_bit]
  have : ((-1 : Int) % 2 ^ 64).toNat = 2 ^ 64 - 1 := by decide
  rw [this, Nat.testBit_two_pow_sub_one]
  simpa using hk

/-- The lines some mask selects are 6..22 and 318..335. -/
theorem linemask_accepts_iff (line : Int) :
    (∃ mask, linemask_matches line mask = true) ↔
      (6 ≤ line ∧ line ≤ 22) ∨ (318 ≤ line ∧ line ≤ 335) := by
  constructor
  · rintro ⟨mask, h⟩
    rw [linemask_matches_eq] at h
    by_cases h1 : 6 ≤ line ∧ line ≤ 22
    · exact Or.inl h1
    · rw [if_neg h1] at h
      by_cases h2 : 318 ≤ line ∧ line ≤ 335
      · exact Or.inr h2
      · rw [if_neg h2] at h
        exact absurd h Bool.false_ne_true
  · intro h
    refine ⟨-1, ?_⟩
    rw [linemask_matches_eq]
    rcases h with h | h
    · rw [if_pos h]
      exact mask_bit_all _ (by omega)
    · have h1 : ¬ (6 ≤ line ∧ line ≤ 22) := by omega
      rw [if_neg h1, if_pos h]
      exact mask_bit_all _ (by omega)

theorem calc_parity_line_6 : calc_parity_and_line_offset 6 = 32 := by decide

theorem calc_parity_line_318 : calc_parity_and_line_offset 318 = 0 := by decide

theorem calc_parity_line_319 : calc_parity_and_line_offset 319 = 0 := by decide

/-- The low five bits of the parity/offset byte on the selectable lines. -/
theorem calc_parity_offset_zero (line : Int)
    (h : (6 ≤ line ∧ line ≤ 22) ∨ (318 ≤ line ∧ line ≤ 335)) :
    (calc_parity_and_line_offset line % 32 = 0 ↔ line = 6 ∨ line = 318 ∨ line = 319) ∧
      (¬ (line = 6 ∨ line = 318 ∨ line = 319) →
        7 ≤ calc_parity_and_line_offset line % 32 ∧
          calc_parity_and_line_offset line % 32 ≤ 22) := by
  by_cases h6 : line = 6
  · subst h6
    exact ⟨by simp [calc_parity_line_6], fun hn => absurd (Or.inl rfl) hn⟩
  by_cases h318 : line = 318
  · subst h318
    exact ⟨by simp [calc_parity_line_318], fun hn => absurd (Or.inr (Or.inl rfl)) hn⟩
  by_cases h319 : line = 319
  · subst h319
    exact ⟨by simp [calc_parity_line_319], fun hn => absurd (Or.inr (Or.inr rfl)) hn⟩
  have hcases : (7 ≤ line ∧ line ≤ 22) ∨ (320 ≤ line ∧ line ≤ 335) := by omega
  have hv : 7 ≤ calc_parity_and_line_offset line % 32 ∧
      calc_parity_and_line_offset line % 32 ≤ 22 := by
    rcases hcases with ⟨a, b⟩ | ⟨a, b⟩
    · have := calc_parity_first_field line a b
      omega
    · have := calc_parity_second_field line a b
      omega
  refine ⟨⟨fun h0 => by omega, fun hl => by omega⟩, fun _ => hv⟩

theorem op47_payload_below (y : List Nat) (py : Int) :
    ∀ (n i tgt : Nat) (mem : Bytes) (tgt1 : Nat) (mem1 : Bytes),
      op47_payload y py n i tgt mem = some (tgt1, mem1) → ∀ a, a < tgt → mem1 a = mem a
  | 0, _, _, _, _, _, h, a, _ => by
    simp only [op47_payload, Option.some.injEq, Prod.mk.injEq] at h
    rw [← h.2]
  | n + 1, i, tgt, mem, tgt1, mem1, h, a, ha => by
    simp only [op47_payload] at h
    split at h
    · simp at h
    · rw [op47_payload_below y py n (i + 1) (tgt + 1) _ tgt1 mem1 h a (by omega)]
      exact poke_other mem tgt _ a (by omega)

/-- A data unit emitted by `teletext_data_unit_from_op47_vbi_packet` carries the
parity/offset byte of its line as third byte. -/
theorem op47_vbi_packet_offset_byte (line : Int) (y : List Nat) (py : Int) (tgt tgt1 : Nat)
    (mem mem1 : Bytes)
    (hr : teletext_data_unit_from_op47_vbi_packet line y py tgt mem = some (tgt1, mem1))
    (hne : tgt1 ≠ tgt) : mem1 (tgt + 2) = calc_parity_and_line_offset line := by
  simp only [teletext_data_unit_from_op47_vbi_packet] at hr
  split at hr
  · simp at hr
  · simp only [Option.some.injEq, Prod.mk.injEq] at hr
    exact absurd hr.1.symm hne
  · rw [op47_payload_below y (py + 3) 42 0 (tgt + 4) _ tgt1 mem1 hr (tgt + 2) (by omega)]
    simp [fill_data_unit_head, poke]

/-- C25. A line is accepted by `linemask_matches` for some mask exactly when it
is in 6..22 or 318..335; for such a line the low five bits of
`calc_parity_and_line_offset line` are zero if and only if the line is 6, 318
or 319, and for every other accepted line they are in 7..22 (as a bit mask:
`& 0x1f` gives the same value).  Hence the third byte of a data unit head
written for line 6, 318 or 319, and of the data unit that
`teletext_data_unit_from_op47_vbi_packet` emits for such a line, carries line
offset 0. -/
theorem line_offset_of_accepted_lines (line : Int) :
    ((∃ mask, linemask_matches line mask = true) ↔
      (6 ≤ line ∧ line ≤ 22) ∨ (318 ≤ line ∧ line ≤ 335)) ∧
    ((∃ mask, linemask_matches line mask = true) →
      (calc_parity_and_line_offset line % 32 = 0 ↔ line = 6 ∨ line = 318 ∨ line = 319) ∧
      (¬ (line = 6 ∨ line = 318 ∨ line = 319) →
        7 ≤ calc_parity_and_line_offset line % 32 ∧
          calc_parity_and_line_offset line % 32 ≤ 22) ∧
      calc_parity_and_line_offset line &&& 0x1f = calc_parity_and_line_offset line % 32) ∧
    (line = 6 ∨ line = 318 ∨ line = 319 →
      (∀ (tgt : Nat) (mem : Bytes), fill_data_unit_head line tgt mem (tgt + 2) % 32 = 0) ∧
      ∀ (y : List Nat) (py : Int) (tgt tgt1 : Nat) (mem mem1 : Bytes),
        teletext_data_unit_from_op47_vbi_packet line y py tgt mem = some (tgt1, mem1) →
        tgt1 ≠ tgt → mem1 (tgt + 2) % 32 = 0) := by
  refine ⟨linemask_accepts_iff line, ?_, ?_⟩
  · intro h
    obtain ⟨h1, h2⟩ := calc_parity_offset_zero line ((linemask_accepts_iff line).1 h)
    exact ⟨h1, h2, Nat.and_pow_two_sub_one_eq_mod _ 5⟩
  · intro hl
    have hz : calc_parity_and_line_offset line % 32 = 0 :=
      (calc_parity_offset_zero line (by omega)).1.2 hl
    refine ⟨fun tgt mem => ?_, ?_⟩
    · have : fill_data_unit_head line tgt mem (tgt + 2) = calc_parity_and_line_offset line := by
        simp [fill_data_unit_head, poke]
      rw [this, hz]
    · intro y py tgt tgt1 mem mem1 hr hne
      rw [op47_vbi_packet_offset_byte line y py tgt tgt1 mem mem1 hr hne, hz]

/-- Instance of C25 at line 318: accepted by mask `2 ^ 17`, line offset 0. -/
theorem line_offset_of_accepted_lines_witness :
    linemask_matches 318 (2 ^ 17) = true ∧ calc_parity_and_line_offset 318 % 32 = 0 ∧
      ∀ (tgt : Nat) (mem : Bytes), fill_data_unit_head 318 tgt mem (tgt + 2) % 32 = 0 :=
  ⟨by decide, ((line_offset_of_accepted_lines 318).2.1 ⟨2 ^ 17, by decide⟩).1.2
      (Or.inr (Or.inl rfl)),
    ((line_offset_of_accepted_lines 318).2.2 (Or.inr (Or.inl rfl))).1⟩
/-! ## Stuffing units: count and contents -/

theorem stuffing_units_range (n : Nat) :
    stuffing_units ((1 + 46 * n : Nat) : Int) = (((4 - (n + 1) % 4) % 4 : Nat) : Int) := by
  have h1 : Int.tdiv (45 + ((1 + 46 * n : Nat) : Int)) 46 = (n : Int) + 1 := by
    rw [Int.tdiv_eq_ediv (by omega) (by omega)]
    push_cast
    omega
  have h0 : 0 ≤ stuffing_units ((1 + 46 * n : Nat) : Int) := by
    simp only [stuffing_units, h1]
    rw [@Int.tmod_eq_emod ((n : Int) + 1) 4 (by omega) (by omega),
      @Int.tmod_eq_emod (4 - ((n : Int) + 1) % 4) 4 (by omega) (by omega)]
    omega
  rw [← stuffing_units_eq n]
  omega

/-- The bytes of the stuffing units: unit `j` is 46 bytes of 0xff except its
second byte, which is 0x2c. -/
theorem stuffing_bytes : ∀ (s tgt : Nat) (mem : Bytes) (j i : Nat), j < s → i < 46 →
    (stuffing s tgt mem).2 (tgt + 46 * j + i) = if i = 1 then 0x2c else 0xff
  | 0, _, _, _, _, hj, _ => absurd hj (Nat.not_lt_zero _)
  | s + 1, tgt, mem, 0, i, _, hi => by
    simp only [stuffing]
    rw [stuffing_frame s (tgt + 46) _ _ (by omega)]
    by_cases h1 : i = 1
    · subst h1
      simp [poke]
    · have h2 : tgt + 46 * 0 + i ≠ tgt + 1 := by omega
      have h3 : tgt ≤ tgt + 46 * 0 + i ∧ tgt + 46 * 0 + i < tgt + 46 := by omega
      rw [poke_other _ _ _ _ h2]
      simp only [memset, if_pos h3, if_neg h1]
  | s + 1, tgt, mem, j + 1, i, hj, hi => by
    simp only [stuffing]
    have := stuffing_bytes s (tgt + 46) (poke (memset mem tgt 0xff 46) (tgt + 1) 0x2c) j i
      (by omega) hi
    rw [show tgt + 46 * (j + 1) + i = tgt + 46 + 46 * j + i by ring]
    exact this

/-- A teletext packet emitted by the callback has the size and the bytes left
by the stuffing loop, which is entered at an offset above 1. -/
theorem teletext_packet_stuffed (env : CallbackEnv) (ctx : decklink_ctx)
    (v : IDeckLinkVideoInputFrame) (pkt p : AVPacket)
    (h : teletext_packet env ctx v pkt = some (some p)) :
    ∃ (off : Nat) (mem : Bytes), 1 < off ∧
      p.size = ((stuffing (stuffing_units off).toNat off mem).1 : Int) ∧
      p.data = (List.range (stuffing (stuffing_units off).toNat off mem).1).map
        (stuffing (stuffing_units off).toNat off mem).2 := by
  unfold teletext_packet at h
  split at h
  · simp at h
  · simp only at h
    split at h
    · simp at h
    · rename_i off1 mem1 _
      split at h
      · simp at h
      · rename_i off mem _
        split at h
        · rename_i hgt
          simp only [Option.some.injEq] at h
          subst h
          exact ⟨off, mem, hgt, rfl, rfl⟩
        · simp at h

/-- C24. For every number `n ≥ 1` of collected data units (offset `1 + 46 * n`
when the stuffing count is computed in `VideoInputFrameArrived`), the stuffing
count is `s` with `0 ≤ s ≤ 3`, the offset after the stuffing loop, which is
the size of the emitted teletext packet, is `1 + 46 * (n + s)`, that size plus
45 is a multiple of 184, i.e. `n + s + 1` is a multiple of 4; each stuffing
unit is 46 bytes of 0xff except its second byte, which is 0x2c, and the bytes
before the stuffing units are left as they were.  A teletext packet emitted by
the callback has the size and the bytes left by that loop. -/
theorem stuffing_units_count_and_bytes (n : Nat) (mem : Bytes) (hn : 1 ≤ n) :
    ∃ s : Nat, stuffing_units ((1 + 46 * n : Nat) : Int) = (s : Int) ∧ s ≤ 3 ∧
      (stuffing (stuffing_units ((1 + 46 * n : Nat) : Int)).toNat (1 + 46 * n) mem).1
        = 1 + 46 * (n + s) ∧
      (1 + 46 * (n + s) + 45) % 184 = 0 ∧ (n + s + 1) % 4 = 0 ∧
      (∀ j < s, ∀ i < 46,
        (stuffing (stuffing_units ((1 + 46 * n : Nat) : Int)).toNat (1 + 46 * n) mem).2
          (1 + 46 * (n + j) + i) = if i = 1 then 0x2c else 0xff) ∧
      (∀ a < 1 + 46 * n,
        (stuffing (stuffing_units ((1 + 46 * n : Nat) : Int)).toNat (1 + 46 * n) mem).2 a
          = mem a) ∧
      ∀ (env : CallbackEnv) (ctx : decklink_ctx) (v : IDeckLinkVideoInputFrame)
        (pkt p : AVPacket), teletext_packet env ctx v pkt = some (some p) →
        ∃ (off : Nat) (m : Bytes), 1 < off ∧
          p.size = ((stuffing (stuffing_units off).toNat off m).1 : Int) ∧
          p.data = (List.range (stuffing (stuffing_units off).toNat off m).1).map
            (stuffing (stuffing_units off).toNat off m).2 := by
  have _ := hn
  have hs := stuffing_units_eq n
  refine ⟨(4 - (n + 1) % 4) % 4, stuffing_units_range n, by omega, ?_, by omega, by omega,
    ?_, ?_, teletext_packet_stuffed⟩
  · rw [stuffing_fst, hs]
    ring
  · intro j hj i hi
    rw [hs, show 1 + 46 * (n + j) + i = 1 + 46 * n + 46 * j + i by ring]
    exact stuffing_bytes _ _ mem j i hj hi
  · intro a ha
    exact stuffing_frame _ _ mem a (Or.inl ha)

/-- Instance of C24 for one collected unit: two stuffing units, packet size
139, and 139 + 45 = 184. -/
theorem stuffing_units_count_and_bytes_witness :
    ∃ s : Nat, stuffing_units ((1 + 46 * 1 : Nat) : Int) = (s : Int) ∧ s ≤ 3 ∧
      (stuffing (stuffing_units ((1 + 46 * 1 : Nat) : Int)).toNat (1 + 46 * 1)
        (fun _ => 0)).1 = 1 + 46 * (1 + s) ∧
      (1 + 46 * (1 + s) + 45) % 184 = 0 := by
  obtain ⟨s, h1, h2, h3, h4, _⟩ := stuffing_units_count_and_bytes 1 (fun _ => 0) (by decide)
  exact ⟨s, h1, h2, h3, h4⟩
/-! ## V210 luma extraction -/

theorem v210_luma_succ (src : Bytes) (n off : Nat) :
    v210_luma src (n + 1) off = v210_luma src 1 off ++ v210_luma src n (off + 8) := by
  simp [v210_luma]

theorem v210_luma_groups (src : Bytes) : ∀ (n off : Nat),
    v210_luma src n off = (List.range n).flatMap (fun g => v210_luma src 1 (off + 8 * g))
  | 0, _ => rfl
  | n + 1, off => by
    rw [v210_luma_succ, v210_luma_groups src n (off + 8), List.range_succ_eq_map,
      List.flatMap_cons, List.flatMap_map]
    congr 1
    refine List.flatMap_congr (fun g _ => ?_)
    show v210_luma src 1 (off + 8 + 8 * g) = v210_luma src 1 (off + 8 * (g + 1))
    rw [show off + 8 + 8 * g = off + 8 * (g + 1) by ring]

/-- The three samples of one group in terms of its two words. -/
theorem v210_group_words (src : Bytes) (off : Nat) (hb : ∀ i < 8, src (off + i) < 256) :
    v210_luma src 1 off
      = [(le32 src off >>> 10) &&& 0x3FF, le32 src (off + 4) &&& 0x3FF,
          (le32 src (off + 4) >>> 20) &&& 0x3FF] := by
  have h1 := hb 1 (by omega)
  have h2 := hb 2 (by omega)
  have h3 := hb 3 (by omega)
  have h4 := hb 4 (by omega)
  have h5 := hb 5 (by omega)
  have h6 := hb 6 (by omega)
  have h7 := hb 7 (by omega)
  have h0 := hb 0 (by omega)
  have e15 : ∀ x : Nat, x &&& 15 = x % 16 := fun x => Nat.and_pow_two_sub_one_eq_mod x 4
  have e3 : ∀ x : Nat, x &&& 3 = x % 4 := fun x => Nat.and_pow_two_sub_one_eq_mod x 2
  have e63 : ∀ x : Nat, x &&& 63 = x % 64 := fun x => Nat.and_pow_two_sub_one_eq_mod x 6
  have e1023 : ∀ x : Nat, x &&& 0x3FF = x % 1024 := fun x => Nat.and_pow_two_sub_one_eq_mod x 10
  simp only [v210_luma, le32, e15, e3, e63, e1023, Nat.shiftRight_eq_div_pow, Nat.shiftLeft_eq,
    Nat.add_assoc, Nat.reduceAdd, Nat.reducePow, Nat.add_zero] at h0 h1 h2 h3 h4 h5 h6 h7 ⊢
  generalize src off = b0 at *
  generalize src (off + 1) = b1 at *
  generalize src (off + 2) = b2 at *
  generalize src (off + 3) = b3 at *
  generalize src (off + 4) = b4 at *
  generalize src (off + 5) = b5 at *
  generalize src (off + 6) = b6 at *
  generalize src (off + 7) = b7 at *
  have a0 : b1 / 4 + b2 % 16 * 64 = (b0 + (256 * b1 + (65536 * b2 + 16777216 * b3))) / 1024 % 1024 := by
    omega
  have a1 : b4 + b5 % 4 * 256 = (b4 + (256 * b5 + (65536 * b6 + 16777216 * b7))) % 1024 := by
    omega
  have a2 : b6 / 16 + b7 % 64 * 16
      = (b4 + (256 * b5 + (65536 * b6 + 16777216 * b7))) / 1048576 % 1024 := by
    omega
  rw [a0, a1, a2]
theorem v210_group_range (src : Bytes) (off : Nat) (hb : ∀ i < 8, src (off + i) < 256) :
    ∀ x ∈ v210_luma src 1 off, x < 1024 := by
  rw [v210_group_words src off hb]
  intro x hx
  simp only [List.mem_cons, List.mem_singleton, List.not_mem_nil, or_false] at hx
  rcases hx with rfl | rfl | rfl <;> exact Nat.and_lt_two_pow _ (by norm_num : 0x3FF < 2 ^ 10)

/-- The samples of a group are the luma fields of its two words, whatever the
chroma fields and the two padding bits hold. -/
theorem v210_group_fields (src : Bytes) (off : Nat) (hb : ∀ i < 8, src (off + i) < 256)
    (cb y0 cr p0 y1 cb1 y2 p1 : Nat) (hcb : cb < 1024) (hy0 : y0 < 1024)
    (hy1 : y1 < 1024) (hcb1 : cb1 < 1024) (hy2 : y2 < 1024)
    (hw0 : le32 src off = cb + 2 ^ 10 * y0 + 2 ^ 20 * cr + 2 ^ 30 * p0)
    (hw1 : le32 src (off + 4) = y1 + 2 ^ 10 * cb1 + 2 ^ 20 * y2 + 2 ^ 30 * p1) :
    v210_luma src 1 off = [y0, y1, y2] := by
  have e1023 : ∀ x : Nat, x &&& 0x3FF = x % 1024 := fun x => Nat.and_pow_two_sub_one_eq_mod x 10
  rw [v210_group_words src off hb, hw0, hw1]
  simp only [e1023, Nat.shiftRight_eq_div_pow, Nat.reducePow]
  have a0 : (cb + 1024 * y0 + 1048576 * cr + 1073741824 * p0) / 1024 % 1024 = y0 := by omega
  have a1 : (y1 + 1024 * cb1 + 1048576 * y2 + 1073741824 * p1) % 1024 = y1 := by omega
  have a2 : (y1 + 1024 * cb1 + 1048576 * y2 + 1073741824 * p1) / 1048576 % 1024 = y2 := by
    omega
  rw [a0, a1, a2]

/-- C22. For V210 data whose bytes are `uint8_t` values: the three luma samples
that the first loop of `teletext_data_unit_from_vanc_data` extracts from an
8-byte group are `(w0 >> 10) & 0x3FF`, `w1 & 0x3FF` and `(w1 >> 20) & 0x3FF`
of its two little-endian 32-bit words; each is below 1024; they are the luma
fields of the words whatever the chroma fields and padding bits hold; and the sample array of
a line is the concatenation of the samples of its 640 groups, 1920 entries
in all, each below 1024. -/
theorem v210_luma_of_words (src : Bytes) (hb : ∀ a, src a < 256) :
    (∀ off, v210_luma src 1 off
      = [(le32 src off >>> 10) &&& 0x3FF, le32 src (off + 4) &&& 0x3FF,
          (le32 src (off + 4) >>> 20) &&& 0x3FF]) ∧
    (∀ off, ∀ x ∈ v210_luma src 1 off, x < 1024) ∧
    (∀ off cb y0 cr p0 y1 cb1 y2 p1 : Nat, cb < 1024 → y0 < 1024 → y1 < 1024 →
      cb1 < 1024 → y2 < 1024 →
      le32 src off = cb + 2 ^ 10 * y0 + 2 ^ 20 * cr + 2 ^ 30 * p0 →
      le32 src (off + 4) = y1 + 2 ^ 10 * cb1 + 2 ^ 20 * y2 + 2 ^ 30 * p1 →
      v210_luma src 1 off = [y0, y1, y2]) ∧
    v210_luma src 640 0 = (List.range 640).flatMap (fun g => v210_luma src 1 (8 * g)) ∧
    (v210_luma src 640 0).length = 1920 ∧
    (∀ x ∈ v210_luma src 640 0, x < 1024) := by
  have hg : v210_luma src 640 0 = (List.range 640).flatMap (fun g => v210_luma src 1 (8 * g)) := by
    rw [v210_luma_groups src 640 0]
    simp only [Nat.zero_add]
  refine ⟨fun off => v210_group_words src off (fun i _ => hb _),
    fun off => v210_group_range src off (fun i _ => hb _), ?_, hg,
    v210_luma_length src 640 0, ?_⟩
  · intro off cb y0 cr p0 y1 cb1 y2 p1 hcb hy0 hy1 hcb1 hy2 hw0 hw1
    exact v210_group_fields src off (fun i _ => hb _) cb y0 cr p0 y1 cb1 y2 p1 hcb hy0 hy1 hcb1
      hy2 hw0 hw1
  · intro x hx
    rw [hg, List.mem_flatMap] at hx
    obtain ⟨g, _, hxg⟩ := hx
    exact v210_group_range src (8 * g) (fun i _ => hb _) x hxg

/-- Instance of C22: the group of bytes 0, 1, ..., 7 (words 0x03020100 and
0x07060504) yields the samples 128, 260 and 112. -/
theorem v210_luma_of_words_witness :
    v210_luma (fun a => a % 256) 1 0 = [128, 260, 112] ∧
      le32 (fun a => a % 256) 0 = 0x03020100 ∧ le32 (fun a => a % 256) 4 = 0x07060504 ∧
      (0x03020100 >>> 10) &&& 0x3FF = 128 ∧ 0x07060504 &&& 0x3FF = 260 ∧
      (0x07060504 >>> 20) &&& 0x3FF = 112 := by
  have h := (v210_luma_of_words (fun a => a % 256) (fun a => Nat.mod_lt a (by norm_num))).1 0
  refine ⟨?_, by decide, by decide, by decide, by decide, by decide⟩
  rw [h]
  decide
/-! ## Queue: the ceiling -/

theorem footprint_nonneg (nodeSize : Nat) :
    ∀ ps : List AVPacket, (∀ p ∈ ps, 0 ≤ p.size) → 0 ≤ footprint nodeSize ps
  | [], _ => by simp [footprint]
  | p :: ps, h => by
    have ih := footprint_nonneg nodeSize ps (fun x hx => h x (by simp [hx]))
    have hp := h p (by simp)
    rw [footprint_cons]
    omega

/-- Every state reachable with payload sizes in `[0, S]` has a well-formed
chain whose byte count is exact, and all of it but the last packet fits under
the ceiling. -/
theorem within_inv (nodeSize : Nat) (S : Int) (h2 : nodeSize < 2 ^ 63) (hS : S < 2 ^ 31)
    (q : AVPacketQueue) (hr : ReachableWithin nodeSize S q) :
    ∃ l, Shape q l ∧ (q.size : Int) = footprint nodeSize (l.map Prod.snd) ∧
      (∀ x ∈ l, 0 ≤ x.2.size ∧ x.2.size ≤ S) ∧
      (l = [] ∨ ∃ l1 x, l = l1 ++ [x] ∧ footprint nodeSize (l1.map Prod.snd) ≤ 2 ^ 30) := by
  induction hr with
  | init =>
    exact ⟨[], shape_init, by simp [avpacket_queue_init, footprint], by simp, Or.inl rfl⟩
  | put q pkt dup_ok malloc_ok _ hp0 hp1 ih =>
    obtain ⟨l, hs, hz, hrange, hlast⟩ := ih
    by_cases hok : q.size ≤ 1024 * 1024 * 1024 ∧ dup_ok = true ∧ malloc_ok = true
    · obtain ⟨hq, hd, hm⟩ := hok
      subst hd hm
      obtain ⟨_, hsz⟩ := put_fields nodeSize q pkt hq
      refine ⟨l ++ [(q.brk, pkt)], (shape_put nodeSize hs pkt hq).2, ?_, ?_,
        Or.inr ⟨l, (q.brk, pkt), rfl, by rw [← hz]; omega⟩⟩
      · rw [hsz]
        simp only [List.map_append, List.map_cons, List.map_nil, footprint_append,
          footprint_cons, footprint_nil]
        generalize footprint nodeSize (l.map Prod.snd) = f at hz ⊢
        omega
      · intro x hx
        simp only [List.mem_append, List.mem_singleton] at hx
        rcases hx with hx | hx
        · exact hrange x hx
        · subst hx; exact ⟨hp0, hp1⟩
    · rw [put_rejected nodeSize q pkt dup_ok malloc_ok hok]
      exact ⟨l, hs, hz, hrange, hlast⟩
  | get q block r _ hg ih =>
    obtain ⟨l, hs, hz, hrange, hlast⟩ := ih
    cases l with
    | nil =>
      rw [shape_get_empty nodeSize hs block] at hg
      cases block with
      | true => simp at hg
      | false =>
        simp only [Bool.false_eq_true, if_false, Option.some.injEq] at hg
        subst hg
        exact ⟨[], hs, hz, hrange, hlast⟩
    | cons x l =>
      obtain ⟨a, k⟩ := x
      obtain ⟨q1, hg1, hs1, _, hsz⟩ := shape_get nodeSize hs block
      rw [hg1, Option.some.injEq] at hg
      subst hg
      have hk := hrange (a, k) (by simp)
      have hrest : ∀ y ∈ l, 0 ≤ y.2.size ∧ y.2.size ≤ S := fun y hy => hrange y (by simp [hy])
      have hl0 := footprint_nonneg nodeSize (l.map Prod.snd) (fun p hp => by
        obtain ⟨y, hy, rfl⟩ := List.mem_map.1 hp
        exact (hrest y hy).1)
      have hbound : footprint nodeSize (((a, k) :: l).map Prod.snd)
          ≤ 2 ^ 30 + S + (nodeSize : Int) := by
        rcases hlast with h | ⟨l1, y, hl, hf⟩
        · simp at h
        · have hy := hrange y (by rw [hl]; simp)
          rw [hl]
          simp only [List.map_append, List.map_cons, List.map_nil, footprint_append,
            footprint_cons, footprint_nil]
          omega
      refine ⟨l, hs1, ?_, hrest, ?_⟩
      · show ((q1.size : Nat) : Int) = _
        rw [hsz]
        simp only [List.map_cons, footprint_cons] at hz hbound
        simp only at hk
        generalize footprint nodeSize (l.map Prod.snd) = f at hz hbound hl0 ⊢
        omega
      · rcases hlast with h | ⟨l1, y, hl, hf⟩
        · simp at h
        · cases l1 with
          | nil =>
            simp only [List.nil_append, List.cons.injEq] at hl
            exact Or.inl hl.2
          | cons z l1 =>
            simp only [List.cons_append, List.cons.injEq] at hl
            refine Or.inr ⟨l1, y, hl.2, ?_⟩
            have hz0 : 0 ≤ z.2.size := by
              rw [← hl.1]; exact hk.1
            simp only [List.map_cons, footprint_cons] at hf
            omega
  | flush q _ _ =>
    exact ⟨[], shape_flush q, by simp [avpacket_queue_flush, footprint], by simp, Or.inl rfl⟩
/-- C26. In every queue state reachable from `avpacket_queue_init` by puts of
packets with payload size in `[0, S]`, gets and flushes (`S` an `int` value,
`sizeof(AVPacketList)` below `2 ^ 63`), the stored size is at most
`1 GiB + S + sizeof(AVPacketList)`; when it is above 1 GiB, the queued packets
without the last one fit under the ceiling, so the ceiling is overshot by one
packet at most; and at a stored size of exactly 1 GiB a put (duplication and
allocation succeeding) is still accepted, leaving
`1 GiB + payload size + sizeof(AVPacketList)`. -/
theorem queue_size_ceiling (nodeSize : Nat) (S : Int) (h2 : nodeSize < 2 ^ 63) (h0 : 0 ≤ S)
    (hS : S < 2 ^ 31) (q : AVPacketQueue) (hr : ReachableWithin nodeSize S q) :
    (q.size : Int) ≤ 2 ^ 30 + S + (nodeSize : Int) ∧
    (1024 * 1024 * 1024 < q.size →
      ∃ pkts last, queued q = pkts ++ [last] ∧ footprint nodeSize pkts ≤ 2 ^ 30 ∧
        (q.size : Int) = footprint nodeSize pkts + (last.size + (nodeSize : Int))) ∧
    (∀ pkt : AVPacket, q.size = 1024 * 1024 * 1024 → 0 ≤ pkt.size → pkt.size ≤ S →
      (avpacket_queue_put nodeSize q pkt true true).1 = 0 ∧
      ((avpacket_queue_put nodeSize q pkt true true).2.size : Int)
        = 2 ^ 30 + pkt.size + (nodeSize : Int) ∧
      queued (avpacket_queue_put nodeSize q pkt true true).2 = queued q ++ [pkt]) := by
  obtain ⟨l, hs, hz, hrange, hlast⟩ := within_inv nodeSize S h2 hS q hr
  refine ⟨?_, ?_, ?_⟩
  · rcases hlast with h | ⟨l1, x, hl, hf⟩
    · subst h
      simp only [List.map_nil, footprint_nil] at hz
      omega
    · have hx := hrange x (by rw [hl]; simp)
      rw [hz, hl]
      simp only [List.map_append, List.map_cons, List.map_nil, footprint_append,
        footprint_cons, footprint_nil]
      omega
  · intro hover
    rcases hlast with h | ⟨l1, x, hl, hf⟩
    · subst h
      simp only [List.map_nil, footprint_nil] at hz
      omega
    · refine ⟨l1.map Prod.snd, x.2, ?_, hf, ?_⟩
      · rw [shape_queued hs, hl]
        simp
      · rw [hz, hl]
        simp only [List.map_append, List.map_cons, List.map_nil, footprint_append,
          footprint_cons, footprint_nil]
        omega
  · intro pkt hq hp0 hp1
    have hle : q.size ≤ 1024 * 1024 * 1024 := by omega
    obtain ⟨hret, hshape⟩ := shape_put nodeSize hs pkt hle
    obtain ⟨_, hsz⟩ := put_fields nodeSize q pkt hle
    refine ⟨hret, ?_, ?_⟩
    · rw [hsz]
      omega
    · rw [shape_queued hshape, shape_queued hs]
      simp

/-- Instance of C26 with `sizeof(AVPacketList) = 96` and `S` = 1 GiB: a packet
that fills the fresh queue to exactly 1 GiB followed by a packet of 1 GiB; both
puts are accepted and the stored size reaches the bound `1 GiB + S + 96`. -/
theorem queue_size_ceiling_witness :
    (avpacket_queue_put 96 (avpacket_queue_put 96 avpacket_queue_init samplePacketFill
        true true).2 samplePacketGiB true true).1 = 0 ∧
      (((avpacket_queue_put 96 (avpacket_queue_put 96 avpacket_queue_init samplePacketFill
        true true).2 samplePacketGiB true true).2.size : Nat) : Int)
        ≤ 2 ^ 30 + 2 ^ 30 + ((96 : Nat) : Int) ∧
      (avpacket_queue_put 96 (avpacket_queue_put 96 avpacket_queue_init samplePacketFill
        true true).2 samplePacketGiB true true).2.size = 2 ^ 30 + 2 ^ 30 + 96 :=
  ⟨by decide,
    (queue_size_ceiling 96 (2 ^ 30) (by decide) (by decide) (by decide) _
      (ReachableWithin.put _ samplePacketGiB true true
        (ReachableWithin.put avpacket_queue_init samplePacketFill true true
          ReachableWithin.init (by decide) (by decide))
        (by decide) (by decide))).1,
    by decide⟩
/-! ## Ancillary packets: termination -/

/-- The sub-packet loop of a multi-packet container returns when the budget of
iterations covers one iteration per 4 words between `py` and `pend - 3`. -/
theorem multipacket_units_total (y : List Nat) (wanted_lines : Int) (pend : Int)
    (hpend : pend ≤ y.length) :
    ∀ (fuel : Nat) (py : Int) (tgt : Nat) (mem : Bytes), 0 ≤ py →
      pend - 3 - py ≤ 4 * (fuel : Int) →
      ∃ k mem1, multipacket_units
          (fun p e t m => teletext_data_unit_from_ancillary_packet y p e t m wanted_lines 0)
          y pend fuel py tgt mem = some (tgt + 46 * k, mem1)
  | 0, py, tgt, mem, _, hf => by
    have hc : ¬ py < pend - 3 := by push_cast at hf; omega
    exact ⟨0, mem, by simp [multipacket_units, hc]⟩
  | fuel + 1, py, tgt, mem, hpy, hf => by
    by_cases hc : py < pend - 3
    · obtain ⟨n, w, m1, _, hw, hr, _, _⟩ := ancillary_packet_total y py pend tgt mem
        wanted_lines hpy (by omega) hpend
      obtain ⟨k, m2, hr2⟩ := multipacket_units_total y wanted_lines pend hpend fuel
        (py + (4 + ((w &&& 255 : Nat) : Int))) (tgt + 46 * n) m1 (by omega)
        (by push_cast at hf; omega)
      refine ⟨n + k, m2, ?_⟩
      rw [multipacket_units_step _ y pend fuel py tgt (tgt + 46 * n) mem m1 w hc hr hw, hr2,
        show tgt + 46 * n + 46 * k = tgt + 46 * (n + k) by ring]
    · exact ⟨0, mem, by simp [multipacket_units_done _ y pend (fuel + 1) py tgt mem hc]⟩

theorem ancillary_nested_eq (y : List Nat) (wanted_lines : Int) (d : Nat) :
    (fun p e t m => ancillary_packet_depth y wanted_lines (d + 1) p e t m 0)
      = (fun p e t m => teletext_data_unit_from_ancillary_packet y p e t m wanted_lines 0) := by
  funext p e t m
  exact ancillary_packet_depth_zero y wanted_lines d p e t m

/-- A nesting bound of two calls is never exceeded: any larger bound gives the
same result, for every input. -/
theorem ancillary_packet_depth_two (y : List Nat) (wanted_lines : Int) (d : Nat) (py pend : Int)
    (tgt : Nat) (mem : Bytes) (allow_multipacket : Int) :
    ancillary_packet_depth y wanted_lines (d + 2) py pend tgt mem allow_multipacket
      = teletext_data_unit_from_ancillary_packet y py pend tgt mem wanted_lines
          allow_multipacket := by
  rw [teletext_data_unit_from_ancillary_packet]
  show ancillary_packet_depth y wanted_lines (d + 1 + 1) py pend tgt mem allow_multipacket
    = ancillary_packet_depth y wanted_lines (0 + 1 + 1) py pend tgt mem allow_multipacket
  rw [ancillary_packet_depth, ancillary_packet_depth, ancillary_nested_eq y wanted_lines d,
    ancillary_nested_eq y wanted_lines 0]

/-- The function teletext_data_unit_from_ancillary_packet returns for both values
of `allow_multipacket` when its header and the words before `pend` are in the
array. -/
theorem ancillary_packet_returns (y : List Nat) (py pend : Int) (tgt : Nat) (mem : Bytes)
    (wanted_lines allow_multipacket : Int) (hpy : 0 ≤ py) (hhdr : py + 3 ≤ y.length)
    (hpend : pend ≤ y.length) :
    ∃ k mem1, teletext_data_unit_from_ancillary_packet y py pend tgt mem wanted_lines
        allow_multipacket = some (tgt + 46 * k, mem1) := by
  by_cases ha : allow_multipacket = 0
  · subst ha
    obtain ⟨k, _, m1, _, _, hr, _⟩ := ancillary_packet_total y py pend tgt mem wanted_lines hpy
      hhdr hpend
    exact ⟨k, m1, hr⟩
  · have e0 := sample_in_range y py hpy (by omega)
    have e1 := sample_in_range y (py + 1) (by omega) (by omega)
    have e2 := sample_in_range y (py + 2) (by omega) (by omega)
    generalize y.getD py.toNat 0 = did at e0
    generalize y.getD (py + 1).toNat 0 = sdid at e1
    generalize y.getD (py + 2).toNat 0 = w at e2
    by_cases hs : did = 0x143 ∧ sdid = 0x102
    · obtain ⟨rfl, rfl⟩ := hs
      obtain ⟨k, m1, _, hr, _, _⟩ := op47_data_total y (py + 3)
        (min pend (py + 3 + ((w &&& 255 : Nat) : Int))) tgt mem wanted_lines (by omega)
        (le_trans (min_le_left _ _) hpend)
      exact ⟨k, m1, by
        rw [ancillary_packet_subtitle y py pend tgt mem wanted_lines allow_multipacket w e0 e1
          e2, hr]⟩
    · by_cases hm : did = 0x143 ∧ sdid = 0x203
      · obtain ⟨rfl, rfl⟩ := hm
        rw [ancillary_packet_container y py pend tgt mem wanted_lines allow_multipacket w ha e0
          e1 e2]
        exact multipacket_units_total y wanted_lines _ (le_trans (min_le_left _ _) hpend) _ _
          tgt mem (by omega) (by omega)
      · refine ⟨0, mem, ?_⟩
        simp [teletext_data_unit_from_ancillary_packet, ancillary_packet_depth, e0, e1, e2, hs,
          hm]
/-- C21. For every sample array, position, end and output and both values of
`allow_multipacket`, with the three header words and the words before `pend`
inside the array: `teletext_data_unit_from_ancillary_packet` returns.  For
every input, the nested invocations are made with `allow_multipacket = 0` and
make no further nested invocation (a nesting bound of 1 suffices for them), so
a nesting bound of 2 is never exceeded by the outer call.  The sub-packet
loop returns within one iteration per 4 words between the read position and
`pend - 3`, each iteration moving the read position by at least 4 words. -/
theorem ancillary_packet_terminates (y : List Nat) (py pend : Int) (tgt : Nat) (mem : Bytes)
    (wanted_lines allow_multipacket : Int) (hpy : 0 ≤ py) (hhdr : py + 3 ≤ y.length)
    (hpend : pend ≤ y.length) :
    (∃ k mem1, teletext_data_unit_from_ancillary_packet y py pend tgt mem wanted_lines
        allow_multipacket = some (tgt + 46 * k, mem1)) ∧
    (∀ d : Nat, ancillary_packet_depth y wanted_lines (d + 2) py pend tgt mem allow_multipacket
      = teletext_data_unit_from_ancillary_packet y py pend tgt mem wanted_lines
          allow_multipacket) ∧
    (∀ (d : Nat) (p e : Int) (t : Nat) (m : Bytes),
      ancillary_packet_depth y wanted_lines (d + 1) p e t m 0
        = ancillary_packet_depth y wanted_lines 1 p e t m 0) ∧
    (∀ (pend1 : Int) (fuel : Nat) (p : Int) (t : Nat) (m : Bytes), 0 ≤ p →
      pend1 ≤ y.length → pend1 - 3 - p ≤ 4 * (fuel : Int) →
      ∃ k m1, multipacket_units
          (fun p e t m => teletext_data_unit_from_ancillary_packet y p e t m wanted_lines 0)
          y pend1 fuel p t m = some (t + 46 * k, m1)) ∧
    (∀ (sub : Int → Int → Nat → Bytes → Option (Nat × Bytes)) (pend1 : Int) (fuel : Nat)
      (p : Int) (t t1 : Nat) (m m1 : Bytes) (ndc : Nat), p < pend1 - 3 →
      sub p pend1 t m = some (t1, m1) → sample y (p + 2) = some ndc →
      ∃ p1, p + 4 ≤ p1 ∧
        multipacket_units sub y pend1 (fuel + 1) p t m
          = multipacket_units sub y pend1 fuel p1 t1 m1) := by
  refine ⟨ancillary_packet_returns y py pend tgt mem wanted_lines allow_multipacket hpy hhdr
    hpend, fun d => ancillary_packet_depth_two y wanted_lines d py pend tgt mem
      allow_multipacket, ?_, ?_, ?_⟩
  · intro d p e t m
    rw [ancillary_packet_depth_zero y wanted_lines d, ancillary_packet_depth_zero y wanted_lines 0]
  · intro pend1 fuel p t m hp hpend1 hf
    exact multipacket_units_total y wanted_lines pend1 hpend1 fuel p t m hp hf
  · intro sub pend1 fuel p t t1 m m1 ndc hc hsub hn
    exact ⟨p + (4 + ((ndc &&& 255 : Nat) : Int)), by omega,
      multipacket_units_step sub y pend1 fuel p t t1 m m1 ndc hc hsub hn⟩

/-- Instance of C21: the multi-packet container of the sample line, parsed with
`allow_multipacket = 1`. -/
theorem ancillary_packet_terminates_witness :
    ∃ k mem1, teletext_data_unit_from_ancillary_packet sampleContainerLine 3 65 0 (fun _ => 0) 2
        1 = some (0 + 46 * k, mem1) :=
  (ancillary_packet_terminates sampleContainerLine 3 65 0 (fun _ => 0) 2 1 (by decide)
    (by decide) (by decide)).1
/-! ## Marker scan: termination and reads -/

theorem sample_none_iff (y : List Nat) (i : Int) :
    sample y i = none ↔ i < 0 ∨ (y.length : Int) ≤ i := by
  by_cases h0 : 0 ≤ i
  · simp only [sample, if_pos h0, List.getElem?_eq_none_iff]
    omega
  · simp only [sample, if_neg h0, true_iff]
    omega

/-- The result of the marker scan does not depend on the budget of iterations
once it covers one iteration per word between `py` and `pend - 6`. -/
theorem vanc_scan_fuel (y : List Nat) (pend : Int) (wanted_lines : Int) :
    ∀ (fuel1 fuel2 : Nat) (py : Int) (tgt : Nat) (mem : Bytes),
      pend - 6 ≤ py + (fuel1 : Int) → pend - 6 ≤ py + (fuel2 : Int) →
      vanc_scan y pend wanted_lines fuel1 py tgt mem
        = vanc_scan y pend wanted_lines fuel2 py tgt mem
  | 0, fuel2, py, tgt, mem, h1, _ => by
    have hc : ¬ py < pend - 6 := by push_cast at h1; omega
    cases fuel2 <;> simp [vanc_scan, hc]
  | fuel1 + 1, 0, py, tgt, mem, _, h2 => by
    have hc : ¬ py < pend - 6 := by push_cast at h2; omega
    simp [vanc_scan, hc]
  | fuel1 + 1, fuel2 + 1, py, tgt, mem, h1, h2 => by
    by_cases hc : py < pend - 6
    · simp only [vanc_scan, if_pos hc]
      cases adf_at y py with
      | none => rfl
      | some b =>
        cases b with
        | false =>
          exact vanc_scan_fuel y pend wanted_lines fuel1 fuel2 (py + 1) tgt mem
            (by push_cast at h1; omega) (by push_cast at h2; omega)
        | true =>
          simp only
          cases teletext_data_unit_from_ancillary_packet y (py + 3) pend tgt mem wanted_lines 0
            with
          | none => rfl
          | some r =>
            obtain ⟨tgt1, mem1⟩ := r
            simp only
            cases sample y (py + 3 + 2) with
            | none => rfl
            | some dc =>
              exact vanc_scan_fuel y pend wanted_lines fuel1 fuel2 _ tgt1 mem1
                (by push_cast at h1; omega) (by push_cast at h2; omega)
    · simp [vanc_scan, hc]

/-- C23. For every content of the 1920-sample luma array (a sample read
outside `[0, 1920)` makes a decoder of the model return `none`, and so does a
scan that runs out of its budget of iterations): the marker scan of
`teletext_data_unit_from_vanc_data`, with the functions it calls, returns a
result from position 0, so it terminates and none of the sample reads made by
it, by `teletext_data_unit_from_ancillary_packet`, by
`teletext_data_unit_from_op47_data` and by
`teletext_data_unit_from_op47_vbi_packet` leaves the array; 1914 iterations
are enough, a larger budget giving the same result; and the same holds for
`teletext_data_unit_from_vanc_data` on every V210 line, whose sample array has
1920 entries. -/
theorem vanc_scan_terminates_in_range (y : List Nat) (hy : y.length = 1920)
    (wanted_lines : Int) (tgt : Nat) (mem : Bytes) :
    (∀ i : Int, sample y i = none ↔ i < 0 ∨ 1920 ≤ i) ∧
    (∃ k mem1, vanc_scan y 1920 wanted_lines 1920 0 tgt mem = some (tgt + 46 * k, mem1)) ∧
    (∀ fuel : Nat, 1914 ≤ fuel →
      vanc_scan y 1920 wanted_lines fuel 0 tgt mem
        = vanc_scan y 1920 wanted_lines 1920 0 tgt mem) ∧
    (∀ (py : Int) (t : Nat) (m : Bytes), 0 ≤ py → py < 1920 - 6 →
      (∃ b, adf_at y py = some b) ∧
      ∃ k w m1, sample y (py + 3 + 2) = some w ∧
        teletext_data_unit_from_ancillary_packet y (py + 3) 1920 t m wanted_lines 0
          = some (t + 46 * k, m1)) ∧
    (∀ src : Bytes, (v210_luma src 640 0).length = 1920 ∧
      ∃ k mem1, teletext_data_unit_from_vanc_data src tgt mem wanted_lines
        = some (tgt + 46 * k, mem1)) := by
  refine ⟨?_, ?_, ?_, ?_, ?_⟩
  · intro i
    rw [sample_none_iff, hy]
    norm_num
  · obtain ⟨k, m1, hr, _, _⟩ := vanc_scan_total y wanted_lines hy 1920 0 tgt mem (le_refl _)
      (by norm_num)
    exact ⟨k, m1, hr⟩
  · intro fuel hf
    exact vanc_scan_fuel y 1920 wanted_lines fuel 1920 0 tgt mem (by push_cast; omega)
      (by norm_num)
  · intro py t m hpy hc
    have e0 := sample_in_range y py hpy (by omega)
    have e1 := sample_in_range y (py + 1) (by omega) (by omega)
    have e2 := sample_in_range y (py + 2) (by omega) (by omega)
    constructor
    · simp only [adf_at, e0, e1, e2]
      split
      · exact ⟨_, rfl⟩
      · split
        · exact ⟨_, rfl⟩
        · exact ⟨_, rfl⟩
    · obtain ⟨k, w, m1, _, hw, hr, _, _⟩ := ancillary_packet_total y (py + 3) 1920 t m
        wanted_lines (by omega) (by omega) (by omega)
      exact ⟨k, w, m1, hw, hr⟩
  · intro src
    obtain ⟨k, m1, hr, _, _⟩ := vanc_data_total src tgt mem wanted_lines
    exact ⟨v210_luma_length src 640 0, k, m1, hr⟩

/-- Instance of C23: the sample array of the V210 line packed from the sample
container line. -/
theorem vanc_scan_terminates_in_range_witness :
    ∃ k mem1, vanc_scan (v210_luma (v210_pack sampleContainerLine) 640 0) 1920 2 1920 0 0
        (fun _ => 0) = some (0 + 46 * k, mem1) :=
  (vanc_scan_terminates_in_range (v210_luma (v210_pack sampleContainerLine) 640 0)
    (v210_luma_length _ 640 0) 2 0 (fun _ => 0)).2.1
end Decklink
